import Mathlib

/-! # Catch-up synchronisation of the OG node

A shallow embedding of

* `og/syncer/catchup_syncer.go`: the catch-up syncer (`isUpToDate`,
  `NotifyWorkingStateChanged`, `syncToLatest`), as explicit state passing over
  the syncer fields, an abstract world for the collaborators, and a trace of
  the external calls that were made;
* `og/message_handler.go`: the header range scan of `HandleHeaderRequest`, as
  a loop state, one function per loop iteration, and the loop itself.

Go `uint64` values are natural numbers and every `uint64` operation is reduced
modulo `2 ^ 64` where the source computes it.
-/

namespace OG

/-! ## Machine integers -/

/-- Go `uint64` addition: the sum modulo `2 ^ 64`. -/
def add64 (a b : Nat) : Nat := (a + b) % 2 ^ 64

/-- Go `uint64` subtraction: the difference modulo `2 ^ 64`. -/
def sub64 (a b : Nat) : Nat := (a % 2 ^ 64 + 2 ^ 64 - b % 2 ^ 64) % 2 ^ 64

/-- Go conversion `int(x)` of a `uint64` on a 64-bit platform: the same 64 bits
read as a two's complement number. -/
def toInt (a : Nat) : Int :=
  if a % 2 ^ 64 < 2 ^ 63 then ((a % 2 ^ 64 : Nat) : Int) else ((a % 2 ^ 64 : Nat) : Int) - 2 ^ 64

/-- A 32-byte hash, read as a number; `0` is the zero value `Hash{}`. -/
abbrev Hash := Nat

/-- The method `Hash.Empty`: the hash is the zero value. -/
def Hash.Empty (h : Hash) : Bool := h == 0

/-! ## The catch-up syncer (`og/syncer/catchup_syncer.go`) -/

namespace syncer

/-- The enumeration `CatchupSyncerStatus` (`Started = iota`, then `Stopped`). -/
inductive CatchupSyncerStatus
  | Started
  | Stopped
  deriving DecidableEq, Repr

/-- The constant `stopSyncHeightDiffThreashold`. -/
def stopSyncHeightDiffThreashold : Nat := 0

/-- The constant `startSyncHeightDiffThreashold`. -/
def startSyncHeightDiffThreashold : Nat := 2

/-- A Go `error` value that is not nil. -/
abbrev GoError := String

/-- The fields of `CatchupSyncer` that the embedded methods read or write.
`OnWorkingStateChanged` holds one identifier per listener channel. -/
structure CatchupSyncer where
  Enabled : Bool
  SyncMode : Nat
  OnWorkingStateChanged : List Nat
  syncFlag : Bool
  WorkState : CatchupSyncerStatus
  BootStrapNode : Bool
  currentBestHeight : Nat
  deriving DecidableEq, Repr

/-- An externally visible action of the syncer: a call into a collaborator or a
send on a listener channel. -/
inductive Event
  | BestPeerInfo
  | GetCurrentNodeStatus
  | GetHeight
  | Synchronise (peerId : String) (hash : Hash) (seqId : Nat) (mode : Nat)
  | Send (ch : Nat) (status : CatchupSyncerStatus)
  deriving DecidableEq, Repr

/-- The collaborators of the syncer over a world `ω`.  Every call returns its
result together with the world after the call, so a collaborator may answer
differently each time it is asked.
`BestPeerInfo` is `PeerProvider.BestPeerInfo` (peer id, head hash, height, or an
error), `CurrentId` is `NodeStatusDataProvider.GetCurrentNodeStatus().CurrentId`,
`GetHeight` is `NodeStatusDataProvider.GetHeight`, and `Synchronise` is
`Downloader.Synchronise` (`none` for a nil error). -/
structure Collaborators (ω : Type) where
  BestPeerInfo : ω → Except GoError (String × Hash × Nat) × ω
  CurrentId : ω → Nat × ω
  GetHeight : ω → Nat × ω
  Synchronise : String → Hash → Nat → Nat → ω → Option GoError × ω

/-- The syncer together with the world it runs in and the actions performed so
far, oldest first. -/
structure Node (ω : Type) where
  c : CatchupSyncer
  world : ω
  trace : List Event

/-- The method `isUpToDate`. -/
def isUpToDate {ω : Type} (E : Collaborators ω) (maxDiff : Nat) (s : Node ω) : Bool × Node ω :=
  let r := E.BestPeerInfo s.world
  let s1 : Node ω := { s with world := r.2, trace := s.trace ++ [Event.BestPeerInfo] }
  match r.1 with
  | .error _ => (s1.c.BootStrapNode, s1)
  | .ok (_, _, seqId) =>
    let o := E.CurrentId s1.world
    let s2 : Node ω := { s1 with world := o.2, trace := s1.trace ++ [Event.GetCurrentNodeStatus] }
    (decide (seqId ≤ add64 o.1 maxDiff), s2)

/-- The method `isSyncing`. -/
def isSyncing {ω : Type} (s : Node ω) : Bool := s.c.syncFlag

/-- The method `getWorkState`. -/
def getWorkState {ω : Type} (s : Node ω) : CatchupSyncerStatus := s.c.WorkState

/-- The method `setSyncFlag`. -/
def setSyncFlag {ω : Type} (s : Node ω) : Node ω := { s with c := { s.c with syncFlag := true } }

/-- The method `unsetSyncFlag`. -/
def unsetSyncFlag {ω : Type} (s : Node ω) : Node ω := { s with c := { s.c with syncFlag := false } }

/-- The method `NotifyWorkingStateChanged`: nothing when the status is the
current one, otherwise the status is stored and sent on every listener channel
in list order. -/
def NotifyWorkingStateChanged {ω : Type} (status : CatchupSyncerStatus) (s : Node ω) : Node ω :=
  if s.c.WorkState = status then s
  else
    { s with
      c := { s.c with WorkState := status }
      trace := s.trace ++ s.c.OnWorkingStateChanged.map (fun ch => Event.Send ch status) }

/-- The method `CacheNewTxEnabled`. -/
def CacheNewTxEnabled {ω : Type} (E : Collaborators ω) (s : Node ω) : Bool × Node ω :=
  if getWorkState s = CatchupSyncerStatus.Stopped then (true, s)
  else
    let h := E.GetHeight s.world
    let s1 : Node ω := { s with world := h.2, trace := s.trace ++ [Event.GetHeight] }
    if add64 h.1 (startSyncHeightDiffThreashold * 3 % 2 ^ 64) < s1.c.currentBestHeight then (false, s1)
    else (true, s1)

/-- The `for !c.isUpToDate(diff) { ... }` loop of `syncToLatest` with the code
after it, up to but not including the deferred `unsetSyncFlag`.  Every pass of
the loop uses one unit of `fuel`; `none` means the fuel ran out while the node
was still behind. The result is the returned error (`none` for nil) and the
node at return. -/
def syncLoop {ω : Type} (E : Collaborators ω) : Nat → Nat → Node ω → Option (Option GoError × Node ω)
  | fuel, diff, s =>
    let u := isUpToDate E diff s
    if u.1 then
      some (none, NotifyWorkingStateChanged CatchupSyncerStatus.Stopped u.2)
    else
      match fuel with
      | 0 => none
      | fuel + 1 =>
        let s1 := NotifyWorkingStateChanged CatchupSyncerStatus.Started u.2
        let b := E.BestPeerInfo s1.world
        let s2 : Node ω := { s1 with world := b.2, trace := s1.trace ++ [Event.BestPeerInfo] }
        match b.1 with
        | .error err => some (some err, s2)
        | .ok (bpId, bpHash, seqId) =>
          let o := E.CurrentId s2.world
          let s3 : Node ω :=
            { s2 with world := o.2, trace := s2.trace ++ [Event.GetCurrentNodeStatus] }
          let s4 : Node ω := { s3 with c := { s3.c with currentBestHeight := seqId } }
          let r := E.Synchronise bpId bpHash seqId s4.c.SyncMode s4.world
          let s5 : Node ω :=
            { s4 with
              world := r.2
              trace := s4.trace ++ [Event.Synchronise bpId bpHash seqId s4.c.SyncMode] }
          match r.1 with
          | some err => some (some err, s5)
          | none => syncLoop E fuel stopSyncHeightDiffThreashold s5

/-- The method `syncToLatest`: a call made while a cycle is in flight returns
nil at once; otherwise the flag is set, the loop runs from `diff = 0`, and the
deferred `unsetSyncFlag` runs on every return path. -/
def syncToLatest {ω : Type} (E : Collaborators ω) (fuel : Nat) (s : Node ω) :
    Option (Option GoError × Node ω) :=
  if isSyncing s then some (none, s)
  else
    match syncLoop E fuel 0 (setSyncFlag s) with
    | none => none
    | some (err, s1) => some (err, unsetSyncFlag s1)

end syncer

/-! ## The header range scan (`og/message_handler.go`) -/

/-- The part of `types.Sequencer` the scan reads: the hash of its `TxBase` and
its `Id`. -/
structure Sequencer where
  Hash : Hash
  Id : Nat
  deriving DecidableEq, Repr

/-- The method `Sequencer.Number`. -/
def Sequencer.Number (t : Sequencer) : Nat := t.Id

/-- The method `GetTxHash` of the embedded `TxBase`. -/
def Sequencer.GetTxHash (t : Sequencer) : OG.Hash := t.Hash

/-- The three lookups of the storage collaborator `Dag` that the scan uses.
`none` is the nil pointer a lookup returns when it finds nothing. -/
structure Dag where
  GetSequencerByHash : Hash → Option Sequencer
  GetSequencer : Hash → Nat → Option Sequencer
  GetSequencerById : Nat → Option Sequencer

/-- One storage lookup made by the scan. -/
inductive DagCall
  | ByHash (hash : Hash)
  | ByHashAndId (hash : Hash) (id : Nat)
  | ById (id : Nat)
  deriving DecidableEq, Repr

/-- The type `types.HashOrNumber`. -/
structure HashOrNumber where
  Hash : Hash
  Number : Nat
  deriving DecidableEq, Repr

/-- The type `types.MessageHeaderRequest`. -/
structure MessageHeaderRequest where
  Origin : HashOrNumber
  Amount : Nat
  Skip : Nat
  Reverse : Bool
  deriving DecidableEq, Repr

/-- The three limits the scan reads and whose declarations are outside the
handler's file: the byte budget `softResponseLimit`, the per-header estimate
`estHeaderRlpSize` and `downloader.MaxHeaderFetch`. -/
structure Limits where
  softResponseLimit : Nat
  estHeaderRlpSize : Nat
  MaxHeaderFetch : Nat
  deriving DecidableEq, Repr

/-- The local variables of `HandleHeaderRequest` that live across loop
iterations, and the storage lookups made so far (oldest first). -/
structure ScanState where
  query : MessageHeaderRequest
  first : Bool
  bytes : Nat
  headers : List Sequencer
  unknown : Bool
  calls : List DagCall
  deriving DecidableEq, Repr

/-- How one loop iteration ends: `next` goes back to the loop condition,
`stop` is the `break` on an unresolved origin, and `nilDeref` is a method call
on the nil pointer a lookup returned, which aborts the handler. -/
inductive Iter
  | next (s : ScanState)
  | stop (s : ScanState)
  | nilDeref (s : ScanState)
  deriving DecidableEq, Repr

/-- How the loop ends: `done` when the loop is left (by its condition or by
`break`), `nilDeref` when an iteration aborted, `outOfFuel` when the fuel of
the embedding ran out. -/
inductive ScanResult
  | done (s : ScanState)
  | nilDeref (s : ScanState)
  | outOfFuel
  deriving DecidableEq, Repr

/-- The loop condition
`!unknown && len(headers) < int(query.Amount) && bytes < softResponseLimit
&& len(headers) < downloader.MaxHeaderFetch`. -/
def loopCond (L : Limits) (s : ScanState) : Bool :=
  !s.unknown && decide ((s.headers.length : Int) < toInt s.query.Amount)
    && decide (s.bytes < L.softResponseLimit) && decide (s.headers.length < L.MaxHeaderFetch)

/-- The first half of the loop body: retrieve the next header satisfying the
query.  In hash mode the first lookup is by hash and fills in the origin
number; later ones are by hash and number.  In number mode it is by number. -/
def resolveOrigin (d : Dag) (hashMode : Bool) (s : ScanState) : Option Sequencer × ScanState :=
  if hashMode then
    if s.first then
      let s1 : ScanState :=
        { s with first := false, calls := s.calls ++ [DagCall.ByHash s.query.Origin.Hash] }
      match d.GetSequencerByHash s.query.Origin.Hash with
      | some origin =>
        (some origin,
          { s1 with query := { s1.query with Origin := { s1.query.Origin with Number := origin.Number } } })
      | none => (none, s1)
    else
      (d.GetSequencer s.query.Origin.Hash s.query.Origin.Number,
        { s with calls := s.calls ++ [DagCall.ByHashAndId s.query.Origin.Hash s.query.Origin.Number] })
  else
    (d.GetSequencerById s.query.Origin.Number,
      { s with calls := s.calls ++ [DagCall.ById s.query.Origin.Number] })

/-- The `switch` of the loop body: advance to the next header of the query,
after `origin` has been appended. -/
def advance (d : Dag) (hashMode : Bool) (origin : Sequencer) (s : ScanState) : Iter :=
  if hashMode && s.query.Reverse then
    let ancestor := add64 s.query.Skip 1
    if ancestor = 0 then Iter.next { s with unknown := true }
    else
      let n := sub64 s.query.Origin.Number ancestor
      let s1 : ScanState := { s with calls := s.calls ++ [DagCall.ById n] }
      match d.GetSequencerById n with
      | none => Iter.nilDeref s1
      | some seq =>
        Iter.next
          { s1 with
            query := { s1.query with Origin := { Hash := seq.GetTxHash, Number := seq.Number } }
            unknown := seq.GetTxHash.Empty }
  else if hashMode && !s.query.Reverse then
    let current := origin.Number
    let next := add64 (add64 current s.query.Skip) 1
    if next ≤ current then Iter.next { s with unknown := true }
    else
      let s1 : ScanState := { s with calls := s.calls ++ [DagCall.ById next] }
      match d.GetSequencerById next with
      | some header =>
        let nextHash := header.GetTxHash
        let old := sub64 next (add64 s.query.Skip 1)
        let s2 : ScanState := { s1 with calls := s1.calls ++ [DagCall.ById old] }
        match d.GetSequencerById old with
        | none => Iter.nilDeref s2
        | some oldSeq =>
          let expOldHash := oldSeq.GetTxHash
          if expOldHash = s2.query.Origin.Hash then
            Iter.next { s2 with query := { s2.query with Origin := { Hash := nextHash, Number := next } } }
          else Iter.next { s2 with unknown := true }
      | none => Iter.next { s1 with unknown := true }
  else if s.query.Reverse then
    if add64 s.query.Skip 1 ≤ s.query.Origin.Number then
      Iter.next
        { s with
          query :=
            { s.query with
              Origin :=
                { s.query.Origin with Number := sub64 s.query.Origin.Number (add64 s.query.Skip 1) } } }
    else Iter.next { s with unknown := true }
  else
    Iter.next
      { s with
        query :=
          { s.query with
            Origin :=
              { s.query.Origin with Number := add64 s.query.Origin.Number (add64 s.query.Skip 1) } } }

/-- One pass through the loop body. -/
def iteration (L : Limits) (d : Dag) (hashMode : Bool) (s : ScanState) : Iter :=
  match resolveOrigin d hashMode s with
  | (none, s1) => Iter.stop s1
  | (some origin, s1) =>
    advance d hashMode origin
      { s1 with headers := s1.headers ++ [origin], bytes := s1.bytes + L.estHeaderRlpSize }

/-- The `for` loop of `HandleHeaderRequest`; every pass through the body uses
one unit of `fuel`. -/
def scanLoop (L : Limits) (d : Dag) (hashMode : Bool) : Nat → ScanState → ScanResult
  | fuel, s =>
    if loopCond L s then
      match fuel with
      | 0 => ScanResult.outOfFuel
      | fuel + 1 =>
        match iteration L d hashMode s with
        | Iter.next s1 => scanLoop L d hashMode fuel s1
        | Iter.stop s1 => ScanResult.done s1
        | Iter.nilDeref s1 => ScanResult.nilDeref s1
    else ScanResult.done s

/-- The state in which `HandleHeaderRequest` enters its loop. -/
def initScan (query : MessageHeaderRequest) : ScanState :=
  { query := query, first := true, bytes := 0, headers := [], unknown := false, calls := [] }

/-- The handler `HandleHeaderRequest` up to the point where the response is
built.  Every pass that returns to the loop condition has appended a header, so
`MaxHeaderFetch` passes are all the loop can make (`scanLoop_enough_fuel`). -/
def HandleHeaderRequest (L : Limits) (d : Dag) (query : MessageHeaderRequest) : ScanResult :=
  scanLoop L d (!query.Origin.Hash.Empty) L.MaxHeaderFetch (initScan query)

/-- The `Sequencers` of the `MessageHeaderResponse` that is sent to the peer;
`none` when the handler aborted before sending. -/
def ScanResult.response : ScanResult → Option (List Sequencer)
  | ScanResult.done s => some s.headers
  | ScanResult.nilDeref _ => none
  | ScanResult.outOfFuel => none

/-- The storage lookups made by the handler. -/
def ScanResult.calls : ScanResult → List DagCall
  | ScanResult.done s => s.calls
  | ScanResult.nilDeref s => s.calls
  | ScanResult.outOfFuel => []

/-! ## Sample data -/

/-- Sample limits: a byte budget of 2 MiB, 500 bytes per header and at most 192
headers per response. -/
def sampleLimits : Limits :=
  { softResponseLimit := 2 * 1024 * 1024, estHeaderRlpSize := 500, MaxHeaderFetch := 192 }

/-- The sequencer of the sample chain at height `k`; its hash is `k + 1`. -/
def chainSeq (k : Nat) : Sequencer := { Hash := k + 1, Id := k }

/-- A consistent store holding exactly the sequencers `chainSeq 0 .. chainSeq H`. -/
def chainDag (H : Nat) : Dag :=
  { GetSequencerByHash := fun h => if 1 ≤ h ∧ h ≤ H + 1 then some (chainSeq (h - 1)) else none
    GetSequencer := fun h n => if h = n + 1 ∧ n ≤ H then some (chainSeq n) else none
    GetSequencerById := fun n => if n ≤ H then some (chainSeq n) else none }

/-- A number-mode query. -/
def numberQuery (origin amount skip : Nat) (reverse : Bool) : MessageHeaderRequest :=
  { Origin := { Hash := 0, Number := origin }, Amount := amount, Skip := skip, Reverse := reverse }

/-- A hash-mode query. -/
def hashQuery (origin : Hash) (amount skip : Nat) (reverse : Bool) : MessageHeaderRequest :=
  { Origin := { Hash := origin, Number := 0 }, Amount := amount, Skip := skip, Reverse := reverse }


/-- The loop state an iteration ends in. -/
def Iter.state : Iter → ScanState
  | Iter.next s => s
  | Iter.stop s => s
  | Iter.nilDeref s => s

/-- The iteration ended in the `break` on an unresolved origin. -/
def Iter.isStop : Iter → Bool
  | Iter.stop _ => true
  | _ => false

/-- The fields of the loop state that only the append in the loop body changes,
and the fields of the query that nothing changes. -/
def sameFrame (s s1 : ScanState) : Prop :=
  s1.headers = s.headers ∧ s1.bytes = s.bytes ∧ s1.query.Amount = s.query.Amount ∧
    s1.query.Skip = s.query.Skip ∧ s1.query.Reverse = s.query.Reverse

/-- The state `s1` is `s` after one header was appended. -/
def appendedOne (L : Limits) (s s1 : ScanState) : Prop :=
  (∃ o, s1.headers = s.headers ++ [o]) ∧ s1.bytes = s.bytes + L.estHeaderRlpSize ∧
    s1.query.Amount = s.query.Amount ∧ s1.query.Skip = s.query.Skip ∧
    s1.query.Reverse = s.query.Reverse

/-- The state the loop ended in, if it ended. -/
def ScanResult.final : ScanResult → Option ScanState
  | ScanResult.done s => some s
  | ScanResult.nilDeref s => some s
  | ScanResult.outOfFuel => none

/-- The number of headers the byte budget admits: the least `j` with
`j * estHeaderRlpSize >= softResponseLimit` (for a positive estimate). -/
def byteBudgetCount (L : Limits) : Nat :=
  (L.softResponseLimit + L.estHeaderRlpSize - 1) / L.estHeaderRlpSize

/-- The number of heights `n, n + (s+1), n + 2(s+1), ...` that are at most `H`. -/
def heightsUpTo (n s H : Nat) : Nat := if n ≤ H then (H - n) / (s + 1) + 1 else 0

/-- The count of the specification for a forward number-mode walk: the smallest
of the amount, `MaxHeaderFetch`, the byte-budget count and the number of walk
heights that are at most `H`. -/
def forwardCount (L : Limits) (n s a H : Nat) : Nat :=
  min (min a L.MaxHeaderFetch) (min (byteBudgetCount L) (heightsUpTo n s H))

/-- The headers still to come when `j` headers are gathered and the scan stands
at height `m`. -/
def forwardRest (L : Limits) (a s H j m : Nat) : Nat :=
  min (min (a - j) (L.MaxHeaderFetch - j)) (min (byteBudgetCount L - j) (heightsUpTo m s H))

/-- What the loop does with the outcome of an iteration: go on with the
remaining fuel, or end. -/
def resume (L : Limits) (d : Dag) (hashMode : Bool) (fuel : Nat) : Iter → ScanResult
  | Iter.next s1 => scanLoop L d hashMode fuel s1
  | Iter.stop s1 => ScanResult.done s1
  | Iter.nilDeref s1 => ScanResult.nilDeref s1

/-- The caps admit a first header: the loop condition on entry, which is
`0 < int(amount)`, a positive byte budget and a positive `MaxHeaderFetch`. -/
def admitsFirst (L : Limits) (query : MessageHeaderRequest) : Bool := loopCond L (initScan query)

/-- The loop state of the sample hash-mode forward query `{hash 3, amount 5,
skip 1}` over `chainDag` after its first header, the one at height 2, has been
appended. -/
def sampleAfterFirst : ScanState :=
  { query := { Origin := { Hash := 3, Number := 2 }, Amount := 5, Skip := 1, Reverse := false }
    first := false, bytes := 500, headers := [chainSeq 2], unknown := false
    calls := [DagCall.ByHash 3] }

/-- A sample world for the syncer: what the peer provider answers and the
node's own height.  The sample downloader succeeds and brings the node to the
requested height. -/
structure SampleWorld where
  best : Except syncer.GoError (String × Hash × Nat)
  ourId : Nat

/-- The collaborators over the sample world. -/
def sampleCollaborators : syncer.Collaborators SampleWorld :=
  { BestPeerInfo := fun w => (w.best, w)
    CurrentId := fun w => (w.ourId, w)
    GetHeight := fun w => (w.ourId, w)
    Synchronise := fun _ _ seqId _ w => (none, { w with ourId := seqId }) }

/-- A sample syncer with two listeners, in state `Started`. -/
def sampleSyncer (syncFlag bootStrap : Bool) : syncer.CatchupSyncer :=
  { Enabled := true, SyncMode := 0, OnWorkingStateChanged := [1, 2], syncFlag := syncFlag,
    WorkState := syncer.CatchupSyncerStatus.Started, BootStrapNode := bootStrap,
    currentBestHeight := 0 }

/-- A sample node whose best peer `p` is at height `best` while the node is at
height `ourId`. -/
def sampleNode (syncFlag : Bool) (best ourId : Nat) : syncer.Node SampleWorld :=
  { c := sampleSyncer syncFlag false
    world := { best := Except.ok ("p", best + 1, best), ourId := ourId }
    trace := [] }

/-- A sample node without any peer. -/
def loneNode (bootStrap : Bool) (ourId : Nat) : syncer.Node SampleWorld :=
  { c := sampleSyncer false bootStrap
    world := { best := Except.error "no peer", ourId := ourId }
    trace := [] }

/-! ## The catch-up syncer: the stages of one loop pass and sequences of publications -/

namespace syncer

/-- The node in the body of the `syncToLatest` loop right after
`c.NotifyWorkingStateChanged(Started)`, for a pass entered at node `s` with the
threshold `diff`. -/
def afterStarted {ω : Type} (E : Collaborators ω) (diff : Nat) (s : Node ω) : Node ω :=
  NotifyWorkingStateChanged CatchupSyncerStatus.Started (isUpToDate E diff s).2

/-- The node right after the `BestPeerInfo` call of the loop body. -/
def afterBestPeer {ω : Type} (E : Collaborators ω) (diff : Nat) (s : Node ω) : Node ω :=
  { afterStarted E diff s with
    world := (E.BestPeerInfo (afterStarted E diff s).world).2
    trace := (afterStarted E diff s).trace ++ [Event.BestPeerInfo] }

/-- The node on which the loop body calls `Downloader.Synchronise`, when the
`BestPeerInfo` call of the pass reported the height `seqId`: the own height has
been read and `currentBestHeight` has been set. -/
def atSynchronise {ω : Type} (E : Collaborators ω) (diff : Nat) (s : Node ω) (seqId : Nat) :
    Node ω :=
  { afterBestPeer E diff s with
    world := (E.CurrentId (afterBestPeer E diff s).world).2
    trace := (afterBestPeer E diff s).trace ++ [Event.GetCurrentNodeStatus]
    c := { (afterBestPeer E diff s).c with currentBestHeight := seqId } }

/-- The node right after the `Downloader.Synchronise` call of the loop body. -/
def afterSynchronise {ω : Type} (E : Collaborators ω) (diff : Nat) (s : Node ω)
    (bpId : String) (bpHash : Hash) (seqId : Nat) : Node ω :=
  { atSynchronise E diff s seqId with
    world :=
      (E.Synchronise bpId bpHash seqId (atSynchronise E diff s seqId).c.SyncMode
        (atSynchronise E diff s seqId).world).2
    trace :=
      (atSynchronise E diff s seqId).trace ++
        [Event.Synchronise bpId bpHash seqId (atSynchronise E diff s seqId).c.SyncMode] }

/-- The event is the publication of `Stopped` on some listener channel. -/
def Event.isStoppedSend : Event → Bool
  | Event.Send _ CatchupSyncerStatus.Stopped => true
  | _ => false

/-- The event is a `Downloader.Synchronise` call. -/
def Event.isSynchronise : Event → Bool
  | Event.Synchronise _ _ _ _ => true
  | _ => false

/-- None of the events is the publication of `Stopped`. -/
def noStoppedSend (evs : List Event) : Bool := evs.all (fun ev => !ev.isStoppedSend)

/-- None of the events is a `Downloader.Synchronise` call. -/
def noSynchronise (evs : List Event) : Bool := evs.all (fun ev => !ev.isSynchronise)

/-- A sequence of `NotifyWorkingStateChanged` calls, first to last. -/
def publishAll {ω : Type} (statuses : List CatchupSyncerStatus) (s : Node ω) : Node ω :=
  statuses.foldl (fun n status => NotifyWorkingStateChanged status n) s

/-- The statuses sent on the listener channel `ch`, in the order of sending. -/
def received (ch : Nat) : List Event → List CatchupSyncerStatus
  | [] => []
  | Event.Send ch1 status :: rest =>
    if ch1 = ch then status :: received ch rest else received ch rest
  | _ :: rest => received ch rest

/-- Following the specification's words: the published sequence with every
element that equals its predecessor removed, where `prev` precedes the first
element. -/
def withoutRepeats (prev : CatchupSyncerStatus) : List CatchupSyncerStatus → List CatchupSyncerStatus
  | [] => []
  | status :: rest =>
    if status = prev then withoutRepeats status rest else status :: withoutRepeats status rest

/-- The sends that delivering the statuses, one after the other, to every entry
of the listener list makes: for each status one send per entry, in list order. -/
def deliveries (listeners : List Nat) : List CatchupSyncerStatus → List Event
  | [] => []
  | status :: rest =>
    listeners.map (fun ch => Event.Send ch status) ++ deliveries listeners rest

end syncer

/-! ## Handlers of responses and of the fetch-by-hash request (`og/message_handler.go`) -/

/-- The type `types.Tx`; the handlers read none of its fields, its hash stands
for its content. -/
structure Tx where
  Hash : Hash
  deriving DecidableEq, Repr

/-- A non-nil value of the interface `types.Txi`, with the two dynamic types the
handlers distinguish. -/
inductive Txi
  | sequencer (seq : Sequencer)
  | tx (t : Tx)
  deriving DecidableEq, Repr

/-- Serialized bytes. -/
abbrev Bytes := List Nat

/-- The `MessageType` constants the embedded handlers send with; their numeric
values are declared outside the handler's file. -/
inductive MessageKind
  | MessageTypeFetchByHashResponse
  | MessageTypeHeaderResponse
  | MessageTypeTxsResponse
  | MessageTypeBodiesResponse
  | MessageTypePong
  deriving DecidableEq, Repr

/-- The type `types.MessageSyncRequest`. -/
structure MessageSyncRequest where
  Hashes : List Hash
  deriving DecidableEq, Repr

/-- The type `types.MessageSyncResponse`; a nil slice is the empty list. -/
structure MessageSyncResponse where
  Txs : List Tx
  Sequencers : List Sequencer
  deriving DecidableEq, Repr

/-- The type `types.MessageTxsResponse`; `none` is a nil `Sequencer`. -/
structure MessageTxsResponse where
  Txs : List Tx
  Sequencer : Option Sequencer
  deriving DecidableEq, Repr

/-- The type `types.SequencerHeader` as far as the handlers are concerned: the
hash and the number of a sequencer. -/
structure SequencerHeader where
  Hash : Hash
  Id : Nat
  deriving DecidableEq, Repr

/-- A call a handler makes into a collaborator: the pending pool, the storage,
the tx-buffer, the downloader or the hub. -/
inductive Effect
  | TxPoolGet (hash : Hash)
  | DagGetTx (hash : Hash)
  | DagLatestSequencer
  | AddRemoteTx (item : Txi)
  | AddRemoteTxs (seq : Sequencer) (txs : List Tx)
  | SendToPeer (peerId : String) (kind : MessageKind) (data : Bytes)
  | DagGetSequencerByHash (hash : Hash)
  | DagGetSequencer (hash : Hash) (id : Nat)
  | DagGetSequencerById (id : Nat)
  | DagGetTxsByNumber (id : Nat)
  | DeliverHeaders (peerId : String) (headers : List SequencerHeader)
  | DeliverBodies (peerId : String) (transactions : List (List Tx))
      (sequencers : List (Option Sequencer))
  | SetPeerHead (peerId : String) (hash : Hash) (number : Nat)
  deriving DecidableEq, Repr

/-- The call goes into the tx-buffer. -/
def Effect.isTxBuffer : Effect → Bool
  | Effect.AddRemoteTx _ => true
  | Effect.AddRemoteTxs _ _ => true
  | _ => false

/-- The call sends a message. -/
def Effect.isSend : Effect → Bool
  | Effect.SendToPeer _ _ _ => true
  | _ => false

/-- How a handler ends, with the calls it made (oldest first): it returns, or it
aborts on a method call on a nil pointer. -/
inductive HandlerResult
  | returned (effects : List Effect)
  | nilDeref (effects : List Effect)
  deriving DecidableEq, Repr

/-- The calls a handler made. -/
def HandlerResult.effects : HandlerResult → List Effect
  | HandlerResult.returned effects => effects
  | HandlerResult.nilDeref effects => effects

/-- The handler `HandleTxsResponse`; `latest` is what `Dag.LatestSequencer`
returns (`none` for nil). -/
def HandleTxsResponse (latest : Option Sequencer) (request : MessageTxsResponse) : HandlerResult :=
  match request.Sequencer with
  | none => HandlerResult.returned []
  | some seq =>
    match latest with
    | none => HandlerResult.nilDeref [Effect.DagLatestSequencer]
    | some lseq =>
      if lseq.Number < seq.Number then
        HandlerResult.returned [Effect.DagLatestSequencer, Effect.AddRemoteTxs seq request.Txs]
      else HandlerResult.returned [Effect.DagLatestSequencer]

/-- The handler `HandleFetchByHashResponse`. -/
def HandleFetchByHashResponse (syncResponse : MessageSyncResponse) : HandlerResult :=
  if (syncResponse.Txs.length == 0) && (syncResponse.Sequencers.length == 0) then
    HandlerResult.returned []
  else
    HandlerResult.returned
      (syncResponse.Txs.map (fun v => Effect.AddRemoteTx (Txi.tx v)) ++
        syncResponse.Sequencers.map (fun v => Effect.AddRemoteTx (Txi.sequencer v)))

/-- The local variables of the loop of `HandleFetchByHashRequest` and the calls
made so far. -/
structure FetchState where
  txs : List Tx
  seqs : List Sequencer
  effects : List Effect
  deriving DecidableEq, Repr

/-- One pass of the loop of `HandleFetchByHashRequest`: the pool is asked, the
storage is asked if the pool returned nil, and the item is appended to the list
of its dynamic type.  `pool` is `TxPool.Get` and `dagGetTx` is `Dag.GetTx`. -/
def fetchOne (pool dagGetTx : Hash → Option Txi) (st : FetchState) (hash : Hash) : FetchState :=
  let st1 : FetchState := { st with effects := st.effects ++ [Effect.TxPoolGet hash] }
  let r : Option Txi × FetchState :=
    match pool hash with
    | some txi => (some txi, st1)
    | none => (dagGetTx hash, { st1 with effects := st1.effects ++ [Effect.DagGetTx hash] })
  match r.1 with
  | some (Txi.sequencer tx) => { r.2 with seqs := r.2.seqs ++ [tx] }
  | some (Txi.tx tx) => { r.2 with txs := r.2.txs ++ [tx] }
  | none => r.2

/-- The handler `HandleFetchByHashRequest`.  `marshal` is the `MarshalMsg` of
`types.MessageSyncResponse`, declared outside the handler's file. -/
def HandleFetchByHashRequest (marshal : MessageSyncResponse → Except syncer.GoError Bytes)
    (pool dagGetTx : Hash → Option Txi) (syncRequest : MessageSyncRequest) (peerId : String) :
    HandlerResult :=
  if syncRequest.Hashes.length = 0 then HandlerResult.returned []
  else
    let st := syncRequest.Hashes.foldl (fetchOne pool dagGetTx) { txs := [], seqs := [], effects := [] }
    let syncResponse : MessageSyncResponse := { Txs := st.txs, Sequencers := st.seqs }
    match marshal syncResponse with
    | Except.error _ => HandlerResult.returned st.effects
    | Except.ok data =>
      HandlerResult.returned
        (st.effects ++ [Effect.SendToPeer peerId MessageKind.MessageTypeFetchByHashResponse data])

/-- Following the specification's words: the item a hash resolves to, looked up
in the pending pool first, then in committed storage. -/
def resolveItem (pool dagGetTx : Hash → Option Txi) (hash : Hash) : Option Txi :=
  match pool hash with
  | some txi => some txi
  | none => dagGetTx hash

/-- The transaction an item is, if it is one. -/
def Txi.asTx : Txi → Option Tx
  | Txi.tx t => some t
  | Txi.sequencer _ => none

/-- The sequencer an item is, if it is one. -/
def Txi.asSequencer : Txi → Option Sequencer
  | Txi.sequencer seq => some seq
  | Txi.tx _ => none

/-- The lookups one hash causes: the pool, then the storage if the pool has no
item. -/
def lookupsOf (pool : Hash → Option Txi) (hash : Hash) : List Effect :=
  match pool hash with
  | some _ => [Effect.TxPoolGet hash]
  | none => [Effect.TxPoolGet hash, Effect.DagGetTx hash]

/-- The lookups a list of hashes causes, in request order. -/
def fetchLookups (pool : Hash → Option Txi) : List Hash → List Effect
  | [] => []
  | hash :: rest => lookupsOf pool hash ++ fetchLookups pool rest

/-- Following the specification's words: the response to a fetch-by-hash
request; its transactions are the resolved items that are transactions and its
sequencers those that are sequencers, each in request order. -/
def fetchResponse (pool dagGetTx : Hash → Option Txi) (hashes : List Hash) : MessageSyncResponse :=
  { Txs := hashes.filterMap (fun hash => (resolveItem pool dagGetTx hash).bind Txi.asTx)
    Sequencers := hashes.filterMap (fun hash => (resolveItem pool dagGetTx hash).bind Txi.asSequencer) }

/-! ## Handlers of body, transaction-set and header messages, head announcements and keepalives -/

/-- The call reads the pending pool or the storage and changes nothing. -/
def Effect.isLookup : Effect → Bool
  | Effect.TxPoolGet _ => true
  | Effect.DagGetTx _ => true
  | Effect.DagLatestSequencer => true
  | Effect.DagGetSequencerByHash _ => true
  | Effect.DagGetSequencer _ _ => true
  | Effect.DagGetSequencerById _ => true
  | Effect.DagGetTxsByNumber _ => true
  | _ => false

/-- The two limits `HandleBodiesRequest` reads, declared outside the handler's
file: the byte budget `softResponseLimit` and `downloader.MaxBlockFetch`. -/
structure BodyLimits where
  softResponseLimit : Nat
  MaxBlockFetch : Nat
  deriving DecidableEq, Repr

/-- The type `types.MessageBodiesRequest`. -/
structure MessageBodiesRequest where
  SeqHashes : List Hash
  deriving DecidableEq, Repr

/-- The type `types.MessageBodiesResponse`: the serialized bundles. -/
structure MessageBodiesResponse where
  Bodies : List Bytes
  deriving DecidableEq, Repr

/-- The type `types.MessageTxsRequest`; `none` is a nil `SeqHash`. -/
structure MessageTxsRequest where
  SeqHash : Option Hash
  Id : Nat
  deriving DecidableEq, Repr

/-- The type `types.MessageHeaderResponse`. -/
structure MessageHeaderResponse where
  Sequencers : List Sequencer
  deriving DecidableEq, Repr

/-- The type `types.MessageSequencerHeader`; `none` is a nil `Hash`. -/
structure MessageSequencerHeader where
  Hash : Option Hash
  Number : Nat
  deriving DecidableEq, Repr

/-- The local variables of the loop of `HandleBodiesRequest` and the lookups
made so far. -/
structure BodiesState where
  bytes : Nat
  bodies : List Bytes
  effects : List Effect
  deriving DecidableEq, Repr

/-- The bundle `HandleBodiesRequest` serializes for a resolved sequencer: the
sequencer with the transactions stored under its id.  `getTxsByNumber` is
`Dag.GetTxsByNumber`. -/
def bundleOf (getTxsByNumber : Nat → List Tx) (seq : Sequencer) : MessageTxsResponse :=
  { Sequencer := some seq, Txs := getTxsByNumber seq.Id }

/-- The loop of `HandleBodiesRequest` over the remaining hashes; the three
`break`s end it.  `marshalBody` is the `MarshalMsg` of `types.MessageTxsResponse`
(its error is ignored by the handler). -/
def bodiesLoop (L : BodyLimits) (d : Dag) (getTxsByNumber : Nat → List Tx)
    (marshalBody : MessageTxsResponse → Bytes) : List Hash → BodiesState → BodiesState
  | [], st => st
  | hash :: rest, st =>
    let st1 : BodiesState :=
      { st with effects := st.effects ++ [Effect.DagGetSequencerByHash hash] }
    match d.GetSequencerByHash hash with
    | none => st1
    | some seq =>
      if L.softResponseLimit ≤ st1.bytes then st1
      else if L.MaxBlockFetch ≤ st1.bodies.length then st1
      else
        let bodyData := marshalBody (bundleOf getTxsByNumber seq)
        bodiesLoop L d getTxsByNumber marshalBody rest
          { bytes := st1.bytes + bodyData.length
            bodies := st1.bodies ++ [bodyData]
            effects := st1.effects ++ [Effect.DagGetTxsByNumber seq.Id] }

/-- The state in which the loop of `HandleBodiesRequest` ends. -/
def gatherBodies (L : BodyLimits) (d : Dag) (getTxsByNumber : Nat → List Tx)
    (marshalBody : MessageTxsResponse → Bytes) (msgReq : MessageBodiesRequest) : BodiesState :=
  bodiesLoop L d getTxsByNumber marshalBody msgReq.SeqHashes
    { bytes := 0, bodies := [], effects := [] }

/-- The handler `HandleBodiesRequest`.  `marshalResponse` is the `MarshalMsg` of
`types.MessageBodiesResponse` (its error is ignored by the handler). -/
def HandleBodiesRequest (L : BodyLimits) (d : Dag) (getTxsByNumber : Nat → List Tx)
    (marshalBody : MessageTxsResponse → Bytes) (marshalResponse : MessageBodiesResponse → Bytes)
    (msgReq : MessageBodiesRequest) (peerId : String) : HandlerResult :=
  let st := gatherBodies L d getTxsByNumber marshalBody msgReq
  let msgRes : MessageBodiesResponse := { Bodies := st.bodies }
  HandlerResult.returned
    (st.effects ++
      [Effect.SendToPeer peerId MessageKind.MessageTypeBodiesResponse (marshalResponse msgRes)])

/-- The total size of a list of serialized bundles. -/
def totalBytes : List Bytes → Nat
  | [] => 0
  | body :: rest => body.length + totalBytes rest

/-- The two arrays `HandleBodiesResponse` fills; an unset slot of
`transactions` is the nil slice `[]`, an unset slot of `sequencers` is nil. -/
structure BodySlots where
  transactions : List (List Tx)
  sequencers : List (Option Sequencer)
  deriving DecidableEq, Repr

/-- The loop of `HandleBodiesResponse` from index `i` over the remaining
bundles; a bundle that fails to decode or has no sequencer ends it.
`unmarshalBody` is the `UnmarshalMsg` of `types.MessageTxsResponse`. -/
def fillSlots (unmarshalBody : Bytes → Except syncer.GoError MessageTxsResponse) :
    Nat → List Bytes → BodySlots → BodySlots
  | _, [], slots => slots
  | i, bodyData :: rest, slots =>
    match unmarshalBody bodyData with
    | Except.error _ => slots
    | Except.ok body =>
      match body.Sequencer with
      | none => slots
      | some seq =>
        fillSlots unmarshalBody (i + 1) rest
          { transactions := slots.transactions.set i body.Txs
            sequencers := slots.sequencers.set i (some seq) }

/-- The handler `HandleBodiesResponse`.  `deliverErr` is what
`Downloader.DeliverBodies` returns (`none` for nil); it is only logged. -/
def HandleBodiesResponse (unmarshalBody : Bytes → Except syncer.GoError MessageTxsResponse)
    (deliverErr : Option syncer.GoError) (request : MessageBodiesResponse) (peerId : String) :
    HandlerResult :=
  let slots := fillSlots unmarshalBody 0 request.Bodies
    { transactions := List.replicate request.Bodies.length []
      sequencers := List.replicate request.Bodies.length none }
  let filter := decide (0 < slots.transactions.length) || decide (0 < slots.sequencers.length)
  if decide (0 < slots.transactions.length) || decide (0 < slots.sequencers.length) || !filter then
    match deliverErr with
    | some _ =>
      HandlerResult.returned [Effect.DeliverBodies peerId slots.transactions slots.sequencers]
    | none =>
      HandlerResult.returned [Effect.DeliverBodies peerId slots.transactions slots.sequencers]
  else HandlerResult.returned []

/-- The handler `HandleTxsRequest`.  `marshalTxs` is the `MarshalMsg` of
`types.MessageTxsResponse` (its error is ignored by the handler). -/
def HandleTxsRequest (d : Dag) (getTxsByNumber : Nat → List Tx)
    (marshalTxs : MessageTxsResponse → Bytes) (msgReq : MessageTxsRequest) (peerId : String) :
    HandlerResult :=
  let r : Option Sequencer × List Effect :=
    match msgReq.SeqHash with
    | some hash =>
      if msgReq.Id ≠ 0 then
        (d.GetSequencer hash msgReq.Id, [Effect.DagGetSequencer hash msgReq.Id])
      else (d.GetSequencerById msgReq.Id, [Effect.DagGetSequencerById msgReq.Id])
    | none => (d.GetSequencerById msgReq.Id, [Effect.DagGetSequencerById msgReq.Id])
  match r.1 with
  | some seq =>
    HandlerResult.returned
      (r.2 ++ [Effect.DagGetTxsByNumber seq.Id,
        Effect.SendToPeer peerId MessageKind.MessageTypeTxsResponse
          (marshalTxs { Sequencer := some seq, Txs := getTxsByNumber seq.Id })])
  | none =>
    HandlerResult.returned
      (r.2 ++ [Effect.SendToPeer peerId MessageKind.MessageTypeTxsResponse
        (marshalTxs { Sequencer := none, Txs := [] })])

/-- The handler `HandleHeaderResponse`.  `SeqsToHeaders` is `types.SeqsToHeaders`
and `deliverErr` is what `Downloader.DeliverHeaders` returns (`none` for nil);
it is only logged. -/
def HandleHeaderResponse (SeqsToHeaders : List Sequencer → List SequencerHeader)
    (deliverErr : Option syncer.GoError) (headerMsg : MessageHeaderResponse) (peerId : String) :
    HandlerResult :=
  let headers := headerMsg.Sequencers
  let seqHeaders := SeqsToHeaders headers
  let filter := seqHeaders.length == 1
  if decide (0 < seqHeaders.length) || !filter then
    match deliverErr with
    | some _ => HandlerResult.returned [Effect.DeliverHeaders peerId seqHeaders]
    | none => HandlerResult.returned [Effect.DeliverHeaders peerId seqHeaders]
  else HandlerResult.returned []

/-- The loop `for i := lseq.Number(); i < msgHeader.Number; i++` of
`HandleSequencerHeader` with `count` passes left; each pass starts a goroutine
whose body is commented out, so a pass makes no call. -/
def requestLoop : Nat → List Effect → List Effect
  | 0, effects => effects
  | count + 1, effects => requestLoop count effects

/-- The handler `HandleSequencerHeader`; `latest` is what `Dag.LatestSequencer`
returns (`none` for nil). -/
def HandleSequencerHeader (latest : Option Sequencer) (msgHeader : MessageSequencerHeader)
    (peerId : String) : HandlerResult :=
  match msgHeader.Hash with
  | none => HandlerResult.returned []
  | some hash =>
    let effects := [Effect.SetPeerHead peerId hash msgHeader.Number, Effect.DagLatestSequencer]
    match latest with
    | none => HandlerResult.nilDeref effects
    | some lseq =>
      HandlerResult.returned (requestLoop (msgHeader.Number - lseq.Number) effects)

/-- The handler `HandlePing`. -/
def HandlePing (peerId : String) : HandlerResult :=
  HandlerResult.returned [Effect.SendToPeer peerId MessageKind.MessageTypePong [1]]

/-- The handler `HandlePong`. -/
def HandlePong : HandlerResult := HandlerResult.returned []

/-! ## More sample data -/

/-- The sample collaborators with a downloader that fails. -/
def brokenDownloader : syncer.Collaborators SampleWorld :=
  { sampleCollaborators with Synchronise := fun _ _ _ _ w => (some "sync failed", w) }

/-- A sample node in state `Started` at height `ourId` that has seen the best
height `best`. -/
def behindNode (best ourId : Nat) : syncer.Node SampleWorld :=
  { c := { sampleSyncer false false with currentBestHeight := best }
    world := { best := Except.ok ("p", best + 1, best), ourId := ourId }
    trace := [] }

/-- A sample serialization: the hashes of the transactions, a separator, the
hashes of the sequencers. -/
def sampleMarshal (r : MessageSyncResponse) : Except syncer.GoError Bytes :=
  Except.ok (r.Txs.map (fun t => t.Hash) ++ [0] ++ r.Sequencers.map (fun t => t.Hash))

/-- A serialization that reports an error. -/
def failingMarshal (_ : MessageSyncResponse) : Except syncer.GoError Bytes :=
  Except.error "marshal failed"

/-- A sample pending pool holding the transaction with hash 21. -/
def samplePool (hash : Hash) : Option Txi :=
  if hash = 21 then some (Txi.tx { Hash := 21 }) else none

/-- A sample committed storage holding the transaction with hash 22 and the
sequencers of `chainDag 10`. -/
def sampleStorage (hash : Hash) : Option Txi :=
  if hash = 22 then some (Txi.tx { Hash := 22 })
  else if 1 ≤ hash ∧ hash ≤ 11 then some (Txi.sequencer (chainSeq (hash - 1))) else none

/-- Sample limits of the body handler: a budget of 2 MiB and 128 bodies. -/
def sampleBodyLimits : BodyLimits :=
  { softResponseLimit := 2 * 1024 * 1024, MaxBlockFetch := 128 }

/-- Tight limits of the body handler: a budget of 6 bytes and 128 bodies. -/
def tightBodyLimits : BodyLimits := { softResponseLimit := 6, MaxBlockFetch := 128 }

/-- A sample transaction store: sequencer `id` confirms three transactions. -/
def sampleTxsByNumber (id : Nat) : List Tx :=
  [{ Hash := 100 * id + 1 }, { Hash := 100 * id + 2 }, { Hash := 100 * id + 3 }]

/-- A large transaction store: every sequencer confirms 1536 transactions. -/
def largeTxsByNumber (_ : Nat) : List Tx := List.replicate 1536 { Hash := 7 }

/-- A sample serialization of a bundle: the hash and the id of the sequencer,
then the hashes of the transactions; one entry for a bundle without a
sequencer. -/
def sampleBodyMarshal (b : MessageTxsResponse) : Bytes :=
  match b.Sequencer with
  | some seq => seq.Hash :: seq.Id :: b.Txs.map (fun t => t.Hash)
  | none => [0]

/-- A serialization that spends 1 KiB on every transaction and 16 bytes on the
sequencer. -/
def wideBodyMarshal (b : MessageTxsResponse) : Bytes :=
  List.replicate (b.Txs.length * 1024 + 16) 0

/-- The decoder of `sampleBodyMarshal`; the empty input is a decode error. -/
def sampleBodyUnmarshal : Bytes → Except syncer.GoError MessageTxsResponse
  | hash :: id :: txs =>
    Except.ok { Sequencer := some { Hash := hash, Id := id }, Txs := txs.map Tx.mk }
  | [_] => Except.ok { Sequencer := none, Txs := [] }
  | [] => Except.error "unexpected end of data"

/-- A sample serialization of a bodies response: the bundles one after the
other, each behind its length. -/
def sampleResponseMarshal (r : MessageBodiesResponse) : Bytes :=
  r.Bodies.foldr (fun body acc => body.length :: body ++ acc) []

/-- A sample header conversion: the hash and the id of every sequencer, in order. -/
def sampleSeqsToHeaders (seqs : List Sequencer) : List SequencerHeader :=
  seqs.map (fun t => { Hash := t.Hash, Id := t.Id })

/-! ## Concurrent invocations of `syncToLatest` -/

namespace syncer

/-- Where one invocation of `syncToLatest` stands.  Every method that touches
`syncFlag` holds the mutex `mu` for its whole body, so the invocations of one
syncer interleave between these points: `entry` before `c.isSyncing()`,
`checked` after `isSyncing` returned false and before `c.setSyncFlag()`, `cycle`
after `setSyncFlag`, where the loop with `Downloader.Synchronise` runs, and
`returned`. -/
inductive Pc
  | entry
  | checked
  | cycle
  | returned
  deriving DecidableEq, Repr

/-- One syncer shared by the invocations `0, 1, ..` of `syncToLatest` that
`loopSync` started with `go c.syncToLatest()`. -/
structure Shared (ω : Type) where
  node : Node ω
  pcs : List Pc

/-- The next step of invocation `i`: the call of `isSyncing` with the branch on
its result, the call of `setSyncFlag`, or the loop followed by the deferred
`unsetSyncFlag` (taken as one step here).  `none` when the invocation has
returned or does not exist, or when the loop runs out of `fuel`. -/
def stepInvocation {ω : Type} (E : Collaborators ω) (fuel : Nat) (i : Nat) (st : Shared ω) :
    Option (Shared ω) :=
  match st.pcs[i]? with
  | some Pc.entry =>
    if isSyncing st.node then some { st with pcs := st.pcs.set i Pc.returned }
    else some { st with pcs := st.pcs.set i Pc.checked }
  | some Pc.checked => some { node := setSyncFlag st.node, pcs := st.pcs.set i Pc.cycle }
  | some Pc.cycle =>
    match syncLoop E fuel 0 st.node with
    | none => none
    | some (_, s1) => some { node := unsetSyncFlag s1, pcs := st.pcs.set i Pc.returned }
  | _ => none

/-- An interleaving: the invocations named by `schedule` take one step each, in
that order. -/
def runSchedule {ω : Type} (E : Collaborators ω) (fuel : Nat) :
    List Nat → Shared ω → Option (Shared ω)
  | [], st => some st
  | i :: rest, st =>
    match stepInvocation E fuel i st with
    | none => none
    | some st1 => runSchedule E fuel rest st1

/-- The number of invocations past the in-flight check and not yet returned. -/
def pastCheck {ω : Type} (st : Shared ω) : Nat :=
  st.pcs.countP (fun pc => pc = Pc.checked ∨ pc = Pc.cycle)

/-- The number of invocations in the loop that calls `Downloader.Synchronise`. -/
def inCycle {ω : Type} (st : Shared ω) : Nat :=
  st.pcs.countP (fun pc => pc = Pc.cycle)

end syncer

/-! ## The generated serialization (`og/message_type_gen.go`) -/

/-- The functions and size constants of the library `github.com/tinylib/msgp/msgp`
that the generated `MarshalMsg` and `Msgsize` methods use.  The library is not
part of the repository, so the methods take it as a parameter.  A Go string is
passed as its bytes. -/
structure Msgp where
  Require : Bytes → Nat → Bytes
  AppendUint64 : Bytes → Nat → Bytes
  AppendUint32 : Bytes → Nat → Bytes
  AppendUint8 : Bytes → Nat → Bytes
  AppendInt : Bytes → Int → Bytes
  AppendString : Bytes → Bytes → Bytes
  AppendNil : Bytes → Bytes
  Uint64Size : Nat
  Uint32Size : Nat
  Uint8Size : Nat
  IntSize : Nat
  StringPrefixSize : Nat
  NilSize : Nat

/-- What the generated code relies on in the library: `Require` returns the
slice it was given (with room reserved), and every `Append` function extends the
slice by no more than the size constant of its type. -/
structure Msgp.WithinSizes (lib : Msgp) : Prop where
  require : ∀ b n, lib.Require b n = b
  uint64 : ∀ b u, (lib.AppendUint64 b u).length ≤ b.length + lib.Uint64Size
  uint32 : ∀ b u, (lib.AppendUint32 b u).length ≤ b.length + lib.Uint32Size
  uint8 : ∀ b u, (lib.AppendUint8 b u).length ≤ b.length + lib.Uint8Size
  int : ∀ b i, (lib.AppendInt b i).length ≤ b.length + lib.IntSize
  string : ∀ b s, (lib.AppendString b s).length ≤ b.length + lib.StringPrefixSize + s.length
  nil : ∀ b, (lib.AppendNil b).length ≤ b.length + lib.NilSize

/-- The `MarshalMsg` and `Msgsize` methods of a type declared outside the file:
`types.Hash`, or the dynamic type of a `types.Message`.  `MarshalMsg` returns
the slice and the error (`none` for nil). -/
structure Codec (α : Type) where
  MarshalMsg : α → Bytes → Bytes × Option syncer.GoError
  Msgsize : α → Nat

/-- A codec never returns more than `Msgsize` bytes beyond the slice it was
given. -/
def Codec.WithinSize {α : Type} (c : Codec α) : Prop :=
  ∀ z b, (c.MarshalMsg z b).1.length ≤ b.length + c.Msgsize z

/-- The type `MessageCounter`; none of its fields is serialized. -/
structure MessageCounter where
  deriving DecidableEq, Repr

/-- The method `MessageCounter.Msgsize`. -/
def MessageCounter.Msgsize (_ : MessageCounter) : Nat := 1

/-- The method `MessageCounter.MarshalMsg`. -/
def MessageCounter.MarshalMsg (lib : Msgp) (z : MessageCounter) (b : Bytes) :
    Bytes × Option syncer.GoError :=
  let o := lib.Require b z.Msgsize
  let o := o ++ [0x80]
  (o, none)

/-- The type `MessageType`, a `uint16`. -/
abbrev MessageType := Nat

/-- The method `MessageType.Msgsize`. -/
def MessageType.Msgsize (lib : Msgp) (_ : MessageType) : Nat := lib.Uint64Size

/-- The method `MessageType.MarshalMsg`. -/
def MessageType.MarshalMsg (lib : Msgp) (z : MessageType) (b : Bytes) :
    Bytes × Option syncer.GoError :=
  let o := lib.Require b (MessageType.Msgsize lib z)
  let o := lib.AppendUint64 o z
  (o, none)

/-- The type `SendingType`, a `uint8`. -/
abbrev SendingType := Nat

/-- The method `SendingType.Msgsize`. -/
def SendingType.Msgsize (lib : Msgp) (_ : SendingType) : Nat := lib.Uint8Size

/-- The method `SendingType.MarshalMsg`. -/
def SendingType.MarshalMsg (lib : Msgp) (z : SendingType) (b : Bytes) :
    Bytes × Option syncer.GoError :=
  let o := lib.Require b (SendingType.Msgsize lib z)
  let o := lib.AppendUint8 o z
  (o, none)

/-- The type `P2PMessage` with the fields the generated code serializes, in the
order it writes them; `μ` is the dynamic type of the `types.Message` it
carries and `none` is a nil `SourceHash`. -/
structure P2PMessage (μ : Type) where
  MessageType : MessageType
  SourceID : Bytes
  Version : Int
  Message : μ
  SourceHash : Option Hash

/-- The method `P2PMessage.Msgsize`; `cm` and `ch` are the codecs of the carried
message and of `types.Hash`. -/
def P2PMessage.Msgsize {μ : Type} (lib : Msgp) (cm : Codec μ) (ch : Codec Hash)
    (z : P2PMessage μ) : Nat :=
  let s := 1 + lib.Uint64Size + lib.StringPrefixSize + z.SourceID.length + lib.IntSize
    + cm.Msgsize z.Message
  match z.SourceHash with
  | none => s + lib.NilSize
  | some hash => s + ch.Msgsize hash

/-- The method `P2PMessage.MarshalMsg`. -/
def P2PMessage.MarshalMsg {μ : Type} (lib : Msgp) (cm : Codec μ) (ch : Codec Hash)
    (z : P2PMessage μ) (b : Bytes) : Bytes × Option syncer.GoError :=
  let o := lib.Require b (P2PMessage.Msgsize lib cm ch z)
  let o := o ++ [0x95]
  let o := lib.AppendUint64 o z.MessageType
  let o := lib.AppendString o z.SourceID
  let o := lib.AppendInt o z.Version
  match cm.MarshalMsg z.Message o with
  | (o, some err) => (o, some err)
  | (o, none) =>
    match z.SourceHash with
    | none => (lib.AppendNil o, none)
    | some hash =>
      match ch.MarshalMsg hash o with
      | (o, some err) => (o, some err)
      | (o, none) => (o, none)

/-- The type `StatusData`. -/
structure StatusData where
  ProtocolVersion : Nat
  NetworkId : Nat
  CurrentBlock : Hash
  GenesisBlock : Hash
  CurrentId : Nat
  deriving DecidableEq, Repr

/-- The method `StatusData.Msgsize`. -/
def StatusData.Msgsize (lib : Msgp) (ch : Codec Hash) (z : StatusData) : Nat :=
  1 + 16 + lib.Uint32Size + 10 + lib.Uint64Size + 13 + ch.Msgsize z.CurrentBlock + 13
    + ch.Msgsize z.GenesisBlock + 10 + lib.Uint64Size

/-- The method `StatusData.MarshalMsg`. -/
def StatusData.MarshalMsg (lib : Msgp) (ch : Codec Hash) (z : StatusData) (b : Bytes) :
    Bytes × Option syncer.GoError :=
  let o := lib.Require b (StatusData.Msgsize lib ch z)
  let o := o ++ [0x85, 0xaf, 0x50, 0x72, 0x6f, 0x74, 0x6f, 0x63, 0x6f, 0x6c, 0x56, 0x65, 0x72,
    0x73, 0x69, 0x6f, 0x6e]
  let o := lib.AppendUint32 o z.ProtocolVersion
  let o := o ++ [0xa9, 0x4e, 0x65, 0x74, 0x77, 0x6f, 0x72, 0x6b, 0x49, 0x64]
  let o := lib.AppendUint64 o z.NetworkId
  let o := o ++ [0xac, 0x43, 0x75, 0x72, 0x72, 0x65, 0x6e, 0x74, 0x42, 0x6c, 0x6f, 0x63, 0x6b]
  match ch.MarshalMsg z.CurrentBlock o with
  | (o, some err) => (o, some err)
  | (o, none) =>
    let o := o ++ [0xac, 0x47, 0x65, 0x6e, 0x65, 0x73, 0x69, 0x73, 0x42, 0x6c, 0x6f, 0x63, 0x6b]
    match ch.MarshalMsg z.GenesisBlock o with
    | (o, some err) => (o, some err)
    | (o, none) =>
      let o := o ++ [0xa9, 0x43, 0x75, 0x72, 0x72, 0x65, 0x6e, 0x74, 0x49, 0x64]
      let o := lib.AppendUint64 o z.CurrentId
      (o, none)

/-! ### The wire format the library writes -/

namespace msgp

/-- The `width` low-order bytes of `n`, most significant first. -/
def bigEndian : Nat → Nat → Bytes
  | 0, _ => []
  | width + 1, n => bigEndian width (n / 256) ++ [n % 256]

/-- MessagePack encoding of an unsigned integer, as `msgp.AppendUint64` writes
it: the shortest of the five forms. -/
def AppendUint64 (b : Bytes) (u : Nat) : Bytes :=
  if u ≤ 127 then b ++ [u]
  else if u ≤ 255 then b ++ 0xcc :: bigEndian 1 u
  else if u ≤ 65535 then b ++ 0xcd :: bigEndian 2 u
  else if u ≤ 4294967295 then b ++ 0xce :: bigEndian 4 u
  else b ++ 0xcf :: bigEndian 8 u

/-- MessagePack encoding of a signed 64-bit integer, as `msgp.AppendInt64` (and
with it `msgp.AppendInt`) writes it. -/
def AppendInt64 (b : Bytes) (i : Int) : Bytes :=
  if 0 ≤ i then
    if i ≤ 127 then b ++ [i.toNat]
    else if i ≤ 32767 then b ++ 0xd1 :: bigEndian 2 i.toNat
    else if i ≤ 2147483647 then b ++ 0xd2 :: bigEndian 4 i.toNat
    else b ++ 0xd3 :: bigEndian 8 i.toNat
  else if -32 ≤ i then b ++ [(i + 256).toNat]
  else if -128 ≤ i then b ++ 0xd0 :: bigEndian 1 (i + 256).toNat
  else if -32768 ≤ i then b ++ 0xd1 :: bigEndian 2 (i + 65536).toNat
  else if -2147483648 ≤ i then b ++ 0xd2 :: bigEndian 4 (i + 4294967296).toNat
  else b ++ 0xd3 :: bigEndian 8 (i + 18446744073709551616).toNat

/-- MessagePack encoding of a string, as `msgp.AppendString` writes it: a
length prefix of 1, 2, 3 or 5 bytes, then the bytes of the string. -/
def AppendString (b : Bytes) (s : Bytes) : Bytes :=
  if s.length ≤ 31 then b ++ (0xa0 + s.length) :: s
  else if s.length ≤ 255 then b ++ 0xd9 :: bigEndian 1 s.length ++ s
  else if s.length ≤ 65535 then b ++ 0xda :: bigEndian 2 s.length ++ s
  else b ++ 0xdb :: bigEndian 4 s.length ++ s

/-- The library with the MessagePack wire format and the size constants of
`msgp`.  `AppendUint32` and `AppendUint8` take a `uint32` and a `uint8` and pass
them on to `AppendUint64`. -/
def wire : Msgp :=
  { Require := fun b _ => b
    AppendUint64 := AppendUint64
    AppendUint32 := fun b u => AppendUint64 b (u % 2 ^ 32)
    AppendUint8 := fun b u => AppendUint64 b (u % 2 ^ 8)
    AppendInt := AppendInt64
    AppendString := AppendString
    AppendNil := fun b => b ++ [0xc0]
    Uint64Size := 9
    Uint32Size := 5
    Uint8Size := 2
    IntSize := 9
    StringPrefixSize := 5
    NilSize := 1 }

end msgp

/-- A sample codec of `types.Hash`: a `bin8` header, the length 4 and the four
low-order bytes of the hash. -/
def sampleHashCodec : Codec Hash :=
  { MarshalMsg := fun hash b => (b ++ 0xc4 :: 4 :: msgp.bigEndian 4 hash, none)
    Msgsize := fun _ => 9 }

/-- A sample message type: a ping that is serialized as `nil`. -/
def samplePingCodec : Codec Unit :=
  { MarshalMsg := fun _ b => (b ++ [0xc0], none)
    Msgsize := fun _ => 1 }

/-- A sample envelope. -/
def sampleEnvelope : P2PMessage Unit :=
  { MessageType := 300, SourceID := [0x70, 0x65, 0x65, 0x72], Version := -2, Message := (),
    SourceHash := some 7 }

/-- A sample status. -/
def sampleStatus : StatusData :=
  { ProtocolVersion := 99, NetworkId := 70000, CurrentBlock := 5, GenesisBlock := 1,
    CurrentId := 4 }

/-! ## The trigger loop and the enable loop of the syncer -/

namespace syncer

/-- What the `select` of `loopSync` receives: a value on `c.quit`, a peer on
`c.NewPeerConnectedEventListener`, or the timer `time.After(SyncerCheckTime)`. -/
inductive SyncEvent
  | quit
  | NewPeerConnected (peer : String)
  | timer
  deriving DecidableEq, Repr

/-- A call `loopSync` makes: `go c.syncToLatest()` or the deferred
`c.Downloader.Terminate()`. -/
inductive LoopCall
  | goSyncToLatest
  | Terminate
  deriving DecidableEq, Repr

/-- One pass through the `for`/`select` of `loopSync`: whether the loop goes on,
the syncer, and the calls of the pass. -/
def loopSyncStep (c : CatchupSyncer) : SyncEvent → Bool × CatchupSyncer × List LoopCall
  | SyncEvent.quit => (false, c, [])
  | SyncEvent.NewPeerConnected _ =>
    if !c.Enabled then (true, c, []) else (true, c, [LoopCall.goSyncToLatest])
  | SyncEvent.timer =>
    if !c.Enabled then (true, c, []) else (true, c, [LoopCall.goSyncToLatest])

/-- The method `loopSync` over the events that arrive, oldest first: whether it
has returned (it waits in `select` when the events run out), the syncer, and its
calls.  The deferred `Terminate` runs when it returns. -/
def loopSync (c : CatchupSyncer) : List SyncEvent → Bool × CatchupSyncer × List LoopCall
  | [] => (false, c, [])
  | ev :: rest =>
    match loopSyncStep c ev with
    | (false, c1, calls) => (true, c1, calls ++ [LoopCall.Terminate])
    | (true, c1, calls) =>
      let r := loopSync c1 rest
      (r.1, r.2.1, calls ++ r.2.2)

/-- What the `select` of `eventLoop` receives: a value on `c.EnableEvent` or on
`c.quitLoopEvent`. -/
inductive EnableLoopEvent
  | EnableEvent (v : Bool)
  | quitLoopEvent
  deriving DecidableEq, Repr

/-- One pass through the `for`/`select` of `eventLoop`: whether the loop goes on,
and the syncer. -/
def eventLoopStep (c : CatchupSyncer) : EnableLoopEvent → Bool × CatchupSyncer
  | EnableLoopEvent.EnableEvent v => (true, { c with Enabled := v })
  | EnableLoopEvent.quitLoopEvent => (false, c)

end syncer

/-! ## Passes of the header range scan -/

/-- The number of passes through the body of the `for` loop of
`HandleHeaderRequest` that `scanLoop` makes from state `s` with the given
fuel. -/
def scanPasses (L : Limits) (d : Dag) (hashMode : Bool) : Nat → ScanState → Nat
  | fuel, s =>
    if loopCond L s then
      match fuel with
      | 0 => 0
      | fuel + 1 =>
        match iteration L d hashMode s with
        | Iter.next s1 => 1 + scanPasses L d hashMode fuel s1
        | Iter.stop _ => 1
        | Iter.nilDeref _ => 1
    else 0

/-- A store like `chainDag 10` whose index by number has lost the sequencer at
height 4: the lookup by hash still finds it. -/
def gapDag : Dag :=
  { GetSequencerByHash := (chainDag 10).GetSequencerByHash
    GetSequencer := (chainDag 10).GetSequencer
    GetSequencerById := fun n => if n = 4 then none else (chainDag 10).GetSequencerById n }

/-- A sample node that has converged: `WorkState` is `Stopped`, the best peer
`p` is at height `best` and the node at height `ourId`. -/
def stoppedNode (best ourId : Nat) : syncer.Node SampleWorld :=
  { c := { sampleSyncer false false with WorkState := syncer.CatchupSyncerStatus.Stopped }
    world := { best := Except.ok ("p", best + 1, best), ourId := ourId }
    trace := [] }

/-! ## Gas costs (`vm/eth/core/vm/gas_table.go`) -/

/-- Go `uint64` multiplication: the product modulo `2 ^ 64`. -/
def mul64 (a b : Nat) : Nat := (a * b) % 2 ^ 64

namespace vm

/-- The constants of package `params` that `memoryGasCost` and `gasSStore` read;
the package is outside the file. -/
structure GasParams where
  MemoryGas : Nat
  QuadCoeffDiv : Nat
  SstoreSetGas : Nat
  SstoreResetGas : Nat
  SstoreClearGas : Nat
  SstoreRefundGas : Nat
  NetSstoreNoopGas : Nat
  NetSstoreInitGas : Nat
  NetSstoreCleanGas : Nat
  NetSstoreDirtyGas : Nat
  NetSstoreClearRefund : Nat
  NetSstoreResetRefund : Nat
  NetSstoreResetClearRefund : Nat
  deriving DecidableEq, Repr

/-- The part of `Memory` that `memoryGasCost` reads or writes: `Len` is
`uint64(mem.Len())`. -/
structure Memory where
  Len : Nat
  lastGasCost : Nat
  deriving DecidableEq, Repr

/-- The error `errGasUintOverflow`. -/
def errGasUintOverflow : syncer.GoError := "gas uint64 overflow"

/-- The function `memoryGasCost`: the returned pair and the memory after the
call.  `ToWordSize` is `common.ToWordSize`. -/
def memoryGasCost (P : GasParams) (ToWordSize : Nat → Nat) (mem : Memory) (newMemSize : Nat) :
    (Nat × Option syncer.GoError) × Memory :=
  if newMemSize = 0 then ((0, none), mem)
  else if newMemSize > 0xffffffffe0 then ((0, some errGasUintOverflow), mem)
  else
    let newMemSizeWords := ToWordSize newMemSize
    let newMemSize := mul64 newMemSizeWords 32
    if newMemSize > mem.Len then
      let square := mul64 newMemSizeWords newMemSizeWords
      let linCoef := mul64 newMemSizeWords P.MemoryGas
      let quadCoef := square / P.QuadCoeffDiv
      let newTotalFee := add64 linCoef quadCoef
      let fee := sub64 newTotalFee mem.lastGasCost
      ((fee, none), { mem with lastGasCost := newTotalFee })
    else ((0, none), mem)

/-- The total fee of the specification for `words` words of memory, over
unbounded integers. -/
def totalFee (P : GasParams) (words : Nat) : Nat :=
  words * P.MemoryGas + words * words / P.QuadCoeffDiv

/-- A call `gasSStore` makes on `ctx.StateDB`. -/
inductive StateCall
  | GetState (addr : Nat) (key : Hash)
  | GetCommittedState (addr : Nat) (key : Hash)
  | AddRefund (gas : Nat)
  | SubRefund (gas : Nat)
  deriving DecidableEq, Repr

/-- The two reads of `ctx.StateDB` that `gasSStore` uses. -/
structure StateDB where
  GetState : Nat → Hash → Hash
  GetCommittedState : Nat → Hash → Hash

/-- What `gasSStore` returns, with its calls on the state (oldest first). -/
structure GasResult where
  gas : Nat
  err : Option syncer.GoError
  calls : List StateCall
  deriving DecidableEq, Repr

/-- The `switch` statement at the head of `gasSStore`; `some` is a `return`.
`y` and `x` are `stack.Back(1)` and `stack.Back(0)`, `addr` is
`contract.Address()` and `BigToHash` is `types.BigToHash`. -/
def gasSStoreSwitch (P : GasParams) (db : StateDB) (BigToHash : Int → Hash) (addr : Nat)
    (y x : Int) : Option GasResult :=
  let current := db.GetState addr (BigToHash x)
  let calls := [StateCall.GetState addr (BigToHash x)]
  if current = 0 ∧ y.sign ≠ 0 then
    some { gas := P.SstoreSetGas, err := none, calls := calls }
  else if current ≠ 0 ∧ y.sign = 0 then
    some { gas := P.SstoreClearGas, err := none,
           calls := calls ++ [StateCall.AddRefund P.SstoreRefundGas] }
  else some { gas := P.SstoreResetGas, err := none, calls := calls }

/-- The statements of `gasSStore` behind the `switch`: the net gas metering of
EIP-1283. -/
def gasSStoreNet (P : GasParams) (db : StateDB) (BigToHash : Int → Hash) (addr : Nat)
    (y x : Int) : GasResult :=
  let current := db.GetState addr (BigToHash x)
  let calls := [StateCall.GetState addr (BigToHash x)]
  let value := BigToHash y
  if current = value then { gas := P.NetSstoreNoopGas, err := none, calls := calls }
  else
    let original := db.GetCommittedState addr (BigToHash x)
    let calls := calls ++ [StateCall.GetCommittedState addr (BigToHash x)]
    if original = current then
      if original = 0 then { gas := P.NetSstoreInitGas, err := none, calls := calls }
      else
        let calls :=
          if value = 0 then calls ++ [StateCall.AddRefund P.NetSstoreClearRefund] else calls
        { gas := P.NetSstoreCleanGas, err := none, calls := calls }
    else
      let calls :=
        if original ≠ 0 then
          if current = 0 then calls ++ [StateCall.SubRefund P.NetSstoreClearRefund]
          else if value = 0 then calls ++ [StateCall.AddRefund P.NetSstoreClearRefund]
          else calls
        else calls
      let calls :=
        if original = value then
          if original = 0 then calls ++ [StateCall.AddRefund P.NetSstoreResetClearRefund]
          else calls ++ [StateCall.AddRefund P.NetSstoreResetRefund]
        else calls
      { gas := P.NetSstoreDirtyGas, err := none, calls := calls }

/-- The function `gasSStore`: the `switch`, and behind it the net metering for
the case that the `switch` does not return. -/
def gasSStore (P : GasParams) (db : StateDB) (BigToHash : Int → Hash) (addr : Nat)
    (y x : Int) : GasResult :=
  match gasSStoreSwitch P db BigToHash addr y x with
  | some r => r
  | none => gasSStoreNet P db BigToHash addr y x

/-- The word count `common.ToWordSize` for sizes that fit: the number of 32-byte
words that hold `size` bytes. -/
def wordCount (size : Nat) : Nat := (size + 31) / 32

/-- Sample values of the constants: those of go-ethereum, of which the comment
in `gasSStore` quotes the ones of the net metering. -/
def mainnetParams : GasParams :=
  { MemoryGas := 3, QuadCoeffDiv := 512, SstoreSetGas := 20000, SstoreResetGas := 5000,
    SstoreClearGas := 5000, SstoreRefundGas := 15000, NetSstoreNoopGas := 200,
    NetSstoreInitGas := 20000, NetSstoreCleanGas := 5000, NetSstoreDirtyGas := 200,
    NetSstoreClearRefund := 15000, NetSstoreResetRefund := 4800,
    NetSstoreResetClearRefund := 19800 }

/-- A sample state: slot 1 holds 5 and was 5 when the transaction began, slot 2
holds 0 and was 7, every other slot is and was empty. -/
def sampleStateDB : StateDB :=
  { GetState := fun _ key => if key = 1 then 5 else 0
    GetCommittedState := fun _ key => if key = 1 then 5 else if key = 2 then 7 else 0 }

/-- A sample `types.BigToHash` for the numbers from 0 that fit in 32 bytes: the
number itself. -/
def sampleBigToHash (b : Int) : Hash := b.toNat

end vm

/-! ## Decoding the envelope (`og/message_type_gen.go`) -/

/-- An error that `UnmarshalMsg` returns: the `msgp.ArrayError` that the
generated code builds, or an error of the library or of a nested
`UnmarshalMsg`. -/
inductive MsgError
  | ArrayError (Wanted Got : Nat)
  | other (err : syncer.GoError)
  deriving DecidableEq, Repr

/-- The read functions of the library `msgp` that `P2PMessage.UnmarshalMsg`
calls.  Like the Go functions they return the value read, the bytes left and the
error (`none` for nil). -/
structure MsgpRead where
  ReadArrayHeaderBytes : Bytes → Nat × Bytes × Option MsgError
  ReadUint64Bytes : Bytes → Nat × Bytes × Option MsgError
  ReadStringBytes : Bytes → Bytes × Bytes × Option MsgError
  ReadIntBytes : Bytes → Int × Bytes × Option MsgError
  IsNil : Bytes → Bool
  ReadNilBytes : Bytes → Bytes × Option MsgError

/-- The `UnmarshalMsg` method of a type declared outside the file: from the
receiver and the input to the receiver after the call, the bytes left and the
error. -/
structure Decoder (α : Type) where
  UnmarshalMsg : α → Bytes → α × Bytes × Option MsgError

/-- The library reads back what it has written for the three plain fields of an
envelope and for nil: each `Append` function appends an encoding of the value to
the slice, the matching read function reads the value off the front of that
encoding and returns what follows it, `Require` returns the slice it was given,
and the byte `0x95` is read as the header of an array of 5. -/
structure Msgp.RoundTripsAt (lib : Msgp) (rd : MsgpRead) (messageType : Nat)
    (sourceID : Bytes) (version : Int) : Prop where
  require : ∀ b n, lib.Require b n = b
  arrayHeader : ∀ rest, rd.ReadArrayHeaderBytes (0x95 :: rest) = (5, rest, none)
  uint64 : ∃ enc, (∀ b, lib.AppendUint64 b messageType = b ++ enc) ∧
    ∀ rest, rd.ReadUint64Bytes (enc ++ rest) = (messageType, rest, none)
  string : ∃ enc, (∀ b, lib.AppendString b sourceID = b ++ enc) ∧
    ∀ rest, rd.ReadStringBytes (enc ++ rest) = (sourceID, rest, none)
  int : ∃ enc, (∀ b, lib.AppendInt b version = b ++ enc) ∧
    ∀ rest, rd.ReadIntBytes (enc ++ rest) = (version, rest, none)
  nil : ∃ enc, (∀ b, lib.AppendNil b = b ++ enc) ∧
    ∀ rest, rd.IsNil (enc ++ rest) = true ∧ rd.ReadNilBytes (enc ++ rest) = (rest, none)

/-- The codec and the decoder of a nested type read back the value `z`:
`MarshalMsg` appends an encoding of `z` without error, `UnmarshalMsg` turns any
receiver into `z` on input that starts with that encoding and returns what
follows it, and such input satisfies `accept`. -/
def Codec.RoundTripsAt {α : Type} (c : Codec α) (dc : Decoder α) (accept : Bytes → Prop)
    (z : α) : Prop :=
  ∃ enc, (∀ b, c.MarshalMsg z b = (b ++ enc, none)) ∧
    (∀ z0 rest, dc.UnmarshalMsg z0 (enc ++ rest) = (z, rest, none)) ∧
    ∀ rest, accept (enc ++ rest)

/-- The method `P2PMessage.UnmarshalMsg`: the receiver after the call, the
returned slice `o` (nil on every error path) and the error.  `dm` and `dh` are
the decoders of the carried message and of `types.Hash`; the receiver carries a
message of the dynamic type that is to be decoded. -/
def P2PMessage.UnmarshalMsg {μ : Type} (rd : MsgpRead) (dm : Decoder μ) (dh : Decoder Hash)
    (z : P2PMessage μ) (bts : Bytes) : P2PMessage μ × Bytes × Option MsgError :=
  match rd.ReadArrayHeaderBytes bts with
  | (_, _, some err) => (z, [], some err)
  | (zb0001, bts, none) =>
    if zb0001 ≠ 5 then (z, [], some (MsgError.ArrayError 5 zb0001))
    else
      match rd.ReadUint64Bytes bts with
      | (_, _, some err) => (z, [], some err)
      | (zb0002, bts, none) =>
        let z : P2PMessage μ := { z with MessageType := zb0002 % 2 ^ 16 }
        match rd.ReadStringBytes bts with
        | (s, _, some err) => ({ z with SourceID := s }, [], some err)
        | (s, bts, none) =>
          let z : P2PMessage μ := { z with SourceID := s }
          match rd.ReadIntBytes bts with
          | (v, _, some err) => ({ z with Version := v }, [], some err)
          | (v, bts, none) =>
            let z : P2PMessage μ := { z with Version := v }
            match dm.UnmarshalMsg z.Message bts with
            | (m, _, some err) => ({ z with Message := m }, [], some err)
            | (m, bts, none) =>
              let z : P2PMessage μ := { z with Message := m }
              if rd.IsNil bts then
                match rd.ReadNilBytes bts with
                | (_, some err) => (z, [], some err)
                | (bts, none) => ({ z with SourceHash := none }, bts, none)
              else
                let h0 : Hash :=
                  match z.SourceHash with
                  | none => 0
                  | some h => h
                match dh.UnmarshalMsg h0 bts with
                | (h, _, some err) => ({ z with SourceHash := some h }, [], some err)
                | (h, bts, none) => ({ z with SourceHash := some h }, bts, none)

namespace msgp

/-- The number that the bytes spell, most significant first. -/
def fromBigEndian (bts : Bytes) : Nat := bts.foldl (fun acc b => acc * 256 + b) 0

/-- The error `msgp.ErrShortBytes`. -/
def ErrShortBytes : MsgError := MsgError.other "msgp: too few bytes left to read object"

/-- The error for a leading byte that does not start a value of the wanted
type. -/
def errWrongType : MsgError := MsgError.other "msgp: attempted to decode a value of another type"

/-- The number in the first `width` bytes, with the bytes behind them. -/
def readUnsigned (width : Nat) (bts : Bytes) : Nat × Bytes × Option MsgError :=
  if bts.length < width then (0, bts, some ErrShortBytes)
  else (fromBigEndian (bts.take width), bts.drop width, none)

/-- The unsigned number `n` of `width` bytes read as a two's complement
number. -/
def toSigned (width : Nat) (n : Nat) : Int :=
  if n < 2 ^ (8 * width - 1) then (n : Int) else (n : Int) - 2 ^ (8 * width)

/-- The two's complement number in the first `width` bytes, with the bytes
behind them. -/
def readSigned (width : Nat) (bts : Bytes) : Int × Bytes × Option MsgError :=
  if bts.length < width then (0, bts, some ErrShortBytes)
  else (toSigned width (fromBigEndian (bts.take width)), bts.drop width, none)

/-- Reads an unsigned integer in one of the five forms `AppendUint64` writes. -/
def ReadUint64Bytes (bts : Bytes) : Nat × Bytes × Option MsgError :=
  match bts with
  | [] => (0, bts, some ErrShortBytes)
  | lead :: rest =>
    if lead ≤ 0x7f then (lead, rest, none)
    else if lead = 0xcc then readUnsigned 1 rest
    else if lead = 0xcd then readUnsigned 2 rest
    else if lead = 0xce then readUnsigned 4 rest
    else if lead = 0xcf then readUnsigned 8 rest
    else (0, bts, some errWrongType)

/-- Reads a signed integer in one of the forms `AppendInt64` writes. -/
def ReadInt64Bytes (bts : Bytes) : Int × Bytes × Option MsgError :=
  match bts with
  | [] => (0, bts, some ErrShortBytes)
  | lead :: rest =>
    if lead ≤ 0x7f then ((lead : Int), rest, none)
    else if 0xe0 ≤ lead ∧ lead ≤ 0xff then ((lead : Int) - 256, rest, none)
    else if lead = 0xd0 then readSigned 1 rest
    else if lead = 0xd1 then readSigned 2 rest
    else if lead = 0xd2 then readSigned 4 rest
    else if lead = 0xd3 then readSigned 8 rest
    else (0, bts, some errWrongType)

/-- The first `size` bytes, with the bytes behind them. -/
def readBody (size : Nat) (bts : Bytes) : Bytes × Bytes × Option MsgError :=
  if bts.length < size then ([], bts, some ErrShortBytes)
  else (bts.take size, bts.drop size, none)

/-- Reads a string in one of the four forms `AppendString` writes. -/
def ReadStringBytes (bts : Bytes) : Bytes × Bytes × Option MsgError :=
  match bts with
  | [] => ([], bts, some ErrShortBytes)
  | lead :: rest =>
    if 0xa0 ≤ lead ∧ lead ≤ 0xbf then readBody (lead - 0xa0) rest
    else if lead = 0xd9 then
      match readUnsigned 1 rest with
      | (_, _, some err) => ([], bts, some err)
      | (size, rest, none) => readBody size rest
    else if lead = 0xda then
      match readUnsigned 2 rest with
      | (_, _, some err) => ([], bts, some err)
      | (size, rest, none) => readBody size rest
    else if lead = 0xdb then
      match readUnsigned 4 rest with
      | (_, _, some err) => ([], bts, some err)
      | (size, rest, none) => readBody size rest
    else ([], bts, some errWrongType)

/-- Reads the header of an array: the count in the lead byte, or in the two or
four bytes behind it. -/
def ReadArrayHeaderBytes (bts : Bytes) : Nat × Bytes × Option MsgError :=
  match bts with
  | [] => (0, bts, some ErrShortBytes)
  | lead :: rest =>
    if 0x90 ≤ lead ∧ lead ≤ 0x9f then (lead - 0x90, rest, none)
    else if lead = 0xdc then readUnsigned 2 rest
    else if lead = 0xdd then readUnsigned 4 rest
    else (0, bts, some errWrongType)

/-- The function `msgp.IsNil`: the input starts with the nil byte. -/
def IsNil (bts : Bytes) : Bool :=
  match bts with
  | [] => false
  | lead :: _ => lead == 0xc0

/-- Reads the nil byte. -/
def ReadNilBytes (bts : Bytes) : Bytes × Option MsgError :=
  match bts with
  | [] => (bts, some ErrShortBytes)
  | lead :: rest => if lead = 0xc0 then (rest, none) else (bts, some errWrongType)

/-- The read functions for the MessagePack wire format. -/
def wireRead : MsgpRead :=
  { ReadArrayHeaderBytes := ReadArrayHeaderBytes
    ReadUint64Bytes := ReadUint64Bytes
    ReadStringBytes := ReadStringBytes
    ReadIntBytes := ReadInt64Bytes
    IsNil := IsNil
    ReadNilBytes := ReadNilBytes }

end msgp

/-- The decoder of `sampleHashCodec`. -/
def sampleHashDecoder : Decoder Hash :=
  { UnmarshalMsg := fun z bts =>
      match bts with
      | 0xc4 :: 4 :: rest =>
        match msgp.readUnsigned 4 rest with
        | (_, _, some err) => (z, bts, some err)
        | (hash, rest, none) => (hash, rest, none)
      | _ => (z, bts, some msgp.errWrongType) }

/-- The decoder of `samplePingCodec`. -/
def samplePingDecoder : Decoder Unit :=
  { UnmarshalMsg := fun z bts =>
      match bts with
      | 0xc0 :: rest => ((), rest, none)
      | _ => (z, bts, some msgp.errWrongType) }

/-- A sample envelope without a source hash. -/
def sampleEnvelopeNoHash : P2PMessage Unit :=
  { MessageType := 9, SourceID := [0x70, 0x65, 0x65, 0x72], Version := 70000, Message := (),
    SourceHash := none }

/-- An empty receiver for a ping. -/
def emptyEnvelope : P2PMessage Unit :=
  { MessageType := 0, SourceID := [], Version := 0, Message := (), SourceHash := none }

end OG

/-! # Theorems -/

namespace OG

/-! ## The catch-up syncer -/

namespace syncer

/-- C1: when a cycle is already in flight (`syncFlag = true`), `syncToLatest`
returns nil and the node is exactly the node it was called on: no collaborator
was called and nothing was sent (the trace is unchanged), and `syncFlag`,
`WorkState` and `currentBestHeight` are unchanged.  This holds for every fuel,
so the call returns. -/
theorem syncToLatest_busy_is_noop {ω : Type} (E : Collaborators ω) (fuel : Nat) (s : Node ω)
    (h : s.c.syncFlag = true) : syncToLatest E fuel s = some (none, s) := by
  simp [syncToLatest, isSyncing, h]

/-- Witness of C1 on the sample node with a peer 5 sequencers ahead. -/
theorem syncToLatest_busy_is_noop_witness :
    (sampleNode true 105 100).c.syncFlag = true ∧
      syncToLatest sampleCollaborators 0 (sampleNode true 105 100)
        = some (none, sampleNode true 105 100) :=
  ⟨rfl, syncToLatest_busy_is_noop sampleCollaborators 0 (sampleNode true 105 100) rfl⟩

/-- C9 (as stated, refuted): with our height `2 ^ 64 - 1` and `maxDiff = 1` the
best peer's height 5 is at most the unbounded sum `2 ^ 64`, but the 64-bit sum
wraps to 0 and `isUpToDate 1` returns false. -/
theorem isUpToDate_unbounded_sum_refuted :
    (sampleCollaborators.BestPeerInfo (sampleNode false 5 (2 ^ 64 - 1)).world).1
        = Except.ok ("p", 6, 5) ∧
      (sampleCollaborators.CurrentId (sampleNode false 5 (2 ^ 64 - 1)).world).1 = 2 ^ 64 - 1 ∧
      (isUpToDate sampleCollaborators 1 (sampleNode false 5 (2 ^ 64 - 1))).1 = false ∧
      5 ≤ (2 ^ 64 - 1) + 1 := by
  refine ⟨rfl, rfl, ?_, by decide⟩
  simp [isUpToDate, sampleCollaborators, sampleNode, add64]

/-- C9 (amended): when the peer provider reports a best peer at height `seqId`,
`isUpToDate maxDiff` returns true if and only if `seqId` is at most the 64-bit
sum `(ourId + maxDiff) mod 2 ^ 64`, where `ourId` is the height the node status
provider reports; whenever `ourId + maxDiff` fits in 64 bits (as for
`maxDiff = 0`, the only value `syncToLatest` passes) this is the comparison with
the unbounded sum. -/
theorem isUpToDate_iff_wrapping_sum {ω : Type} (E : Collaborators ω) (maxDiff : Nat) (s : Node ω)
    (peerId : String) (hash : Hash) (seqId : Nat)
    (h : (E.BestPeerInfo s.world).1 = Except.ok (peerId, hash, seqId)) :
    ((isUpToDate E maxDiff s).1 = true ↔
        seqId ≤ ((E.CurrentId (E.BestPeerInfo s.world).2).1 + maxDiff) % 2 ^ 64) ∧
      ((E.CurrentId (E.BestPeerInfo s.world).2).1 + maxDiff < 2 ^ 64 →
        ((isUpToDate E maxDiff s).1 = true ↔
          seqId ≤ (E.CurrentId (E.BestPeerInfo s.world).2).1 + maxDiff)) := by
  have key : (isUpToDate E maxDiff s).1 = true ↔
      seqId ≤ ((E.CurrentId (E.BestPeerInfo s.world).2).1 + maxDiff) % 2 ^ 64 := by
    simp [isUpToDate, h, add64]
  refine ⟨key, fun hlt => ?_⟩
  rw [key, Nat.mod_eq_of_lt hlt]

/-- Witness of C9 (amended), the threshold example of the specification: with
the best peer at 101 and `maxDiff = 0` the node is not up to date at height 100
and is up to date at height 101. -/
theorem isUpToDate_iff_wrapping_sum_witness :
    (sampleCollaborators.BestPeerInfo (sampleNode false 101 100).world).1
        = Except.ok ("p", 102, 101) ∧
      (isUpToDate sampleCollaborators 0 (sampleNode false 101 100)).1 = false ∧
      (isUpToDate sampleCollaborators 0 (sampleNode false 101 101)).1 = true := by
  have h0 := (isUpToDate_iff_wrapping_sum sampleCollaborators 0 (sampleNode false 101 100)
    "p" 102 101 rfl).1
  have h1 := (isUpToDate_iff_wrapping_sum sampleCollaborators 0 (sampleNode false 101 101)
    "p" 102 101 rfl).1
  refine ⟨rfl, ?_, ?_⟩
  · rw [← Bool.not_eq_true, h0]
    simp [sampleCollaborators, sampleNode]
  · rw [h1]
    simp [sampleCollaborators, sampleNode]

/-- C10: when `BestPeerInfo` returns an error, `isUpToDate maxDiff` returns the
`BootStrapNode` flag for every `maxDiff`, and the only collaborator call it
makes is that `BestPeerInfo` call: the node's own height is not asked for. -/
theorem isUpToDate_without_peer {ω : Type} (E : Collaborators ω) (maxDiff : Nat) (s : Node ω)
    (err : GoError) (h : (E.BestPeerInfo s.world).1 = Except.error err) :
    (isUpToDate E maxDiff s).1 = s.c.BootStrapNode ∧
      (isUpToDate E maxDiff s).2.trace = s.trace ++ [Event.BestPeerInfo] ∧
      (isUpToDate E maxDiff s).2.world = (E.BestPeerInfo s.world).2 ∧
      (isUpToDate E maxDiff s).2.c = s.c := by
  simp [isUpToDate, h]

/-- Witness of C10 on a bootstrap node without peers. -/
theorem isUpToDate_without_peer_witness :
    (sampleCollaborators.BestPeerInfo (loneNode true 7).world).1 = Except.error "no peer" ∧
      (isUpToDate sampleCollaborators 3 (loneNode true 7)).1 = true ∧
      (isUpToDate sampleCollaborators 3 (loneNode true 7)).2.trace = [Event.BestPeerInfo] :=
  ⟨rfl, (isUpToDate_without_peer sampleCollaborators 3 (loneNode true 7) "no peer" rfl).1,
    (isUpToDate_without_peer sampleCollaborators 3 (loneNode true 7) "no peer" rfl).2.1⟩

end syncer

/-! ## The header range scan: the loop -/

theorem resolveOrigin_frame (d : Dag) (hm : Bool) (s : ScanState) :
    sameFrame s (resolveOrigin d hm s).2 := by
  unfold resolveOrigin sameFrame
  split
  · split
    · split <;> simp
    · simp
  · simp

theorem advance_frame (d : Dag) (hm : Bool) (o : Sequencer) (s : ScanState) :
    sameFrame s (advance d hm o s).state ∧ (advance d hm o s).isStop = false := by
  generalize hr : advance d hm o s = r
  simp only [advance] at hr
  split at hr
  · split at hr
    · subst hr; simp [Iter.state, Iter.isStop, sameFrame]
    · split at hr <;> subst hr <;> simp [Iter.state, Iter.isStop, sameFrame]
  · split at hr
    · split at hr
      · subst hr; simp [Iter.state, Iter.isStop, sameFrame]
      · split at hr
        · split at hr
          · subst hr; simp [Iter.state, Iter.isStop, sameFrame]
          · split at hr <;> subst hr <;> simp [Iter.state, Iter.isStop, sameFrame]
        · subst hr; simp [Iter.state, Iter.isStop, sameFrame]
    · split at hr
      · split at hr <;> subst hr <;> simp [Iter.state, Iter.isStop, sameFrame]
      · subst hr; simp [Iter.state, Iter.isStop, sameFrame]

/-- An iteration that ends in `break` appended nothing; every other iteration
appended exactly one header. -/
theorem iteration_frame (L : Limits) (d : Dag) (hm : Bool) (s : ScanState) :
    if (iteration L d hm s).isStop then sameFrame s (iteration L d hm s).state
    else appendedOne L s (iteration L d hm s).state := by
  have hres := resolveOrigin_frame d hm s
  unfold iteration
  rcases hr : resolveOrigin d hm s with ⟨o, s1⟩
  rw [hr] at hres
  cases o with
  | none => simpa [Iter.isStop, Iter.state] using hres
  | some origin =>
    obtain ⟨h1, h2, h3, h4, h5⟩ := hres
    have hadv := advance_frame d hm origin
      { s1 with headers := s1.headers ++ [origin], bytes := s1.bytes + L.estHeaderRlpSize }
    obtain ⟨⟨a1, a2, a3, a4, a5⟩, hns⟩ := hadv
    simp only [hns]
    simp only [Bool.false_eq_true, if_false]
    simp only at h1 h2 h3 h4 h5
    refine ⟨⟨origin, ?_⟩, ?_, ?_, ?_, ?_⟩
    · rw [a1, h1]
    · rw [a2, h2]
    · rw [a3, h3]
    · rw [a4, h4]
    · rw [a5, h5]

theorem scanLoop_of_not_cond (L : Limits) (d : Dag) (hm : Bool) (fuel : Nat) (s : ScanState)
    (h : loopCond L s = false) : scanLoop L d hm fuel s = ScanResult.done s := by
  cases fuel <;> simp [scanLoop, h]

theorem scanLoop_succ (L : Limits) (d : Dag) (hm : Bool) (fuel : Nat) (s : ScanState)
    (h : loopCond L s = true) :
    scanLoop L d hm (fuel + 1) s =
      match iteration L d hm s with
      | Iter.next s1 => scanLoop L d hm fuel s1
      | Iter.stop s1 => ScanResult.done s1
      | Iter.nilDeref s1 => ScanResult.nilDeref s1 := by
  simp [scanLoop, h]

theorem loopCond_length_lt (L : Limits) (s : ScanState) (h : loopCond L s = true) :
    s.headers.length < L.MaxHeaderFetch := by
  simp [loopCond] at h
  exact h.2

theorem toInt_lt (n a : Nat) (h : (n : Int) < toInt a) : n < a := by
  unfold toInt at h
  have := Nat.mod_le a (2 ^ 64)
  split at h <;> omega

theorem loopCond_length_lt_amount (L : Limits) (s : ScanState) (h : loopCond L s = true) :
    s.headers.length < s.query.Amount := by
  simp [loopCond] at h
  exact toInt_lt _ _ h.1.1.2

/-- Loop rule: a property that holds on entry and is kept by every iteration
made under the loop condition holds for the state the loop ends in; and the
loop does end, within `MaxHeaderFetch - len(headers)` iterations. -/
theorem scanLoop_invariant (L : Limits) (d : Dag) (hm : Bool) (P : ScanState → Prop)
    (hstep : ∀ s, P s → loopCond L s = true → P (iteration L d hm s).state) :
    ∀ (fuel : Nat) (s : ScanState), P s → L.MaxHeaderFetch ≤ fuel + s.headers.length →
      ∃ s1, (scanLoop L d hm fuel s).final = some s1 ∧ P s1 := by
  intro fuel
  induction fuel with
  | zero =>
    intro s hP hfuel
    have hc : loopCond L s = false := by
      cases hcond : loopCond L s with
      | false => rfl
      | true => have := loopCond_length_lt L s hcond; omega
    exact ⟨s, by rw [scanLoop_of_not_cond _ _ _ _ _ hc]; rfl, hP⟩
  | succ fuel ih =>
    intro s hP hfuel
    cases hcond : loopCond L s with
    | false => exact ⟨s, by rw [scanLoop_of_not_cond _ _ _ _ _ hcond]; rfl, hP⟩
    | true =>
      have hP1 := hstep s hP hcond
      have hfr := iteration_frame L d hm s
      rw [scanLoop_succ _ _ _ _ _ hcond]
      cases hit : iteration L d hm s with
      | next s1 =>
        rw [hit] at hP1 hfr
        simp only [Iter.isStop, Iter.state, Bool.false_eq_true, if_false] at hfr hP1
        obtain ⟨⟨o, ho⟩, -⟩ := hfr
        apply ih s1 hP1
        rw [ho, List.length_append, List.length_singleton]
        omega
      | stop s1 => rw [hit] at hP1; exact ⟨s1, rfl, hP1⟩
      | nilDeref s1 => rw [hit] at hP1; exact ⟨s1, rfl, hP1⟩

/-- The handler's loop always ends within the `MaxHeaderFetch` iterations it is
given: the result is never `outOfFuel`. -/
theorem scanLoop_enough_fuel (L : Limits) (d : Dag) (query : MessageHeaderRequest) :
    HandleHeaderRequest L d query ≠ ScanResult.outOfFuel := by
  obtain ⟨s1, h, -⟩ := scanLoop_invariant L d (!query.Origin.Hash.Empty) (fun _ => True)
    (fun _ _ _ => trivial) L.MaxHeaderFetch (initScan query) trivial (by simp)
  intro hcontra
  unfold HandleHeaderRequest at hcontra
  rw [hcontra] at h
  simp [ScanResult.final] at h

/-- C2: for every query and every storage state the handler's loop ends, and
the headers it has gathered when it ends (the headers of the response, when a
response is sent) number at most `min(query.Amount, MaxHeaderFetch)`. -/
theorem HandleHeaderRequest_count_le (L : Limits) (d : Dag) (query : MessageHeaderRequest) :
    ∃ s, (HandleHeaderRequest L d query).final = some s ∧
      s.headers.length ≤ min query.Amount L.MaxHeaderFetch ∧
      ((HandleHeaderRequest L d query).response = some s.headers ∨
        (HandleHeaderRequest L d query).response = none) := by
  obtain ⟨s1, h, hA, hlen⟩ := scanLoop_invariant L d (!query.Origin.Hash.Empty)
    (fun s => s.query.Amount = query.Amount ∧
      s.headers.length ≤ min query.Amount L.MaxHeaderFetch)
    (by
      intro s ⟨hA, _⟩ hcond
      have h1 := loopCond_length_lt L s hcond
      have h2 := loopCond_length_lt_amount L s hcond
      have hfr := iteration_frame L d (!query.Origin.Hash.Empty) s
      split at hfr
      · obtain ⟨e1, -, e3, -⟩ := hfr
        rw [e1, e3, hA]
        exact ⟨rfl, by rw [← hA, Nat.le_min]; omega⟩
      · obtain ⟨⟨o, ho⟩, -, e3, -⟩ := hfr
        rw [ho, e3, hA, List.length_append, List.length_singleton]
        exact ⟨rfl, by rw [← hA, Nat.le_min]; omega⟩)
    L.MaxHeaderFetch (initScan query) (by simp [initScan]) (by simp)
  refine ⟨s1, h, hlen, ?_⟩
  unfold HandleHeaderRequest at *
  cases hres : scanLoop L d (!query.Origin.Hash.Empty) L.MaxHeaderFetch (initScan query) with
  | done s2 =>
    rw [hres] at h
    simp only [ScanResult.final, Option.some.injEq] at h
    subst h
    exact Or.inl rfl
  | nilDeref s2 => exact Or.inr rfl
  | outOfFuel => exact Or.inr rfl

/-! ## Number mode, walking forward -/

theorem lt_byteBudgetCount (L : Limits) (hest : 0 < L.estHeaderRlpSize) (j : Nat) :
    j < byteBudgetCount L ↔ j * L.estHeaderRlpSize < L.softResponseLimit := by
  unfold byteBudgetCount
  rw [Nat.lt_iff_add_one_le, Nat.le_div_iff_mul_le hest, Nat.add_mul]
  omega

theorem heightsUpTo_step (m s H : Nat) (h : m ≤ H) :
    heightsUpTo m s H = heightsUpTo (m + s + 1) s H + 1 := by
  unfold heightsUpTo
  rw [if_pos h]
  split
  · rename_i h2
    have : H - m = (H - (m + s + 1)) + (s + 1) := by omega
    rw [this, Nat.add_div_right _ (Nat.succ_pos s)]
  · rename_i h2
    have : (H - m) / (s + 1) = 0 := Nat.div_eq_of_lt (by omega)
    rw [this]

theorem toInt_of_lt (a : Nat) (h : a < 2 ^ 63) : toInt a = (a : Int) := by
  unfold toInt
  have h1 : a % 2 ^ 64 = a := Nat.mod_eq_of_lt (by omega)
  rw [h1, if_pos h]

theorem toInt_neg (a : Nat) (h1 : 2 ^ 63 ≤ a) (h2 : a < 2 ^ 64) : toInt a < 0 := by
  unfold toInt
  have h3 : a % 2 ^ 64 = a := Nat.mod_eq_of_lt h2
  rw [h3, if_neg (by omega)]
  omega

theorem iteration_number_forward (L : Limits) (d : Dag) (s : ScanState)
    (hrev : s.query.Reverse = false) :
    iteration L d false s =
      match d.GetSequencerById s.query.Origin.Number with
      | none => Iter.stop { s with calls := s.calls ++ [DagCall.ById s.query.Origin.Number] }
      | some origin =>
        Iter.next
          { s with
            query :=
              { s.query with
                Origin :=
                  { s.query.Origin with
                    Number := add64 s.query.Origin.Number (add64 s.query.Skip 1) } }
            headers := s.headers ++ [origin]
            bytes := s.bytes + L.estHeaderRlpSize
            calls := s.calls ++ [DagCall.ById s.query.Origin.Number] } := by
  unfold iteration resolveOrigin
  cases hd : d.GetSequencerById s.query.Origin.Number with
  | none => simp [hd]
  | some origin => simp [hd, advance, hrev]

theorem numberForward_loop (L : Limits) (d : Dag) (a s H : Nat) (f : Nat → Sequencer)
    (hest : 0 < L.estHeaderRlpSize) (ha : a < 2 ^ 63) (hwrap : H + s + 1 < 2 ^ 64)
    (hstore : ∀ k, d.GetSequencerById k = if k ≤ H then some (f k) else none) :
    ∀ (fuel : Nat) (st : ScanState), st.query.Reverse = false → st.query.Skip = s →
      st.query.Amount = a → st.unknown = false →
      st.bytes = st.headers.length * L.estHeaderRlpSize →
      L.MaxHeaderFetch ≤ fuel + st.headers.length →
      (scanLoop L d false fuel st).response =
        some (st.headers ++
          (List.range (forwardRest L a s H st.headers.length st.query.Origin.Number)).map
            (fun k => f (st.query.Origin.Number + k * (s + 1)))) := by
  intro fuel
  induction fuel with
  | zero =>
    intro st hrev hskip hamt hunk hbytes hfuel
    have hc : loopCond L st = false := by
      cases hcond : loopCond L st with
      | false => rfl
      | true => have := loopCond_length_lt L st hcond; omega
    rw [scanLoop_of_not_cond _ _ _ _ _ hc]
    have : forwardRest L a s H st.headers.length st.query.Origin.Number = 0 := by
      unfold forwardRest
      have : L.MaxHeaderFetch - st.headers.length = 0 := by omega
      rw [this]; simp
    simp [this, ScanResult.response]
  | succ fuel ih =>
    intro st hrev hskip hamt hunk hbytes hfuel
    cases hcond : loopCond L st with
    | false =>
      rw [scanLoop_of_not_cond _ _ _ _ _ hcond]
      have : forwardRest L a s H st.headers.length st.query.Origin.Number = 0 := by
        unfold forwardRest
        simp only [loopCond, hunk, hamt, toInt_of_lt a ha, hbytes] at hcond
        have hb := lt_byteBudgetCount L hest st.headers.length
        simp at hcond
        by_cases h1 : st.headers.length < a
        · by_cases h2 : st.headers.length * L.estHeaderRlpSize < L.softResponseLimit
          · have h3 := hcond h1 h2
            have : L.MaxHeaderFetch - st.headers.length = 0 := by omega
            rw [this]; simp
          · have : byteBudgetCount L - st.headers.length = 0 := by
              have := hb.not.mpr h2
              omega
            rw [this]; simp
        · have : a - st.headers.length = 0 := by omega
          rw [this]; simp
      simp [this, ScanResult.response]
    | true =>
      rw [scanLoop_succ _ _ _ _ _ hcond, iteration_number_forward L d st hrev, hstore]
      by_cases hm : st.query.Origin.Number ≤ H
      · rw [if_pos hm]
        simp only
        have hnext : add64 st.query.Origin.Number (add64 st.query.Skip 1)
            = st.query.Origin.Number + s + 1 := by
          unfold add64
          rw [hskip, Nat.mod_eq_of_lt (by omega), Nat.mod_eq_of_lt (by omega)]
          omega
        refine (ih _ (by exact hrev) (by exact hskip) (by exact hamt) (by exact hunk)
          (by simp [hbytes, Nat.add_mul])
          (by simp only [List.length_append, List.length_singleton]; omega)).trans ?_
        simp only [hnext, List.length_append, List.length_singleton]
        have hl1 := loopCond_length_lt L st hcond
        have hl2 := loopCond_length_lt_amount L st hcond
        have hl3 : st.headers.length < byteBudgetCount L := by
          rw [lt_byteBudgetCount L hest]
          simp [loopCond] at hcond
          rw [← hbytes]; exact hcond.1.2
        have hrest : forwardRest L a s H st.headers.length st.query.Origin.Number
            = forwardRest L a s H (st.headers.length + 1) (st.query.Origin.Number + s + 1) + 1 := by
          unfold forwardRest
          rw [heightsUpTo_step _ s H hm]
          omega
        rw [hrest, List.range_succ_eq_map, List.map_cons, List.map_map]
        simp only [List.append_assoc, List.singleton_append, Nat.zero_mul, Nat.add_zero]
        congr 3
        apply List.map_congr_left
        intro k _
        simp only [Function.comp]
        congr 1
        rw [Nat.succ_eq_add_one, Nat.add_mul]
        omega
      · rw [if_neg hm]
        have : forwardRest L a s H st.headers.length st.query.Origin.Number = 0 := by
          unfold forwardRest heightsUpTo
          rw [if_neg hm]; simp
        simp [this, ScanResult.response]

theorem initScan_loopCond_of_neg (L : Limits) (q : MessageHeaderRequest) (h : toInt q.Amount ≤ 0) :
    loopCond L (initScan q) = false := by
  simp only [loopCond, initScan, List.length_nil]
  have : ¬ (0 : Int) < toInt q.Amount := by omega
  simp [this]

/-- C3 (as stated, refuted): over heights 0..10 the claimed count for
`{origin 0, amount 2^63, skip 0}` is 11, but `int(amount)` is negative and the
response is empty; and for `{origin 5, amount 3, skip 2^64-3}` the claimed walk
is the single height 5 (the next height `5 + 2^64 - 2` is above 10), but the
origin number wraps and the response holds the heights 5, 3, 1. -/
theorem number_forward_claim_refuted :
    forwardCount sampleLimits 0 0 (2 ^ 63) 10 = 11 ∧
      (HandleHeaderRequest sampleLimits (chainDag 10) (numberQuery 0 (2 ^ 63) 0 false)).response
        = some [] ∧
      forwardCount sampleLimits 5 (2 ^ 64 - 3) 3 10 = 1 ∧
      (HandleHeaderRequest sampleLimits (chainDag 10)
          (numberQuery 5 3 (2 ^ 64 - 3) false)).response
        = some [chainSeq 5, chainSeq 3, chainSeq 1] := by
  refine ⟨by decide, ?_, by decide, ?_⟩
  · simp [HandleHeaderRequest, scanLoop, loopCond, initScan, numberQuery, sampleLimits, toInt,
      ScanResult.response, Hash.Empty]
  · simp [HandleHeaderRequest, scanLoop, loopCond, iteration, resolveOrigin, advance, initScan,
      numberQuery, chainDag, sampleLimits, toInt, add64, ScanResult.response, chainSeq, Hash.Empty]

/-- C3 (amended): for a number-mode forward query with origin `n`, skip `s` and
amount `a < 2^64`, over a store that holds the sequencer `f k` at every height
`k ≤ H` and nothing above, where `H + s + 1 < 2^64` (so that the walk cannot
wrap) and the per-header estimate is positive, the response holds exactly the
headers at heights `n, n+(s+1), n+2(s+1), ...` in that order, and their count is
the smallest of the amount, `MaxHeaderFetch`, the byte-budget count and the
number of those heights that are at most `H`; here an amount of `2^63` or more
counts as 0, because `int(amount)` is negative. -/
theorem HandleHeaderRequest_number_forward (L : Limits) (d : Dag) (n s a H : Nat)
    (f : Nat → Sequencer) (hest : 0 < L.estHeaderRlpSize) (ha : a < 2 ^ 64)
    (hwrap : H + s + 1 < 2 ^ 64)
    (hstore : ∀ k, d.GetSequencerById k = if k ≤ H then some (f k) else none) :
    (HandleHeaderRequest L d (numberQuery n a s false)).response =
      some ((List.range (forwardCount L n s (if a < 2 ^ 63 then a else 0) H)).map
        (fun k => f (n + k * (s + 1)))) := by
  have hmode : (!(numberQuery n a s false).Origin.Hash.Empty) = false := by
    simp [numberQuery, Hash.Empty]
  unfold HandleHeaderRequest
  rw [hmode]
  by_cases h63 : a < 2 ^ 63
  · rw [if_pos h63]
    have h := numberForward_loop L d a s H f hest h63 hwrap hstore L.MaxHeaderFetch
      (initScan (numberQuery n a s false)) rfl rfl rfl rfl (by simp [initScan]) (by simp)
    rw [h]
    simp [initScan, numberQuery, forwardRest, forwardCount]
  · rw [if_neg h63]
    have hneg := toInt_neg a (by omega) ha
    rw [scanLoop_of_not_cond _ _ _ _ _
      (initScan_loopCond_of_neg L (numberQuery n a s false) (by simp only [numberQuery]; omega))]
    simp [forwardCount, ScanResult.response, initScan]

/-- Witness of C3 (amended), the two examples of the specification: over
heights 0..10, `{origin 5, amount 3, skip 0}` yields the heights 5, 6, 7 and
`{origin 0, amount 3, skip 1}` yields the heights 0, 2, 4. -/
theorem HandleHeaderRequest_number_forward_witness :
    (HandleHeaderRequest sampleLimits (chainDag 10) (numberQuery 5 3 0 false)).response
        = some [chainSeq 5, chainSeq 6, chainSeq 7] ∧
      (HandleHeaderRequest sampleLimits (chainDag 10) (numberQuery 0 3 1 false)).response
        = some [chainSeq 0, chainSeq 2, chainSeq 4] := by
  constructor
  · rw [HandleHeaderRequest_number_forward sampleLimits (chainDag 10) 5 0 3 10 chainSeq
      (by decide) (by decide) (by decide) (fun _ => rfl)]
    decide
  · rw [HandleHeaderRequest_number_forward sampleLimits (chainDag 10) 0 1 3 10 chainSeq
      (by decide) (by decide) (by decide) (fun _ => rfl)]
    decide

/-! ## Number mode, walking toward genesis -/

/-- C4 (evaluation at the failing input): over heights 0..10 the example
`{origin 1, amount 5, skip 5, reverse}` is answered with the header at height 1
only, but the reverse number-mode query `{origin 1, amount 3, skip 2^64-1}` is
answered with the header at height 1 three times: `skip + 1` wraps to 0, the
guard `origin >= skip + 1` holds, and the origin number is not lowered. -/
theorem number_reverse_skip_max_repeats :
    (HandleHeaderRequest sampleLimits (chainDag 10) (numberQuery 1 5 5 true)).response
        = some [chainSeq 1] ∧
      (HandleHeaderRequest sampleLimits (chainDag 10)
          (numberQuery 1 3 (2 ^ 64 - 1) true)).response
        = some [chainSeq 1, chainSeq 1, chainSeq 1] := by
  constructor <;>
  simp [HandleHeaderRequest, scanLoop, loopCond, iteration, resolveOrigin, advance, initScan,
    numberQuery, chainDag, sampleLimits, toInt, add64, sub64, ScanResult.response, chainSeq,
    Hash.Empty]

/-! ## Walk order -/

/-- C5 (evaluation at the failing input): over heights 0..10, where the
sequencer stored at height `k` reports number `k`, the forward number-mode query
`{origin 0, amount 2, skip 2^64-1}` is answered with the header at height 0
twice, and the reverse query `{origin 4, amount 2, skip 2^64-1}` with the header
at height 4 twice, so consecutive numbers are neither strictly increasing nor
strictly decreasing. -/
theorem number_mode_skip_max_breaks_order :
    (∀ k seq, (chainDag 10).GetSequencerById k = some seq → seq.Number = k) ∧
      (HandleHeaderRequest sampleLimits (chainDag 10)
          (numberQuery 0 2 (2 ^ 64 - 1) false)).response
        = some [chainSeq 0, chainSeq 0] ∧
      ¬ (chainSeq 0).Number < (chainSeq 0).Number ∧
      (HandleHeaderRequest sampleLimits (chainDag 10)
          (numberQuery 4 2 (2 ^ 64 - 1) true)).response
        = some [chainSeq 4, chainSeq 4] ∧
      ¬ (chainSeq 4).Number > (chainSeq 4).Number := by
  refine ⟨?_, ?_, by decide, ?_, by decide⟩
  · intro k seq h
    simp only [chainDag] at h
    split at h
    · simp only [Option.some.injEq] at h
      rw [← h]; rfl
    · simp at h
  · simp [HandleHeaderRequest, scanLoop, loopCond, iteration, resolveOrigin, advance, initScan,
      numberQuery, chainDag, sampleLimits, toInt, add64, ScanResult.response, chainSeq,
      Hash.Empty]
  · simp [HandleHeaderRequest, scanLoop, loopCond, iteration, resolveOrigin, advance, initScan,
      numberQuery, chainDag, sampleLimits, toInt, add64, sub64, ScanResult.response, chainSeq,
      Hash.Empty]

/-! ## Hash mode -/

theorem scanLoop_succ_resume (L : Limits) (d : Dag) (hm : Bool) (fuel : Nat) (s : ScanState)
    (h : loopCond L s = true) :
    scanLoop L d hm (fuel + 1) s = resume L d hm fuel (iteration L d hm s) := by
  rw [scanLoop_succ _ _ _ _ _ h]
  cases iteration L d hm s <;> rfl

theorem loopCond_of_unknown (L : Limits) (s : ScanState) (h : s.unknown = true) :
    loopCond L s = false := by
  simp [loopCond, h]

theorem iteration_of_resolved (L : Limits) (d : Dag) (hm : Bool) (s s1 : ScanState)
    (o : Sequencer) (h : resolveOrigin d hm s = (some o, s1)) :
    iteration L d hm s =
      advance d hm o
        { s1 with headers := s1.headers ++ [o], bytes := s1.bytes + L.estHeaderRlpSize } := by
  simp [iteration, h]

theorem iteration_of_unresolved (L : Limits) (d : Dag) (hm : Bool) (s s1 : ScanState)
    (h : resolveOrigin d hm s = (none, s1)) : iteration L d hm s = Iter.stop s1 := by
  simp [iteration, h]

theorem advance_hash_forward_overflow (d : Dag) (o : Sequencer) (s : ScanState)
    (hrev : s.query.Reverse = false)
    (hov : add64 (add64 o.Number s.query.Skip) 1 ≤ o.Number) :
    advance d true o s = Iter.next { s with unknown := true } := by
  simp [advance, hrev, hov]

theorem advance_hash_reverse_wrap (d : Dag) (o : Sequencer) (s : ScanState)
    (hrev : s.query.Reverse = true) (hwrap : add64 s.query.Skip 1 = 0) :
    advance d true o s = Iter.next { s with unknown := true } := by
  simp [advance, hrev, hwrap]

theorem resolveOrigin_first_some (d : Dag) (q : MessageHeaderRequest) (o : Sequencer)
    (h : d.GetSequencerByHash q.Origin.Hash = some o) :
    resolveOrigin d true (initScan q) =
      (some o,
        { initScan q with
          first := false
          calls := [DagCall.ByHash q.Origin.Hash]
          query := { q with Origin := { q.Origin with Number := o.Number } } }) := by
  simp [resolveOrigin, initScan, h]

theorem resolveOrigin_first_none (d : Dag) (q : MessageHeaderRequest)
    (h : d.GetSequencerByHash q.Origin.Hash = none) :
    resolveOrigin d true (initScan q) =
      (none, { initScan q with first := false, calls := [DagCall.ByHash q.Origin.Hash] }) := by
  simp [resolveOrigin, initScan, h]

theorem max_fetch_pos_of_admitsFirst (L : Limits) (q : MessageHeaderRequest)
    (h : admitsFirst L q = true) : ∃ fuel, L.MaxHeaderFetch = fuel + 1 := by
  have := loopCond_length_lt L (initScan q) h
  simp only [initScan, List.length_nil] at this
  exact ⟨L.MaxHeaderFetch - 1, by omega⟩

/-- In hash mode with `skip = 2^64 - 1`, in either direction, the handler ends
as follows: nothing is looked up and nothing gathered when the caps admit no
header; otherwise the only lookup is the one by hash, and the origin header is
gathered if it is found. -/
theorem hash_skip_max_result (L : Limits) (d : Dag) (q : MessageHeaderRequest)
    (hh : q.Origin.Hash ≠ 0) (hskip : q.Skip = 2 ^ 64 - 1) :
    ∃ s, HandleHeaderRequest L d q = ScanResult.done s ∧
      s.headers = (if admitsFirst L q then (d.GetSequencerByHash q.Origin.Hash).toList else []) ∧
      s.calls = (if admitsFirst L q then [DagCall.ByHash q.Origin.Hash] else []) := by
  have hmode : (!q.Origin.Hash.Empty) = true := by
    simp [Hash.Empty, hh]
  unfold HandleHeaderRequest
  rw [hmode]
  cases hadm : admitsFirst L q with
  | false =>
    exact ⟨_, scanLoop_of_not_cond _ _ _ _ _ hadm, by simp [initScan], by simp [initScan]⟩
  | true =>
    obtain ⟨fuel, hfuel⟩ := max_fetch_pos_of_admitsFirst L _ hadm
    rw [hfuel, scanLoop_succ_resume _ _ _ _ _ hadm]
    cases hd : d.GetSequencerByHash q.Origin.Hash with
    | none =>
      rw [iteration_of_unresolved _ _ _ _ _ (resolveOrigin_first_none d q hd)]
      exact ⟨_, rfl, by simp [initScan], by simp⟩
    | some o =>
      rw [iteration_of_resolved _ _ _ _ _ _ (resolveOrigin_first_some d q o hd)]
      cases hrev : q.Reverse with
      | false =>
        rw [advance_hash_forward_overflow _ _ _ rfl (by simp only [add64, hskip]; omega)]
        simp only [resume]
        rw [scanLoop_of_not_cond _ _ _ _ _ (loopCond_of_unknown _ _ rfl)]
        exact ⟨_, rfl, by simp [initScan], by simp⟩
      | true =>
        rw [advance_hash_reverse_wrap _ _ _ rfl (by simp [add64, hskip])]
        simp only [resume]
        rw [scanLoop_of_not_cond _ _ _ _ _ (loopCond_of_unknown _ _ rfl)]
        exact ⟨_, rfl, by simp [initScan], by simp⟩

/-- C6 (as stated, refuted): over heights 0..10 the origin hash 8 is known (it
is the hash of the sequencer at height 7), yet the hash-mode forward query
`{hash 8, amount 0, skip 2^64-1}` is answered with no header, not with exactly
one: the loop is not entered for an amount of 0. -/
theorem hash_forward_skip_max_amount_zero :
    (chainDag 10).GetSequencerByHash 8 = some (chainSeq 7) ∧
      (HandleHeaderRequest sampleLimits (chainDag 10)
        (hashQuery 8 0 (2 ^ 64 - 1) false)).response = some [] := by
  refine ⟨rfl, ?_⟩
  simp [HandleHeaderRequest, scanLoop, loopCond, initScan, hashQuery, sampleLimits, toInt,
    ScanResult.response, Hash.Empty]

/-- C6 (amended): in a hash-mode forward scan, whenever
`current.number + skip + 1` overflows 64 bits (`next <= current`) in an
iteration that resolved its origin, the loop ends in that iteration, right after
appending the current header; in particular for `skip = 2^64 - 1` the response
holds at most one header: exactly the origin header if the origin hash is known
and the caps admit a first header (`0 < int(amount)`, positive byte budget and
`MaxHeaderFetch`), and none otherwise. -/
theorem hash_forward_overflow_stops (L : Limits) (d : Dag) :
    (∀ (fuel : Nat) (s s1 : ScanState) (o : Sequencer), s.query.Reverse = false →
        loopCond L s = true → resolveOrigin d true s = (some o, s1) →
        add64 (add64 o.Number s.query.Skip) 1 ≤ o.Number →
        ∃ sf, scanLoop L d true (fuel + 1) s = ScanResult.done sf ∧
          sf.headers = s.headers ++ [o] ∧ sf.unknown = true ∧ sf.calls = s1.calls) ∧
      (∀ q : MessageHeaderRequest, q.Origin.Hash ≠ 0 → q.Reverse = false →
        q.Skip = 2 ^ 64 - 1 →
        (HandleHeaderRequest L d q).response =
          some (if admitsFirst L q then (d.GetSequencerByHash q.Origin.Hash).toList else [])) := by
  constructor
  · intro fuel s s1 o hrev hcond hres hov
    have hfr := resolveOrigin_frame d true s
    rw [hres] at hfr
    obtain ⟨e1, -, -, e4, e5⟩ := hfr
    simp only at e1 e4 e5
    rw [scanLoop_succ_resume _ _ _ _ _ hcond, iteration_of_resolved _ _ _ _ _ _ hres,
      advance_hash_forward_overflow _ _ _ (by simp only; rw [e5, hrev])
        (by simp only; rw [e4]; exact hov)]
    simp only [resume]
    rw [scanLoop_of_not_cond _ _ _ _ _ (loopCond_of_unknown _ _ rfl)]
    exact ⟨_, rfl, by simp only; rw [e1], rfl, rfl⟩
  · intro q hh _ hskip
    obtain ⟨sf, hdone, hheaders, -⟩ := hash_skip_max_result L d q hh hskip
    rw [hdone]
    simp only [ScanResult.response, hheaders]

/-- Witness of C6 (amended): over heights 0..10 the first iteration of the
query `{hash 8, amount 5, skip 2^64-1}` resolves the header at height 7,
overflows and ends the loop, and the query is answered with exactly that
header. -/
theorem hash_forward_overflow_stops_witness :
    (hashQuery 8 5 (2 ^ 64 - 1) false).Origin.Hash ≠ 0 ∧
      add64 (add64 (chainSeq 7).Number (hashQuery 8 5 (2 ^ 64 - 1) false).Skip) 1
        ≤ (chainSeq 7).Number ∧
      (∃ sf, scanLoop sampleLimits (chainDag 10) true 1
          (initScan (hashQuery 8 5 (2 ^ 64 - 1) false)) = ScanResult.done sf ∧
        sf.headers = [chainSeq 7] ∧ sf.unknown = true) ∧
      (HandleHeaderRequest sampleLimits (chainDag 10)
        (hashQuery 8 5 (2 ^ 64 - 1) false)).response = some [chainSeq 7] := by
  refine ⟨by decide, by decide, ?_, ?_⟩
  · obtain ⟨sf, h1, h2, h3, -⟩ := (hash_forward_overflow_stops sampleLimits (chainDag 10)).1 0
      (initScan (hashQuery 8 5 (2 ^ 64 - 1) false))
      (resolveOrigin (chainDag 10) true (initScan (hashQuery 8 5 (2 ^ 64 - 1) false))).2
      (chainSeq 7) rfl (by decide) rfl (by decide)
    exact ⟨sf, h1, h2, h3⟩
  · rw [(hash_forward_overflow_stops sampleLimits (chainDag 10)).2
      (hashQuery 8 5 (2 ^ 64 - 1) false) (by decide) rfl rfl]
    decide

/-- C7 (as stated, refuted): over heights 0..10 the origin hash 8 is known, yet
the hash-mode reverse query `{hash 8, amount 0, skip 2^64-1}` is answered with
no header, not with the origin header: the loop is not entered for an amount
of 0. -/
theorem hash_reverse_skip_max_amount_zero :
    (chainDag 10).GetSequencerByHash 8 = some (chainSeq 7) ∧
      (HandleHeaderRequest sampleLimits (chainDag 10)
        (hashQuery 8 0 (2 ^ 64 - 1) true)).response = some [] := by
  refine ⟨rfl, ?_⟩
  simp [HandleHeaderRequest, scanLoop, loopCond, initScan, hashQuery, sampleLimits, toInt,
    ScanResult.response, Hash.Empty]

/-- C7 (amended): in a hash-mode reverse query with `skip = 2^64 - 1`,
`skip + 1` wraps to 0 and the scan stops after the first header: when the caps
admit a first header (`0 < int(amount)`, positive byte budget and
`MaxHeaderFetch`) the response holds exactly the origin header if the origin
hash is known and no header otherwise, and the only storage lookup is the one
by hash; when the caps admit none, the response is empty and nothing is looked
up.  In no case is a by-number lookup made. -/
theorem hash_reverse_skip_max_stops (L : Limits) (d : Dag) (q : MessageHeaderRequest)
    (hh : q.Origin.Hash ≠ 0) (_hrev : q.Reverse = true) (hskip : q.Skip = 2 ^ 64 - 1) :
    add64 q.Skip 1 = 0 ∧
      (HandleHeaderRequest L d q).response =
        some (if admitsFirst L q then (d.GetSequencerByHash q.Origin.Hash).toList else []) ∧
      (HandleHeaderRequest L d q).calls =
        (if admitsFirst L q then [DagCall.ByHash q.Origin.Hash] else []) ∧
      ∀ n, DagCall.ById n ∉ (HandleHeaderRequest L d q).calls := by
  obtain ⟨sf, hdone, hheaders, hcalls⟩ := hash_skip_max_result L d q hh hskip
  have hc : (HandleHeaderRequest L d q).calls =
      (if admitsFirst L q then [DagCall.ByHash q.Origin.Hash] else []) := by
    rw [hdone]; exact hcalls
  refine ⟨by simp [add64, hskip], ?_, hc, ?_⟩
  · rw [hdone]
    simp only [ScanResult.response, hheaders]
  · intro n
    rw [hc]
    split <;> simp

/-- Witness of C7 (amended): over heights 0..10 the reverse query `{hash 8,
amount 5, skip 2^64-1}` is answered with exactly the header at height 7 after
the single lookup by hash. -/
theorem hash_reverse_skip_max_stops_witness :
    (hashQuery 8 5 (2 ^ 64 - 1) true).Origin.Hash ≠ 0 ∧
      (HandleHeaderRequest sampleLimits (chainDag 10)
        (hashQuery 8 5 (2 ^ 64 - 1) true)).response = some [chainSeq 7] ∧
      (HandleHeaderRequest sampleLimits (chainDag 10)
        (hashQuery 8 5 (2 ^ 64 - 1) true)).calls = [DagCall.ByHash 8] := by
  have h := hash_reverse_skip_max_stops sampleLimits (chainDag 10)
    (hashQuery 8 5 (2 ^ 64 - 1) true) (by decide) rfl rfl
  refine ⟨by decide, ?_, ?_⟩
  · rw [h.2.1]; decide
  · rw [h.2.2.1]; decide

theorem advance_hash_forward (d : Dag) (o : Sequencer) (s : ScanState)
    (hrev : s.query.Reverse = false)
    (hno : o.Number < add64 (add64 o.Number s.query.Skip) 1) :
    advance d true o s =
      match d.GetSequencerById (add64 (add64 o.Number s.query.Skip) 1) with
      | some header =>
        match d.GetSequencerById
            (sub64 (add64 (add64 o.Number s.query.Skip) 1) (add64 s.query.Skip 1)) with
        | none =>
          Iter.nilDeref
            { s with
              calls := s.calls ++ [DagCall.ById (add64 (add64 o.Number s.query.Skip) 1)] ++
                [DagCall.ById
                  (sub64 (add64 (add64 o.Number s.query.Skip) 1) (add64 s.query.Skip 1))] }
        | some oldSeq =>
          if oldSeq.GetTxHash = s.query.Origin.Hash then
            Iter.next
              { s with
                calls := s.calls ++ [DagCall.ById (add64 (add64 o.Number s.query.Skip) 1)] ++
                  [DagCall.ById
                    (sub64 (add64 (add64 o.Number s.query.Skip) 1) (add64 s.query.Skip 1))]
                query :=
                  { s.query with
                    Origin :=
                      { Hash := header.GetTxHash
                        Number := add64 (add64 o.Number s.query.Skip) 1 } } }
          else
            Iter.next
              { s with
                calls := s.calls ++ [DagCall.ById (add64 (add64 o.Number s.query.Skip) 1)] ++
                  [DagCall.ById
                    (sub64 (add64 (add64 o.Number s.query.Skip) 1) (add64 s.query.Skip 1))]
                unknown := true }
      | none =>
        Iter.next
          { s with
            calls := s.calls ++ [DagCall.ById (add64 (add64 o.Number s.query.Skip) 1)]
            unknown := true } := by
  have hno2 : ¬ add64 (add64 o.Number s.query.Skip) 1 ≤ o.Number := by omega
  simp only [advance, hrev, Bool.and_false, Bool.false_eq_true, if_false, Bool.not_false,
    Bool.and_true, if_true, hno2]

/-- C8: in a hash-mode forward iteration without overflow, let `s` be the loop
state right after the header `o` was appended, `next = o.number + skip + 1` and
`old = next - (skip + 1)` (both in 64 bits).  The scan continues, that is the
iteration returns to the loop condition with `unknown` still false, if and only
if a sequencer exists at number `next` and the sequencer stored at number `old`
has a hash equal to the query's current origin hash; it then continues with the
origin hash set to the hash of the header at `next` and the origin number set
to `next`, and with the same headers.  In every other case the scan stops and
no further header is appended: either `unknown` is set and the loop ends at the
next check of its condition, or the sequencer at `old` is missing and the
handler aborts on the nil pointer. -/
theorem hash_forward_continue_iff (L : Limits) (d : Dag) (o : Sequencer) (s : ScanState)
    (fuel : Nat) (hrev : s.query.Reverse = false) (hunk : s.unknown = false)
    (hno : o.Number < add64 (add64 o.Number s.query.Skip) 1) :
    ((∃ s1, advance d true o s = Iter.next s1 ∧ s1.unknown = false) ↔
        ∃ header oldSeq,
          d.GetSequencerById (add64 (add64 o.Number s.query.Skip) 1) = some header ∧
          d.GetSequencerById
            (sub64 (add64 (add64 o.Number s.query.Skip) 1) (add64 s.query.Skip 1))
              = some oldSeq ∧
          oldSeq.GetTxHash = s.query.Origin.Hash) ∧
      (∀ s1, advance d true o s = Iter.next s1 → s1.unknown = false →
        ∃ header,
          d.GetSequencerById (add64 (add64 o.Number s.query.Skip) 1) = some header ∧
          s1.query.Origin =
            { Hash := header.GetTxHash, Number := add64 (add64 o.Number s.query.Skip) 1 } ∧
          s1.headers = s.headers) ∧
      ((¬ ∃ s1, advance d true o s = Iter.next s1 ∧ s1.unknown = false) →
        ∃ sf, (resume L d true fuel (advance d true o s)).final = some sf ∧
          sf.headers = s.headers) := by
  rw [advance_hash_forward d o s hrev hno]
  cases h1 : d.GetSequencerById (add64 (add64 o.Number s.query.Skip) 1) with
  | none =>
    refine ⟨⟨?_, ?_⟩, ?_, ?_⟩
    · rintro ⟨s1, h, hu⟩
      simp only [Iter.next.injEq] at h
      rw [← h] at hu
      simp at hu
    · rintro ⟨header, oldSeq, h, -⟩
      simp at h
    · intro s1 h hu
      simp only [Iter.next.injEq] at h
      rw [← h] at hu
      simp at hu
    · intro _
      simp only [resume]
      rw [scanLoop_of_not_cond _ _ _ _ _ (loopCond_of_unknown _ _ rfl)]
      exact ⟨_, rfl, rfl⟩
  | some header =>
    simp only
    cases h2 : d.GetSequencerById
        (sub64 (add64 (add64 o.Number s.query.Skip) 1) (add64 s.query.Skip 1)) with
    | none =>
      refine ⟨⟨?_, ?_⟩, ?_, ?_⟩
      · rintro ⟨s1, h, -⟩
        simp at h
      · rintro ⟨_, oldSeq, -, h, -⟩
        simp at h
      · intro s1 h
        simp at h
      · intro _
        exact ⟨_, rfl, rfl⟩
    | some oldSeq =>
      simp only
      by_cases h3 : oldSeq.GetTxHash = s.query.Origin.Hash
      · rw [if_pos h3]
        refine ⟨⟨fun _ => ⟨header, oldSeq, rfl, rfl, h3⟩, fun _ => ⟨_, rfl, hunk⟩⟩, ?_, ?_⟩
        · intro s1 h _
          simp only [Iter.next.injEq] at h
          rw [← h]
          exact ⟨header, rfl, rfl, rfl⟩
        · intro hcontra
          exact absurd ⟨_, rfl, hunk⟩ hcontra
      · rw [if_neg h3]
        refine ⟨⟨?_, ?_⟩, ?_, ?_⟩
        · rintro ⟨s1, h, hu⟩
          simp only [Iter.next.injEq] at h
          rw [← h] at hu
          simp at hu
        · rintro ⟨_, oldSeq2, -, h, h4⟩
          simp only [Option.some.injEq] at h
          rw [← h] at h4
          exact absurd h4 h3
        · intro s1 h hu
          simp only [Iter.next.injEq] at h
          rw [← h] at hu
          simp at hu
        · intro _
          simp only [resume]
          rw [scanLoop_of_not_cond _ _ _ _ _ (loopCond_of_unknown _ _ rfl)]
          exact ⟨_, rfl, rfl⟩

/-- Witness of C8: over heights 0..10, in the query `{hash 3, amount 5, skip 1}`
after the header at height 2, the sequencer at height 4 exists and the one at
height 2 has the origin hash 3, so the scan continues from hash 5, number 4. -/
theorem hash_forward_continue_iff_witness :
    sampleAfterFirst.query.Reverse = false ∧ sampleAfterFirst.unknown = false ∧
      (chainSeq 2).Number < add64 (add64 (chainSeq 2).Number sampleAfterFirst.query.Skip) 1 ∧
      ∃ s1, advance (chainDag 10) true (chainSeq 2) sampleAfterFirst = Iter.next s1 ∧
        s1.unknown = false :=
  ⟨rfl, rfl, by decide,
    (hash_forward_continue_iff sampleLimits (chainDag 10) (chainSeq 2) sampleAfterFirst 0 rfl rfl
      (by decide)).1.2 ⟨chainSeq 4, chainSeq 2, by decide, by decide, by decide⟩⟩

end OG

namespace OG

namespace syncer

/-! ## The catch-up syncer: the loop of `syncToLatest` -/

theorem syncLoop_upToDate {ω : Type} (E : Collaborators ω) (fuel diff : Nat) (s : Node ω)
    (h : (isUpToDate E diff s).1 = true) :
    syncLoop E fuel diff s =
      some (none, NotifyWorkingStateChanged CatchupSyncerStatus.Stopped (isUpToDate E diff s).2) := by
  cases fuel <;> simp [syncLoop, h]

theorem syncLoop_zero_behind {ω : Type} (E : Collaborators ω) (diff : Nat) (s : Node ω)
    (h : (isUpToDate E diff s).1 = false) : syncLoop E 0 diff s = none := by
  simp [syncLoop, h]

theorem syncLoop_bestPeer_error {ω : Type} (E : Collaborators ω) (fuel diff : Nat) (s : Node ω)
    (e : GoError) (h : (isUpToDate E diff s).1 = false)
    (hbp : (E.BestPeerInfo (afterStarted E diff s).world).1 = Except.error e) :
    syncLoop E (fuel + 1) diff s = some (some e, afterBestPeer E diff s) := by
  simp only [afterStarted] at hbp
  simp [syncLoop, h, hbp, afterBestPeer, afterStarted]

theorem syncLoop_synchronise {ω : Type} (E : Collaborators ω) (fuel diff : Nat) (s : Node ω)
    (bpId : String) (bpHash : Hash) (seqId : Nat) (h : (isUpToDate E diff s).1 = false)
    (hbp : (E.BestPeerInfo (afterStarted E diff s).world).1 = Except.ok (bpId, bpHash, seqId)) :
    syncLoop E (fuel + 1) diff s =
      match (E.Synchronise bpId bpHash seqId (atSynchronise E diff s seqId).c.SyncMode
          (atSynchronise E diff s seqId).world).1 with
      | some err => some (some err, afterSynchronise E diff s bpId bpHash seqId)
      | none => syncLoop E fuel stopSyncHeightDiffThreashold
          (afterSynchronise E diff s bpId bpHash seqId) := by
  simp only [afterStarted] at hbp
  simp [syncLoop, h, hbp, afterBestPeer, afterStarted, atSynchronise, afterSynchronise]

/-- Induction over the passes of the loop: a property of (threshold, node on
entry, result) holds for every result the loop returns if it holds when the node
is up to date, when `BestPeerInfo` fails, when `Synchronise` fails, and if it is
passed back from the rest of the loop through a pass that synchronised. -/
theorem syncLoop_induct {ω : Type} (E : Collaborators ω)
    (Q : Nat → Node ω → Option GoError × Node ω → Prop)
    (hdone : ∀ diff s, (isUpToDate E diff s).1 = true →
      Q diff s (none, NotifyWorkingStateChanged CatchupSyncerStatus.Stopped (isUpToDate E diff s).2))
    (hbp : ∀ diff s e, (isUpToDate E diff s).1 = false →
      (E.BestPeerInfo (afterStarted E diff s).world).1 = Except.error e →
      Q diff s (some e, afterBestPeer E diff s))
    (hse : ∀ diff s bpId bpHash seqId e, (isUpToDate E diff s).1 = false →
      (E.BestPeerInfo (afterStarted E diff s).world).1 = Except.ok (bpId, bpHash, seqId) →
      (E.Synchronise bpId bpHash seqId (atSynchronise E diff s seqId).c.SyncMode
        (atSynchronise E diff s seqId).world).1 = some e →
      Q diff s (some e, afterSynchronise E diff s bpId bpHash seqId))
    (hstep : ∀ diff s bpId bpHash seqId res, (isUpToDate E diff s).1 = false →
      (E.BestPeerInfo (afterStarted E diff s).world).1 = Except.ok (bpId, bpHash, seqId) →
      (E.Synchronise bpId bpHash seqId (atSynchronise E diff s seqId).c.SyncMode
        (atSynchronise E diff s seqId).world).1 = none →
      Q stopSyncHeightDiffThreashold (afterSynchronise E diff s bpId bpHash seqId) res →
      Q diff s res) :
    ∀ (fuel diff : Nat) (s : Node ω) (res : Option GoError × Node ω),
      syncLoop E fuel diff s = some res → Q diff s res := by
  intro fuel
  induction fuel with
  | zero =>
    intro diff s res h
    cases hu : (isUpToDate E diff s).1 with
    | true =>
      rw [syncLoop_upToDate E 0 diff s hu] at h
      simp only [Option.some.injEq] at h
      rw [← h]; exact hdone diff s hu
    | false =>
      rw [syncLoop_zero_behind E diff s hu] at h
      simp at h
  | succ fuel ih =>
    intro diff s res h
    cases hu : (isUpToDate E diff s).1 with
    | true =>
      rw [syncLoop_upToDate E _ diff s hu] at h
      simp only [Option.some.injEq] at h
      rw [← h]; exact hdone diff s hu
    | false =>
      cases hb : (E.BestPeerInfo (afterStarted E diff s).world).1 with
      | error e =>
        rw [syncLoop_bestPeer_error E fuel diff s e hu hb] at h
        simp only [Option.some.injEq] at h
        rw [← h]; exact hbp diff s e hu hb
      | ok p =>
        obtain ⟨bpId, bpHash, seqId⟩ := p
        rw [syncLoop_synchronise E fuel diff s bpId bpHash seqId hu hb] at h
        cases hs : (E.Synchronise bpId bpHash seqId (atSynchronise E diff s seqId).c.SyncMode
            (atSynchronise E diff s seqId).world).1 with
        | some e =>
          rw [hs] at h
          simp only [Option.some.injEq] at h
          rw [← h]; exact hse diff s bpId bpHash seqId e hu hb hs
        | none =>
          rw [hs] at h
          exact hstep diff s bpId bpHash seqId res hu hb hs (ih _ _ _ h)

/-- With more fuel the loop returns the same result. -/
theorem syncLoop_fuel_mono {ω : Type} (E : Collaborators ω) :
    ∀ (fuel extra diff : Nat) (s : Node ω) (res : Option GoError × Node ω),
      syncLoop E fuel diff s = some res → syncLoop E (fuel + extra) diff s = some res := by
  intro fuel
  induction fuel with
  | zero =>
    intro extra diff s res h
    cases hu : (isUpToDate E diff s).1 with
    | true =>
      rw [syncLoop_upToDate E 0 diff s hu] at h
      rw [syncLoop_upToDate E _ diff s hu]; exact h
    | false =>
      rw [syncLoop_zero_behind E diff s hu] at h
      simp at h
  | succ fuel ih =>
    intro extra diff s res h
    have hfuel : fuel + 1 + extra = (fuel + extra) + 1 := by omega
    rw [hfuel]
    cases hu : (isUpToDate E diff s).1 with
    | true =>
      rw [syncLoop_upToDate E _ diff s hu] at h
      rw [syncLoop_upToDate E _ diff s hu]; exact h
    | false =>
      cases hb : (E.BestPeerInfo (afterStarted E diff s).world).1 with
      | error e =>
        rw [syncLoop_bestPeer_error E fuel diff s e hu hb] at h
        rw [syncLoop_bestPeer_error E _ diff s e hu hb]; exact h
      | ok p =>
        obtain ⟨bpId, bpHash, seqId⟩ := p
        rw [syncLoop_synchronise E fuel diff s bpId bpHash seqId hu hb] at h
        rw [syncLoop_synchronise E _ diff s bpId bpHash seqId hu hb]
        cases hs : (E.Synchronise bpId bpHash seqId (atSynchronise E diff s seqId).c.SyncMode
            (atSynchronise E diff s seqId).world).1 with
        | some e => rw [hs] at h; exact h
        | none => rw [hs] at h; exact ih extra _ _ _ h

theorem noStoppedSend_append (a b : List Event) :
    noStoppedSend (a ++ b) = (noStoppedSend a && noStoppedSend b) := by
  simp [noStoppedSend, List.all_append]

theorem isUpToDate_stage {ω : Type} (E : Collaborators ω) (diff : Nat) (s : Node ω) :
    (isUpToDate E diff s).2.c = s.c ∧
      ∃ evs, (isUpToDate E diff s).2.trace = s.trace ++ evs ∧ noStoppedSend evs = true := by
  cases h : (E.BestPeerInfo s.world).1 with
  | error e =>
    refine ⟨by simp [isUpToDate, h], [Event.BestPeerInfo], by simp [isUpToDate, h], rfl⟩
  | ok p =>
    refine ⟨by simp [isUpToDate, h], [Event.BestPeerInfo, Event.GetCurrentNodeStatus],
      by simp [isUpToDate, h], rfl⟩

theorem notifyStarted_stage {ω : Type} (n : Node ω) :
    (NotifyWorkingStateChanged CatchupSyncerStatus.Started n).c.WorkState
        = CatchupSyncerStatus.Started ∧
      (NotifyWorkingStateChanged CatchupSyncerStatus.Started n).c.syncFlag = n.c.syncFlag ∧
      ∃ evs, (NotifyWorkingStateChanged CatchupSyncerStatus.Started n).trace = n.trace ++ evs ∧
        noStoppedSend evs = true := by
  unfold NotifyWorkingStateChanged
  split
  · rename_i h
    exact ⟨h, rfl, [], by simp, rfl⟩
  · refine ⟨rfl, rfl, _, rfl, ?_⟩
    simp [noStoppedSend, Event.isStoppedSend]

theorem notifyStopped_stage {ω : Type} (n : Node ω) :
    (NotifyWorkingStateChanged CatchupSyncerStatus.Stopped n).c.WorkState
        = CatchupSyncerStatus.Stopped ∧
      (NotifyWorkingStateChanged CatchupSyncerStatus.Stopped n).c.syncFlag = n.c.syncFlag ∧
      ∃ evs, (NotifyWorkingStateChanged CatchupSyncerStatus.Stopped n).trace = n.trace ++ evs := by
  unfold NotifyWorkingStateChanged
  split
  · rename_i h
    exact ⟨h, rfl, [], by simp⟩
  · exact ⟨rfl, rfl, _, rfl⟩

theorem afterStarted_stage {ω : Type} (E : Collaborators ω) (diff : Nat) (s : Node ω) :
    (afterStarted E diff s).c.WorkState = CatchupSyncerStatus.Started ∧
      (afterStarted E diff s).c.syncFlag = s.c.syncFlag ∧
      ∃ evs, (afterStarted E diff s).trace = s.trace ++ evs ∧ noStoppedSend evs = true := by
  obtain ⟨hc, evs1, ht1, hq1⟩ := isUpToDate_stage E diff s
  obtain ⟨hw, hf, evs2, ht2, hq2⟩ := notifyStarted_stage (isUpToDate E diff s).2
  refine ⟨hw, by rw [afterStarted, hf, hc], evs1 ++ evs2, ?_, ?_⟩
  · rw [afterStarted, ht2, ht1, List.append_assoc]
  · rw [noStoppedSend_append, hq1, hq2]; rfl

theorem afterBestPeer_stage {ω : Type} (E : Collaborators ω) (diff : Nat) (s : Node ω) :
    (afterBestPeer E diff s).c.WorkState = CatchupSyncerStatus.Started ∧
      (afterBestPeer E diff s).c.syncFlag = s.c.syncFlag ∧
      ∃ pre, (afterBestPeer E diff s).trace = s.trace ++ pre ++ [Event.BestPeerInfo] ∧
        noStoppedSend pre = true := by
  obtain ⟨hw, hf, evs, ht, hq⟩ := afterStarted_stage E diff s
  refine ⟨hw, hf, evs, ?_, hq⟩
  simp only [afterBestPeer]
  rw [ht]

theorem atSynchronise_stage {ω : Type} (E : Collaborators ω) (diff : Nat) (s : Node ω)
    (seqId : Nat) :
    (atSynchronise E diff s seqId).c.WorkState = CatchupSyncerStatus.Started ∧
      (atSynchronise E diff s seqId).c.currentBestHeight = seqId ∧
      (atSynchronise E diff s seqId).c.syncFlag = s.c.syncFlag ∧
      ∃ pre, (atSynchronise E diff s seqId).trace = s.trace ++ pre ∧ noStoppedSend pre = true := by
  obtain ⟨hw, hf, pre, ht, hq⟩ := afterBestPeer_stage E diff s
  refine ⟨hw, rfl, hf, pre ++ [Event.BestPeerInfo] ++ [Event.GetCurrentNodeStatus], ?_, ?_⟩
  · simp only [atSynchronise]
    rw [ht]; simp
  · rw [noStoppedSend_append, noStoppedSend_append, hq]; rfl

theorem afterSynchronise_stage {ω : Type} (E : Collaborators ω) (diff : Nat) (s : Node ω)
    (bpId : String) (bpHash : Hash) (seqId : Nat) :
    (afterSynchronise E diff s bpId bpHash seqId).c.WorkState = CatchupSyncerStatus.Started ∧
      (afterSynchronise E diff s bpId bpHash seqId).c.syncFlag = s.c.syncFlag ∧
      ∃ pre, (afterSynchronise E diff s bpId bpHash seqId).trace =
          s.trace ++ pre ++
            [Event.Synchronise bpId bpHash seqId (atSynchronise E diff s seqId).c.SyncMode] ∧
        noStoppedSend pre = true := by
  obtain ⟨hw, -, hf, pre, ht, hq⟩ := atSynchronise_stage E diff s seqId
  refine ⟨hw, hf, pre, ?_, hq⟩
  simp only [afterSynchronise]
  rw [ht]

/-- The shape of every result of the loop: the flag is untouched; a returned
error leaves `WorkState = Started` and a trace that ends with the failed call
and holds no publication of `Stopped`; a nil result is the publication of
`Stopped` right after an `isUpToDate` check that returned true at a node `s0`
reached without any publication of `Stopped`. -/
theorem syncLoop_shape {ω : Type} (E : Collaborators ω) (fuel diff : Nat) (s : Node ω)
    (res : Option GoError × Node ω) (h : syncLoop E fuel diff s = some res) :
    res.2.c.syncFlag = s.c.syncFlag ∧
      (∀ e, res.1 = some e →
        res.2.c.WorkState = CatchupSyncerStatus.Started ∧
        ∃ pre last, res.2.trace = s.trace ++ pre ++ [last] ∧ noStoppedSend pre = true ∧
          (last = Event.BestPeerInfo ∨ last.isSynchronise = true)) ∧
      (res.1 = none →
        ∃ s0 pre d, (d = diff ∨ d = stopSyncHeightDiffThreashold) ∧
          s0.trace = s.trace ++ pre ∧ noStoppedSend pre = true ∧
          s0.c.syncFlag = s.c.syncFlag ∧
          (s0.c.WorkState = s.c.WorkState ∨ s0.c.WorkState = CatchupSyncerStatus.Started) ∧
          (isUpToDate E d s0).1 = true ∧
          res.2 = NotifyWorkingStateChanged CatchupSyncerStatus.Stopped (isUpToDate E d s0).2) := by
  revert fuel diff s res
  apply syncLoop_induct E
  · intro diff s hu
    obtain ⟨hc, -⟩ := isUpToDate_stage E diff s
    obtain ⟨-, hf, -⟩ := notifyStopped_stage (isUpToDate E diff s).2
    refine ⟨by simp only; rw [hf, hc], fun e he => by simp at he, fun _ => ?_⟩
    exact ⟨s, [], diff, Or.inl rfl, by simp, rfl, rfl, Or.inl rfl, hu, rfl⟩
  · intro diff s e _ _
    obtain ⟨hw, hf, pre, ht, hq⟩ := afterBestPeer_stage E diff s
    refine ⟨hf, fun _ _ => ⟨hw, pre, _, ht, hq, Or.inl rfl⟩, fun hn => by simp at hn⟩
  · intro diff s bpId bpHash seqId e _ _ _
    obtain ⟨hw, hf, pre, ht, hq⟩ := afterSynchronise_stage E diff s bpId bpHash seqId
    refine ⟨hf, fun _ _ => ⟨hw, pre, _, ht, hq, Or.inr rfl⟩, fun hn => by simp at hn⟩
  · intro diff s bpId bpHash seqId res _ _ _ ih
    obtain ⟨hw, hf, pre5, ht5, hq5⟩ := afterSynchronise_stage E diff s bpId bpHash seqId
    obtain ⟨ihf, ihe, ihn⟩ := ih
    have hq6 : noStoppedSend (pre5 ++
        [Event.Synchronise bpId bpHash seqId (atSynchronise E diff s seqId).c.SyncMode]) = true := by
      rw [noStoppedSend_append, hq5]; rfl
    refine ⟨by rw [ihf, hf], ?_, ?_⟩
    · intro e he
      obtain ⟨hws, pre, last, ht, hq, hl⟩ := ihe e he
      refine ⟨hws, pre5 ++
        [Event.Synchronise bpId bpHash seqId (atSynchronise E diff s seqId).c.SyncMode] ++ pre,
        last, ?_, ?_, hl⟩
      · rw [ht, ht5]; simp
      · rw [noStoppedSend_append, hq6, hq]; rfl
    · intro hn
      obtain ⟨s0, pre, d, hd, ht, hq, hf0, hw0, hu0, hres⟩ := ihn hn
      refine ⟨s0, pre5 ++
        [Event.Synchronise bpId bpHash seqId (atSynchronise E diff s seqId).c.SyncMode] ++ pre,
        d, ?_, ?_, ?_, by rw [hf0, hf], ?_, hu0, hres⟩
      · rcases hd with hd | hd <;> exact Or.inr hd
      · rw [ht, ht5]; simp
      · rw [noStoppedSend_append, hq6, hq]; rfl
      · rcases hw0 with hw0 | hw0
        · exact Or.inr (by rw [hw0, hw])
        · exact Or.inr hw0

theorem syncToLatest_run {ω : Type} (E : Collaborators ω) (fuel : Nat) (s : Node ω)
    (r : Option GoError) (s1 : Node ω) (hflag : s.c.syncFlag = false)
    (h : syncToLatest E fuel s = some (r, s1)) :
    ∃ s2, syncLoop E fuel 0 (setSyncFlag s) = some (r, s2) ∧ s1 = unsetSyncFlag s2 := by
  simp only [syncToLatest, isSyncing, hflag, Bool.false_eq_true, if_false] at h
  cases hl : syncLoop E fuel 0 (setSyncFlag s) with
  | none => rw [hl] at h; simp at h
  | some p =>
    obtain ⟨r2, s2⟩ := p
    rw [hl] at h
    simp only [Option.some.injEq, Prod.mk.injEq] at h
    exact ⟨s2, by rw [h.1], h.2.symm⟩

theorem isUpToDate_true_cond {ω : Type} (E : Collaborators ω) (d : Nat) (s0 : Node ω)
    (h : (isUpToDate E d s0).1 = true) :
    (∃ e, (E.BestPeerInfo s0.world).1 = Except.error e ∧ s0.c.BootStrapNode = true) ∨
      ∃ bpId bpHash seqId, (E.BestPeerInfo s0.world).1 = Except.ok (bpId, bpHash, seqId) ∧
        seqId ≤ (E.CurrentId (E.BestPeerInfo s0.world).2).1 + d := by
  cases hb : (E.BestPeerInfo s0.world).1 with
  | error e =>
    left
    simp only [isUpToDate, hb] at h
    exact ⟨e, rfl, h⟩
  | ok p =>
    right
    obtain ⟨bpId, bpHash, seqId⟩ := p
    simp only [isUpToDate, hb, add64, decide_eq_true_eq] at h
    have := Nat.mod_le ((E.CurrentId (E.BestPeerInfo s0.world).2).1 + d) (2 ^ 64)
    exact ⟨bpId, bpHash, seqId, rfl, by omega⟩

theorem noSynchronise_append (a b : List Event) :
    noSynchronise (a ++ b) = (noSynchronise a && noSynchronise b) := by
  simp [noSynchronise, List.all_append]

theorem isUpToDate_noSynchronise {ω : Type} (E : Collaborators ω) (diff : Nat) (s : Node ω) :
    ∃ evs, (isUpToDate E diff s).2.trace = s.trace ++ evs ∧ noSynchronise evs = true := by
  cases h : (E.BestPeerInfo s.world).1 with
  | error e => exact ⟨[Event.BestPeerInfo], by simp [isUpToDate, h], rfl⟩
  | ok p =>
    exact ⟨[Event.BestPeerInfo, Event.GetCurrentNodeStatus], by simp [isUpToDate, h], rfl⟩

theorem notify_noSynchronise {ω : Type} (status : CatchupSyncerStatus) (n : Node ω) :
    ∃ evs, (NotifyWorkingStateChanged status n).trace = n.trace ++ evs ∧
      noSynchronise evs = true := by
  unfold NotifyWorkingStateChanged
  split
  · exact ⟨[], by simp, rfl⟩
  · refine ⟨_, rfl, ?_⟩
    simp [noSynchronise, Event.isSynchronise]

theorem atSynchronise_noSynchronise {ω : Type} (E : Collaborators ω) (diff : Nat) (s : Node ω)
    (seqId : Nat) :
    ∃ pre, (atSynchronise E diff s seqId).trace = s.trace ++ pre ∧ noSynchronise pre = true := by
  obtain ⟨evs1, ht1, hq1⟩ := isUpToDate_noSynchronise E diff s
  obtain ⟨evs2, ht2, hq2⟩ := notify_noSynchronise CatchupSyncerStatus.Started (isUpToDate E diff s).2
  refine ⟨evs1 ++ evs2 ++ [Event.BestPeerInfo] ++ [Event.GetCurrentNodeStatus], ?_, ?_⟩
  · simp only [atSynchronise, afterBestPeer, afterStarted]
    rw [ht2, ht1]; simp
  · rw [noSynchronise_append, noSynchronise_append, noSynchronise_append, hq1, hq2]; rfl

/-- Where the first `Synchronise` event of a list sits. -/
theorem first_synchronise_split (a rest pre post : List Event) (x y : Event)
    (ha : noSynchronise a = true) (hy : y.isSynchronise = true)
    (h : a ++ x :: rest = pre ++ y :: post) :
    (pre = a ∧ y = x ∧ post = rest) ∨ ∃ mid, pre = a ++ x :: mid ∧ rest = mid ++ y :: post := by
  induction a generalizing pre with
  | nil =>
    cases pre with
    | nil =>
      simp only [List.nil_append, List.cons.injEq] at h
      exact Or.inl ⟨rfl, h.1.symm, h.2.symm⟩
    | cons p pre1 =>
      simp only [List.nil_append, List.cons_append, List.cons.injEq] at h
      exact Or.inr ⟨pre1, by rw [h.1]; rfl, h.2⟩
  | cons b a1 ih =>
    have hb : b.isSynchronise = false ∧ noSynchronise a1 = true := by
      simpa [noSynchronise] using ha
    cases pre with
    | nil =>
      simp only [List.cons_append, List.nil_append, List.cons.injEq] at h
      rw [h.1] at hb
      rw [hb.1] at hy
      exact absurd hy (by simp)
    | cons p pre1 =>
      simp only [List.cons_append, List.cons.injEq] at h
      rcases ih pre1 hb.2 h.2 with ⟨h1, h2, h3⟩ | ⟨mid, h1, h2⟩
      · exact Or.inl ⟨by rw [h.1, h1], h2, h3⟩
      · exact Or.inr ⟨mid, by rw [h.1, h1]; rfl, h2⟩

theorem no_synchronise_split (a pre post : List Event) (y : Event)
    (ha : noSynchronise a = true) (hy : y.isSynchronise = true) (h : a = pre ++ y :: post) :
    False := by
  rw [h, noSynchronise_append] at ha
  simp [noSynchronise, hy] at ha

theorem afterBestPeer_noSynchronise {ω : Type} (E : Collaborators ω) (diff : Nat) (s : Node ω) :
    ∃ pre, (afterBestPeer E diff s).trace = s.trace ++ pre ∧ noSynchronise pre = true := by
  obtain ⟨evs1, ht1, hq1⟩ := isUpToDate_noSynchronise E diff s
  obtain ⟨evs2, ht2, hq2⟩ := notify_noSynchronise CatchupSyncerStatus.Started (isUpToDate E diff s).2
  refine ⟨evs1 ++ evs2 ++ [Event.BestPeerInfo], ?_, ?_⟩
  · simp only [afterBestPeer, afterStarted]
    rw [ht2, ht1]; simp
  · rw [noSynchronise_append, noSynchronise_append, hq1, hq2]; rfl

/-- Every `Synchronise` event in the trace of a returned loop was issued by a
pass of the loop: from a node `n` that `isUpToDate` found behind, with the peer
id, hash and height the `BestPeerInfo` call of that pass returned, on the node
`atSynchronise` of that pass, whose trace is the trace up to the event. -/
theorem syncLoop_calls {ω : Type} (E : Collaborators ω) (fuel diff : Nat) (s : Node ω)
    (res : Option GoError × Node ω) (h : syncLoop E fuel diff s = some res) :
    ∃ evs, res.2.trace = s.trace ++ evs ∧
      ∀ pre post bpId bpHash seqId mode,
        evs = pre ++ Event.Synchronise bpId bpHash seqId mode :: post →
        ∃ d n, (isUpToDate E d n).1 = false ∧
          (E.BestPeerInfo (afterStarted E d n).world).1 = Except.ok (bpId, bpHash, seqId) ∧
          (atSynchronise E d n seqId).trace = s.trace ++ pre ∧
          mode = (atSynchronise E d n seqId).c.SyncMode := by
  revert fuel diff s res
  apply syncLoop_induct E
  · intro diff s _
    obtain ⟨evs1, ht1, hq1⟩ := isUpToDate_noSynchronise E diff s
    obtain ⟨evs2, ht2, hq2⟩ :=
      notify_noSynchronise CatchupSyncerStatus.Stopped (isUpToDate E diff s).2
    refine ⟨evs1 ++ evs2, by simp only; rw [ht2, ht1, List.append_assoc], ?_⟩
    intro pre post bpId bpHash seqId mode hsplit
    exact absurd (no_synchronise_split _ pre post (Event.Synchronise bpId bpHash seqId mode)
      (by rw [noSynchronise_append, hq1, hq2]; rfl) rfl hsplit) id
  · intro diff s e _ _
    obtain ⟨evs, ht, hq⟩ := afterBestPeer_noSynchronise E diff s
    refine ⟨evs, ht, ?_⟩
    intro pre post bpId bpHash seqId mode hsplit
    exact absurd (no_synchronise_split _ pre post (Event.Synchronise bpId bpHash seqId mode)
      hq rfl hsplit) id
  · intro diff s bpId bpHash seqId e hu hb _
    obtain ⟨pre4, ht4, hq4⟩ := atSynchronise_noSynchronise E diff s seqId
    refine ⟨pre4 ++
      [Event.Synchronise bpId bpHash seqId (atSynchronise E diff s seqId).c.SyncMode], ?_, ?_⟩
    · simp only [afterSynchronise]
      rw [ht4, List.append_assoc]
    · intro pre post bpId2 bpHash2 seqId2 mode2 hsplit
      rcases first_synchronise_split pre4 [] pre post _
          (Event.Synchronise bpId2 bpHash2 seqId2 mode2) hq4 rfl hsplit with
        ⟨h1, h2, -⟩ | ⟨mid, -, h2⟩
      · simp only [Event.Synchronise.injEq] at h2
        obtain ⟨e1, e2, e3, e4⟩ := h2
        subst e1 e2 e3 e4
        exact ⟨diff, s, hu, hb, by rw [ht4, h1], rfl⟩
      · simp at h2
  · intro diff s bpId bpHash seqId res hu hb _ ih
    obtain ⟨pre4, ht4, hq4⟩ := atSynchronise_noSynchronise E diff s seqId
    obtain ⟨evs2, ht2, hcalls⟩ := ih
    have ht5 : (afterSynchronise E diff s bpId bpHash seqId).trace =
        s.trace ++ pre4 ++
          [Event.Synchronise bpId bpHash seqId (atSynchronise E diff s seqId).c.SyncMode] := by
      simp only [afterSynchronise]
      rw [ht4]
    refine ⟨pre4 ++
      Event.Synchronise bpId bpHash seqId (atSynchronise E diff s seqId).c.SyncMode :: evs2,
      ?_, ?_⟩
    · rw [ht2, ht5]; simp
    · intro pre post bpId2 bpHash2 seqId2 mode2 hsplit
      rcases first_synchronise_split pre4 evs2 pre post _
          (Event.Synchronise bpId2 bpHash2 seqId2 mode2) hq4 rfl hsplit with
        ⟨h1, h2, -⟩ | ⟨mid, h1, h2⟩
      · simp only [Event.Synchronise.injEq] at h2
        obtain ⟨e1, e2, e3, e4⟩ := h2
        subst e1 e2 e3 e4
        exact ⟨diff, s, hu, hb, by rw [ht4, h1], rfl⟩
      · obtain ⟨d, n, hu2, hb2, htn, hmode⟩ := hcalls mid post bpId2 bpHash2 seqId2 mode2 h2
        refine ⟨d, n, hu2, hb2, ?_, hmode⟩
        rw [htn, ht5, h1]; simp

/-- C11: if, in a pass of the loop, the `BestPeerInfo` call of the loop body or
`Downloader.Synchronise` returns an error `e`, the loop returns `e` at once, for
every remaining fuel: the node at return is the node right after the failed
call, its `WorkState` is `Started`, and the failed call is the last event of its
trace.  Accordingly every `syncToLatest` run entered with `syncFlag = false`
that returns an error ends with `WorkState = Started` and a trace whose last
event is the failed `BestPeerInfo` or `Synchronise` call (no further
`Synchronise` call) and in which `Stopped` was never published. -/
theorem syncToLatest_error_aborts {ω : Type} (E : Collaborators ω) :
    (∀ (fuel diff : Nat) (s : Node ω) (e : GoError), (isUpToDate E diff s).1 = false →
        (E.BestPeerInfo (afterStarted E diff s).world).1 = Except.error e →
        syncLoop E (fuel + 1) diff s = some (some e, afterBestPeer E diff s) ∧
          (afterBestPeer E diff s).c.WorkState = CatchupSyncerStatus.Started ∧
          (afterBestPeer E diff s).trace =
            (afterStarted E diff s).trace ++ [Event.BestPeerInfo]) ∧
      (∀ (fuel diff : Nat) (s : Node ω) (bpId : String) (bpHash : Hash) (seqId : Nat)
        (e : GoError), (isUpToDate E diff s).1 = false →
        (E.BestPeerInfo (afterStarted E diff s).world).1 = Except.ok (bpId, bpHash, seqId) →
        (E.Synchronise bpId bpHash seqId (atSynchronise E diff s seqId).c.SyncMode
          (atSynchronise E diff s seqId).world).1 = some e →
        syncLoop E (fuel + 1) diff s
            = some (some e, afterSynchronise E diff s bpId bpHash seqId) ∧
          (afterSynchronise E diff s bpId bpHash seqId).c.WorkState
            = CatchupSyncerStatus.Started ∧
          (afterSynchronise E diff s bpId bpHash seqId).trace =
            (atSynchronise E diff s seqId).trace ++
              [Event.Synchronise bpId bpHash seqId (atSynchronise E diff s seqId).c.SyncMode]) ∧
      (∀ (fuel : Nat) (s s1 : Node ω) (e : GoError), s.c.syncFlag = false →
        syncToLatest E fuel s = some (some e, s1) →
        s1.c.WorkState = CatchupSyncerStatus.Started ∧
          ∃ pre last, s1.trace = s.trace ++ pre ++ [last] ∧
            (last = Event.BestPeerInfo ∨ last.isSynchronise = true) ∧
            noStoppedSend (pre ++ [last]) = true) := by
  refine ⟨?_, ?_, ?_⟩
  · intro fuel diff s e hu hb
    exact ⟨syncLoop_bestPeer_error E fuel diff s e hu hb, (afterBestPeer_stage E diff s).1, rfl⟩
  · intro fuel diff s bpId bpHash seqId e hu hb hs
    refine ⟨?_, (afterSynchronise_stage E diff s bpId bpHash seqId).1, rfl⟩
    rw [syncLoop_synchronise E fuel diff s bpId bpHash seqId hu hb, hs]
  · intro fuel s s1 e hflag h
    obtain ⟨s2, hl, hs1⟩ := syncToLatest_run E fuel s (some e) s1 hflag h
    obtain ⟨-, he, -⟩ := syncLoop_shape E fuel 0 (setSyncFlag s) _ hl
    obtain ⟨hw, pre, last, ht, hq, hlast⟩ := he e rfl
    subst hs1
    refine ⟨hw, pre, last, ht, hlast, ?_⟩
    rw [noStoppedSend_append, hq]
    rcases hlast with hlast | hlast
    · rw [hlast]; rfl
    · cases last <;> simp [Event.isSynchronise] at hlast
      simp [noStoppedSend, Event.isStoppedSend]

/-- Witness of C11: on the sample node without peers (not a bootstrap node) the
`BestPeerInfo` call of the first pass fails and its error is returned; with the
failing downloader the `Synchronise` call of the first pass fails and its error
is returned, with `WorkState = Started`. -/
theorem syncToLatest_error_aborts_witness :
    syncLoop sampleCollaborators 1 0 (loneNode false 7)
        = some (some "no peer", afterBestPeer sampleCollaborators 0 (loneNode false 7)) ∧
      syncLoop brokenDownloader 1 0 (sampleNode false 105 100)
        = some (some "sync failed",
            afterSynchronise brokenDownloader 0 (sampleNode false 105 100) "p" 106 105) ∧
      ∃ s1, syncToLatest brokenDownloader 1 (sampleNode false 105 100)
          = some (some "sync failed", s1) ∧
        s1.c.WorkState = CatchupSyncerStatus.Started := by
  refine ⟨?_, ?_, ?_⟩
  · exact ((syncToLatest_error_aborts sampleCollaborators).1 0 0 (loneNode false 7) "no peer"
      (by decide) rfl).1
  · exact ((syncToLatest_error_aborts brokenDownloader).2.1 0 0 (sampleNode false 105 100)
      "p" 106 105 "sync failed" (by decide) rfl rfl).1
  · refine ⟨_, rfl, ?_⟩
    exact ((syncToLatest_error_aborts brokenDownloader).2.2 1 (sampleNode false 105 100) _
      "sync failed" rfl rfl).1

/-- C12: in every `syncToLatest` run entered with `syncFlag = false`, `Stopped`
is published only by the final `NotifyWorkingStateChanged(Stopped)`, directly
after an `isUpToDate(stopSyncHeightDiffThreashold)` check that returned true at
some node `s0`: up to `s0` no `Stopped` was published and `WorkState` is the
initial one or `Started`, and at `s0` either no peer info is available and the
node is a bootstrap node, or the best peer's height is at most the node's own
height plus the stop threshold.  A run that returns an error publishes no
`Stopped` at all. -/
theorem syncToLatest_stopped_only_after_check {ω : Type} (E : Collaborators ω) (fuel : Nat)
    (s s1 : Node ω) (r : Option GoError) (hflag : s.c.syncFlag = false)
    (h : syncToLatest E fuel s = some (r, s1)) :
    (∀ e, r = some e →
        s1.c.WorkState = CatchupSyncerStatus.Started ∧
        ∃ evs, s1.trace = s.trace ++ evs ∧ noStoppedSend evs = true) ∧
      (r = none →
        ∃ s0 pre, s0.trace = s.trace ++ pre ∧ noStoppedSend pre = true ∧
          (s0.c.WorkState = s.c.WorkState ∨ s0.c.WorkState = CatchupSyncerStatus.Started) ∧
          (isUpToDate E stopSyncHeightDiffThreashold s0).1 = true ∧
          s1 = unsetSyncFlag (NotifyWorkingStateChanged CatchupSyncerStatus.Stopped
            (isUpToDate E stopSyncHeightDiffThreashold s0).2) ∧
          ((∃ e, (E.BestPeerInfo s0.world).1 = Except.error e ∧ s0.c.BootStrapNode = true) ∨
            ∃ bpId bpHash seqId,
              (E.BestPeerInfo s0.world).1 = Except.ok (bpId, bpHash, seqId) ∧
              seqId ≤ (E.CurrentId (E.BestPeerInfo s0.world).2).1
                + stopSyncHeightDiffThreashold)) := by
  obtain ⟨s2, hl, hs1⟩ := syncToLatest_run E fuel s r s1 hflag h
  obtain ⟨-, he, hn⟩ := syncLoop_shape E fuel 0 (setSyncFlag s) _ hl
  subst hs1
  constructor
  · intro e hr
    obtain ⟨hw, pre, last, ht, hq, hlast⟩ := he e hr
    refine ⟨hw, pre ++ [last], by rw [← List.append_assoc]; exact ht, ?_⟩
    rw [noStoppedSend_append, hq]
    rcases hlast with hlast | hlast
    · rw [hlast]; rfl
    · cases last <;> simp [Event.isSynchronise] at hlast
      simp [noStoppedSend, Event.isStoppedSend]
  · intro hr
    obtain ⟨s0, pre, d, hd, ht, hq, -, hw0, hu0, hres⟩ := hn hr
    have hd0 : d = stopSyncHeightDiffThreashold := by
      rcases hd with hd | hd
      · rw [hd]; rfl
      · exact hd
    subst hd0
    simp only at hres
    exact ⟨s0, pre, ht, hq, hw0, hu0, by rw [hres], isUpToDate_true_cond E _ s0 hu0⟩

/-- Witness of C12: the sample node at height 100 with its best peer at 105
synchronises once, is then up to date, publishes `Stopped` to both listeners
and returns nil. -/
theorem syncToLatest_stopped_only_after_check_witness :
    ∃ s1, syncToLatest sampleCollaborators 1 (sampleNode false 105 100) = some (none, s1) ∧
      s1.c.WorkState = CatchupSyncerStatus.Stopped ∧
      ∃ s0 pre, s0.trace = (sampleNode false 105 100).trace ++ pre ∧
        noStoppedSend pre = true ∧
        (isUpToDate sampleCollaborators stopSyncHeightDiffThreashold s0).1 = true ∧
        s1 = unsetSyncFlag (NotifyWorkingStateChanged CatchupSyncerStatus.Stopped
          (isUpToDate sampleCollaborators stopSyncHeightDiffThreashold s0).2) := by
  refine ⟨_, rfl, rfl, ?_⟩
  obtain ⟨s0, pre, h1, h2, -, h4, h5, -⟩ :=
    (syncToLatest_stopped_only_after_check sampleCollaborators 1 (sampleNode false 105 100) _
      none rfl rfl).2 rfl
  exact ⟨s0, pre, h1, h2, h4, h5⟩

/-- C13: a pass of the loop that gets `(bpId, bpHash, seqId)` from its
`BestPeerInfo` call invokes `Downloader.Synchronise` with exactly these values
on the node `atSynchronise`, where `WorkState` is `Started` and
`currentBestHeight` is `seqId`, and goes on with what `Synchronise` returns.  In
every `syncToLatest` run entered with `syncFlag = false` every `Synchronise`
event of the trace was issued in this way by some pass, as the next event after
the trace of its `atSynchronise` node; and every such run that returns nil ends
with `WorkState = Stopped`. -/
theorem syncToLatest_synchronise_calls {ω : Type} (E : Collaborators ω) :
    (∀ (fuel diff : Nat) (n : Node ω) (bpId : String) (bpHash : Hash) (seqId : Nat),
        (isUpToDate E diff n).1 = false →
        (E.BestPeerInfo (afterStarted E diff n).world).1 = Except.ok (bpId, bpHash, seqId) →
        (atSynchronise E diff n seqId).c.WorkState = CatchupSyncerStatus.Started ∧
          (atSynchronise E diff n seqId).c.currentBestHeight = seqId ∧
          syncLoop E (fuel + 1) diff n =
            match (E.Synchronise bpId bpHash seqId (atSynchronise E diff n seqId).c.SyncMode
                (atSynchronise E diff n seqId).world).1 with
            | some err => some (some err, afterSynchronise E diff n bpId bpHash seqId)
            | none => syncLoop E fuel stopSyncHeightDiffThreashold
                (afterSynchronise E diff n bpId bpHash seqId)) ∧
      (∀ (fuel : Nat) (s s1 : Node ω) (r : Option GoError), s.c.syncFlag = false →
        syncToLatest E fuel s = some (r, s1) →
        (∃ evs, s1.trace = s.trace ++ evs ∧
          ∀ pre post bpId bpHash seqId mode,
            evs = pre ++ Event.Synchronise bpId bpHash seqId mode :: post →
            ∃ d n, (isUpToDate E d n).1 = false ∧
              (E.BestPeerInfo (afterStarted E d n).world).1
                = Except.ok (bpId, bpHash, seqId) ∧
              (atSynchronise E d n seqId).trace = s.trace ++ pre ∧
              mode = (atSynchronise E d n seqId).c.SyncMode ∧
              (atSynchronise E d n seqId).c.WorkState = CatchupSyncerStatus.Started ∧
              (atSynchronise E d n seqId).c.currentBestHeight = seqId) ∧
          (r = none → s1.c.WorkState = CatchupSyncerStatus.Stopped)) := by
  constructor
  · intro fuel diff n bpId bpHash seqId hu hb
    obtain ⟨hw, hc, -⟩ := atSynchronise_stage E diff n seqId
    exact ⟨hw, hc, syncLoop_synchronise E fuel diff n bpId bpHash seqId hu hb⟩
  · intro fuel s s1 r hflag h
    obtain ⟨s2, hl, hs1⟩ := syncToLatest_run E fuel s r s1 hflag h
    obtain ⟨evs, ht, hcalls⟩ := syncLoop_calls E fuel 0 (setSyncFlag s) _ hl
    obtain ⟨-, -, hn⟩ := syncLoop_shape E fuel 0 (setSyncFlag s) _ hl
    subst hs1
    refine ⟨⟨evs, ht, ?_⟩, ?_⟩
    · intro pre post bpId bpHash seqId mode hsplit
      obtain ⟨d, n, hu, hb, htn, hmode⟩ := hcalls pre post bpId bpHash seqId mode hsplit
      obtain ⟨hw, hc, -⟩ := atSynchronise_stage E d n seqId
      exact ⟨d, n, hu, hb, htn, hmode, hw, hc⟩
    · intro hr
      obtain ⟨s0, pre, d, -, -, -, -, -, -, hres⟩ := hn hr
      simp only at hres
      simp only [unsetSyncFlag]
      rw [hres]
      exact (notifyStopped_stage (isUpToDate E d s0).2).1

/-- Witness of C13: on the sample node at height 100 with its best peer `p` at
105 the first pass calls `Synchronise` with `p`, its hash 106 and height 105
while `WorkState` is `Started` and `currentBestHeight` is 105; the run returns
nil with `WorkState = Stopped` and exactly that one `Synchronise` event. -/
theorem syncToLatest_synchronise_calls_witness :
    (atSynchronise sampleCollaborators 0 (sampleNode false 105 100) 105).c.WorkState
        = CatchupSyncerStatus.Started ∧
      (atSynchronise sampleCollaborators 0 (sampleNode false 105 100) 105).c.currentBestHeight
        = 105 ∧
      ∃ s1, syncToLatest sampleCollaborators 1 (sampleNode false 105 100) = some (none, s1) ∧
        s1.c.WorkState = CatchupSyncerStatus.Stopped ∧
        s1.trace.filter Event.isSynchronise = [Event.Synchronise "p" 106 105 0] := by
  have hpass := (syncToLatest_synchronise_calls sampleCollaborators).1 0 0
    (sampleNode false 105 100) "p" 106 105 (by decide) rfl
  refine ⟨hpass.1, hpass.2.1, _, rfl, ?_, by decide⟩
  exact ((syncToLatest_synchronise_calls sampleCollaborators).2 1 (sampleNode false 105 100) _
    none rfl rfl).2 rfl

/-- C14: every `syncToLatest` run entered with `syncFlag = false` that returns,
with nil or with an error, leaves `syncFlag = false`, so that the next call is
not treated as busy: it sets the flag and runs the loop again. -/
theorem syncToLatest_unsets_flag {ω : Type} (E : Collaborators ω) (fuel : Nat) (s s1 : Node ω)
    (r : Option GoError) (hflag : s.c.syncFlag = false)
    (h : syncToLatest E fuel s = some (r, s1)) :
    s1.c.syncFlag = false ∧ isSyncing s1 = false ∧
      ∀ fuel2, syncToLatest E fuel2 s1 =
        match syncLoop E fuel2 0 (setSyncFlag s1) with
        | none => none
        | some (err, s2) => some (err, unsetSyncFlag s2) := by
  obtain ⟨s2, -, hs1⟩ := syncToLatest_run E fuel s r s1 hflag h
  subst hs1
  refine ⟨rfl, rfl, fun fuel2 => ?_⟩
  simp [syncToLatest, isSyncing, unsetSyncFlag]

/-- Witness of C14 on the three return paths: the sample node converges and
returns nil, the node without peers returns the `BestPeerInfo` error, the node
with the failing downloader returns the `Synchronise` error, each with
`syncFlag = false`. -/
theorem syncToLatest_unsets_flag_witness :
    (∃ s1, syncToLatest sampleCollaborators 1 (sampleNode false 105 100) = some (none, s1) ∧
        s1.c.syncFlag = false) ∧
      (∃ s1, syncToLatest sampleCollaborators 1 (loneNode false 7) = some (some "no peer", s1) ∧
        s1.c.syncFlag = false) ∧
      (∃ s1, syncToLatest brokenDownloader 1 (sampleNode false 105 100)
          = some (some "sync failed", s1) ∧
        s1.c.syncFlag = false) :=
  ⟨⟨_, rfl, (syncToLatest_unsets_flag sampleCollaborators 1 (sampleNode false 105 100) _ none
      rfl rfl).1⟩,
    ⟨_, rfl, (syncToLatest_unsets_flag sampleCollaborators 1 (loneNode false 7) _
      (some "no peer") rfl rfl).1⟩,
    ⟨_, rfl, (syncToLatest_unsets_flag brokenDownloader 1 (sampleNode false 105 100) _
      (some "sync failed") rfl rfl).1⟩⟩

end syncer

end OG

namespace OG

namespace syncer

/-! ## The catch-up syncer: status publication -/

/-- C15: `NotifyWorkingStateChanged(status)` is edge-triggered.  When
`WorkState` already equals `status` the node is unchanged: nothing is sent and
no field changes.  When `WorkState` differs, `WorkState` becomes `status`, the
events appended to the trace are exactly one send of `status` per entry of
`OnWorkingStateChanged`, in list order, and no other field and nothing of the
world changes. -/
theorem NotifyWorkingStateChanged_edge {ω : Type} (status : CatchupSyncerStatus) (s : Node ω) :
    (s.c.WorkState = status → NotifyWorkingStateChanged status s = s) ∧
      (s.c.WorkState ≠ status →
        (NotifyWorkingStateChanged status s).c = { s.c with WorkState := status } ∧
        (NotifyWorkingStateChanged status s).trace =
          s.trace ++ s.c.OnWorkingStateChanged.map (fun ch => Event.Send ch status) ∧
        (NotifyWorkingStateChanged status s).world = s.world) := by
  constructor
  · intro h
    simp [NotifyWorkingStateChanged, h]
  · intro h
    simp [NotifyWorkingStateChanged, h]

/-- Witness of C15 on the sample node (state `Started`, listeners 1 and 2):
publishing `Started` changes nothing, publishing `Stopped` sends `Stopped` to
listener 1 and then to listener 2. -/
theorem NotifyWorkingStateChanged_edge_witness :
    NotifyWorkingStateChanged CatchupSyncerStatus.Started (sampleNode false 105 100)
        = sampleNode false 105 100 ∧
      (NotifyWorkingStateChanged CatchupSyncerStatus.Stopped (sampleNode false 105 100)).trace
        = [Event.Send 1 CatchupSyncerStatus.Stopped, Event.Send 2 CatchupSyncerStatus.Stopped] ∧
      (NotifyWorkingStateChanged CatchupSyncerStatus.Stopped (sampleNode false 105 100)).c.WorkState
        = CatchupSyncerStatus.Stopped := by
  have h1 := (NotifyWorkingStateChanged_edge CatchupSyncerStatus.Started
    (sampleNode false 105 100)).1 rfl
  have h2 := (NotifyWorkingStateChanged_edge CatchupSyncerStatus.Stopped
    (sampleNode false 105 100)).2 (by decide)
  refine ⟨h1, ?_, ?_⟩
  · rw [h2.2.1]; rfl
  · rw [h2.1]

theorem notify_same {ω : Type} (status : CatchupSyncerStatus) (s : Node ω)
    (h : s.c.WorkState = status) : NotifyWorkingStateChanged status s = s := by
  rw [NotifyWorkingStateChanged, if_pos h]

theorem notify_changed_trace {ω : Type} (status : CatchupSyncerStatus) (s : Node ω)
    (h : s.c.WorkState ≠ status) :
    (NotifyWorkingStateChanged status s).trace =
      s.trace ++ s.c.OnWorkingStateChanged.map (fun ch => Event.Send ch status) := by
  rw [NotifyWorkingStateChanged, if_neg h]

theorem received_append (ch : Nat) (a b : List Event) :
    received ch (a ++ b) = received ch a ++ received ch b := by
  induction a with
  | nil => rfl
  | cons ev rest ih =>
    cases ev with
    | Send c status =>
      simp only [List.cons_append, received]
      split <;> simp [ih]
    | _ => simpa [received] using ih

theorem received_sends_of_not_mem (ch : Nat) (status : CatchupSyncerStatus) (l : List Nat)
    (h : ch ∉ l) : received ch (l.map (fun c => Event.Send c status)) = [] := by
  induction l with
  | nil => rfl
  | cons c rest ih =>
    simp only [List.mem_cons, not_or] at h
    simp only [List.map_cons, received]
    rw [if_neg (fun hc => h.1 hc.symm)]
    exact ih h.2

theorem received_sends (ch : Nat) (status : CatchupSyncerStatus) (l : List Nat)
    (hmem : ch ∈ l) (hnodup : l.Nodup) :
    received ch (l.map (fun c => Event.Send c status)) = [status] := by
  induction l with
  | nil => simp at hmem
  | cons c rest ih =>
    simp only [List.nodup_cons] at hnodup
    simp only [List.map_cons, received]
    by_cases hc : c = ch
    · rw [if_pos hc]
      rw [received_sends_of_not_mem ch status rest (by rw [← hc]; exact hnodup.1)]
    · rw [if_neg hc]
      simp only [List.mem_cons] at hmem
      rcases hmem with hmem | hmem
      · exact absurd hmem.symm hc
      · exact ih hmem hnodup.2

theorem notify_listeners {ω : Type} (status : CatchupSyncerStatus) (s : Node ω) :
    (NotifyWorkingStateChanged status s).c.OnWorkingStateChanged = s.c.OnWorkingStateChanged ∧
      (NotifyWorkingStateChanged status s).c.WorkState = status := by
  unfold NotifyWorkingStateChanged
  split
  · rename_i h
    exact ⟨rfl, h⟩
  · exact ⟨rfl, rfl⟩

theorem withoutRepeats_chain (prev : CatchupSyncerStatus) (l : List CatchupSyncerStatus) :
    List.Chain (fun a b => a ≠ b) prev (withoutRepeats prev l) := by
  induction l generalizing prev with
  | nil => exact List.Chain.nil
  | cons status rest ih =>
    simp only [withoutRepeats]
    split
    · rename_i h
      rw [← h]
      exact ih status
    · rename_i h
      exact List.Chain.cons (fun hc => h hc.symm) (ih status)

theorem publishAll_trace {ω : Type} (statuses : List CatchupSyncerStatus) (s : Node ω) :
    (publishAll statuses s).trace =
      s.trace ++ deliveries s.c.OnWorkingStateChanged (withoutRepeats s.c.WorkState statuses) := by
  induction statuses generalizing s with
  | nil => simp [publishAll, withoutRepeats, deliveries]
  | cons status rest ih =>
    have hl := notify_listeners status s
    have hstep : publishAll (status :: rest) s
        = publishAll rest (NotifyWorkingStateChanged status s) := rfl
    rw [hstep, ih, hl.1, hl.2]
    simp only [withoutRepeats]
    by_cases h : status = s.c.WorkState
    · rw [if_pos h, notify_same status s h.symm]
    · rw [if_neg h, notify_changed_trace status s (fun hc => h hc.symm)]
      simp [deliveries]

theorem received_deliveries (ch : Nat) (l : List Nat) (hmem : ch ∈ l) (hnodup : l.Nodup)
    (statuses : List CatchupSyncerStatus) : received ch (deliveries l statuses) = statuses := by
  induction statuses with
  | nil => rfl
  | cons status rest ih =>
    simp only [deliveries]
    rw [received_append, received_sends ch status l hmem hnodup, ih]
    rfl

/-- C16: for every initial `WorkState`, every listener list and every finite
sequence of `NotifyWorkingStateChanged` calls, the sends made during the calls
are the deliveries, to every entry of the listener list in list order, of the
published sequence with every element that equals its predecessor (the initial
`WorkState` for the first) removed; so a listener channel that is registered
once receives exactly that sequence.  Hence no two consecutive statuses of the
sequence are equal, its first differs from the initial `WorkState`, and
publishing a status twice is the same as publishing it once. -/
theorem publishAll_received {ω : Type} (statuses : List CatchupSyncerStatus) (s : Node ω) :
    (publishAll statuses s).trace =
        s.trace ++
          deliveries s.c.OnWorkingStateChanged (withoutRepeats s.c.WorkState statuses) ∧
      (∀ ch, ch ∈ s.c.OnWorkingStateChanged → s.c.OnWorkingStateChanged.Nodup →
        received ch (publishAll statuses s).trace =
          received ch s.trace ++ withoutRepeats s.c.WorkState statuses) ∧
      List.Chain (fun a b => a ≠ b) s.c.WorkState (withoutRepeats s.c.WorkState statuses) ∧
      ∀ (status : CatchupSyncerStatus) (n : Node ω),
        NotifyWorkingStateChanged status (NotifyWorkingStateChanged status n) =
          NotifyWorkingStateChanged status n := by
  refine ⟨publishAll_trace statuses s, ?_, withoutRepeats_chain _ _, ?_⟩
  · intro ch hmem hnodup
    rw [publishAll_trace, received_append, received_deliveries ch _ hmem hnodup]
  · intro status n
    exact notify_same status _ (notify_listeners status n).2

/-- Witness of C16: on the sample node (state `Started`, listeners 1 and 2) the
publications `Started, Stopped, Stopped, Started` reach listener 2 as
`Stopped, Started`. -/
theorem publishAll_received_witness :
    2 ∈ (sampleNode false 105 100).c.OnWorkingStateChanged ∧
      (sampleNode false 105 100).c.OnWorkingStateChanged.Nodup ∧
      received 2 (publishAll [CatchupSyncerStatus.Started, CatchupSyncerStatus.Stopped,
          CatchupSyncerStatus.Stopped, CatchupSyncerStatus.Started]
        (sampleNode false 105 100)).trace
        = [CatchupSyncerStatus.Stopped, CatchupSyncerStatus.Started] := by
  have h := (publishAll_received [CatchupSyncerStatus.Started, CatchupSyncerStatus.Stopped,
      CatchupSyncerStatus.Stopped, CatchupSyncerStatus.Started] (sampleNode false 105 100)).2.1 2
    (by decide) (by decide)
  refine ⟨by decide, by decide, ?_⟩
  rw [h]
  decide

/-- C17 (as stated, refuted): in state `Started`, at height 100 with the best
height seen 106, the node is behind by exactly 6, which is not less than 6, yet
`CacheNewTxEnabled` returns true; and at height `2^64 - 3` with the best height
seen 10 the unbounded difference is negative, hence less than 6, yet
`CacheNewTxEnabled` returns false because `ourSeqId + 6` wraps to 3. -/
theorem CacheNewTxEnabled_less_than_six_refuted :
    (behindNode 106 100).c.WorkState = CatchupSyncerStatus.Started ∧
      (CacheNewTxEnabled sampleCollaborators (behindNode 106 100)).1 = true ∧
      ¬ ((106 : Int) - 100 < 6) ∧
      (CacheNewTxEnabled sampleCollaborators (behindNode 10 (2 ^ 64 - 3))).1 = false ∧
      (10 : Int) - (2 ^ 64 - 3) < 6 := by
  refine ⟨rfl, ?_, by decide, ?_, by decide⟩
  · simp [CacheNewTxEnabled, getWorkState, behindNode, sampleSyncer, sampleCollaborators,
      add64, startSyncHeightDiffThreashold]
  · simp [CacheNewTxEnabled, getWorkState, behindNode, sampleSyncer, sampleCollaborators,
      add64, startSyncHeightDiffThreashold]

/-- C17 (amended): `CacheNewTxEnabled` returns true whenever `WorkState` is
`Stopped`, without asking for the height; when `WorkState` is `Started` it
returns true exactly when `currentBestHeight` is at most the 64-bit sum
`ourHeight + 3 * startSyncHeightDiffThreashold`, which, whenever
`ourHeight + 6` fits in 64 bits, means that the node is behind the best height
seen by at most 6; and false otherwise. -/
theorem CacheNewTxEnabled_iff {ω : Type} (E : Collaborators ω) (s : Node ω) :
    (s.c.WorkState = CatchupSyncerStatus.Stopped → CacheNewTxEnabled E s = (true, s)) ∧
      (s.c.WorkState = CatchupSyncerStatus.Started →
        ((CacheNewTxEnabled E s).1 = true ↔
          s.c.currentBestHeight ≤ ((E.GetHeight s.world).1 + 6) % 2 ^ 64) ∧
        ((E.GetHeight s.world).1 + 6 < 2 ^ 64 →
          ((CacheNewTxEnabled E s).1 = true ↔
            (s.c.currentBestHeight : Int) - ((E.GetHeight s.world).1 : Int) ≤ 6))) := by
  constructor
  · intro h
    simp [CacheNewTxEnabled, getWorkState, h]
  · intro h
    have key : (CacheNewTxEnabled E s).1 = true ↔
        s.c.currentBestHeight ≤ ((E.GetHeight s.world).1 + 6) % 2 ^ 64 := by
      simp only [CacheNewTxEnabled, getWorkState, h, add64, startSyncHeightDiffThreashold]
      simp only [reduceCtorEq, if_false]
      split <;> simp <;> omega
    refine ⟨key, fun hfit => ?_⟩
    rw [key, Nat.mod_eq_of_lt hfit]
    omega

/-- Witness of C17 (amended): in state `Started` at height 100 the node may
cache with the best height seen 106 and may not with 107; in state `Stopped`
it may always. -/
theorem CacheNewTxEnabled_iff_witness :
    (behindNode 106 100).c.WorkState = CatchupSyncerStatus.Started ∧
      (CacheNewTxEnabled sampleCollaborators (behindNode 106 100)).1 = true ∧
      (CacheNewTxEnabled sampleCollaborators (behindNode 107 100)).1 = false ∧
      CacheNewTxEnabled sampleCollaborators
          (NotifyWorkingStateChanged CatchupSyncerStatus.Stopped (behindNode 107 100))
        = (true, NotifyWorkingStateChanged CatchupSyncerStatus.Stopped (behindNode 107 100)) := by
  have h1 := ((CacheNewTxEnabled_iff sampleCollaborators (behindNode 106 100)).2 rfl).1
  have h2 := ((CacheNewTxEnabled_iff sampleCollaborators (behindNode 107 100)).2 rfl).1
  refine ⟨rfl, h1.2 (by decide), ?_,
    (CacheNewTxEnabled_iff sampleCollaborators
      (NotifyWorkingStateChanged CatchupSyncerStatus.Stopped (behindNode 107 100))).1 rfl⟩
  rw [← Bool.not_eq_true, h2]
  decide

end syncer

end OG

namespace OG

/-! ## Handlers of responses and of the fetch-by-hash request -/

/-- C18: `HandleTxsResponse` calls `TxBuffer.AddRemoteTxs(sequencer, txs)`,
exactly once and as its only call into the tx-buffer, if and only if the
response carries a sequencer and its number is strictly greater than the number
of the local latest sequencer; with an absent sequencer (no call of any kind),
with a number at or below the local tip, or without a local latest sequencer
(the handler then aborts on the nil pointer) nothing reaches the tx-buffer. -/
theorem HandleTxsResponse_calls (latest : Option Sequencer) (request : MessageTxsResponse) :
    (∀ seq lseq, request.Sequencer = some seq → latest = some lseq → lseq.Number < seq.Number →
        (HandleTxsResponse latest request).effects.filter Effect.isTxBuffer
          = [Effect.AddRemoteTxs seq request.Txs]) ∧
      (request.Sequencer = none → HandleTxsResponse latest request = HandlerResult.returned []) ∧
      (∀ seq lseq, request.Sequencer = some seq → latest = some lseq → seq.Number ≤ lseq.Number →
        (HandleTxsResponse latest request).effects.filter Effect.isTxBuffer = []) ∧
      (latest = none →
        (HandleTxsResponse latest request).effects.filter Effect.isTxBuffer = []) ∧
      ((∃ c, c ∈ (HandleTxsResponse latest request).effects.filter Effect.isTxBuffer) ↔
        ∃ seq lseq, request.Sequencer = some seq ∧ latest = some lseq ∧
          lseq.Number < seq.Number) := by
  cases hs : request.Sequencer with
  | none =>
    simp [HandleTxsResponse, hs, HandlerResult.effects]
  | some seq =>
    cases hl : latest with
    | none =>
      simp [HandleTxsResponse, hs, HandlerResult.effects, Effect.isTxBuffer]
    | some lseq =>
      by_cases h : lseq.Number < seq.Number
      · simp [HandleTxsResponse, hs, HandlerResult.effects, Effect.isTxBuffer, h]
      · simp [HandleTxsResponse, hs, HandlerResult.effects, Effect.isTxBuffer, h]
        omega

/-- Witness of C18: with the local tip at height 4, a response for the
sequencer at height 5 is handed to the tx-buffer once, a response for the
sequencer at height 4 is dropped, and a response without sequencer is dropped
without any call. -/
theorem HandleTxsResponse_calls_witness :
    (HandleTxsResponse (some (chainSeq 4))
        { Txs := [{ Hash := 21 }], Sequencer := some (chainSeq 5) }).effects.filter
          Effect.isTxBuffer
        = [Effect.AddRemoteTxs (chainSeq 5) [{ Hash := 21 }]] ∧
      (HandleTxsResponse (some (chainSeq 4))
        { Txs := [{ Hash := 21 }], Sequencer := some (chainSeq 4) }).effects.filter
          Effect.isTxBuffer = [] ∧
      HandleTxsResponse (some (chainSeq 4)) { Txs := [{ Hash := 21 }], Sequencer := none }
        = HandlerResult.returned [] :=
  ⟨(HandleTxsResponse_calls (some (chainSeq 4))
      { Txs := [{ Hash := 21 }], Sequencer := some (chainSeq 5) }).1 (chainSeq 5) (chainSeq 4)
      rfl rfl (by decide),
    (HandleTxsResponse_calls (some (chainSeq 4))
      { Txs := [{ Hash := 21 }], Sequencer := some (chainSeq 4) }).2.2.1 (chainSeq 4) (chainSeq 4)
      rfl rfl (by decide),
    (HandleTxsResponse_calls (some (chainSeq 4))
      { Txs := [{ Hash := 21 }], Sequencer := none }).2.1 rfl⟩

/-- C19: for every fetch-by-hash response `HandleFetchByHashResponse` returns
after calling `TxBuffer.AddRemoteTx` once per item and nothing else: the
transactions in list order, then the sequencers in list order, that is
`len(txs) + len(sequencers)` calls; a response whose two lists are both empty
produces no call. -/
theorem HandleFetchByHashResponse_calls (syncResponse : MessageSyncResponse) :
    HandleFetchByHashResponse syncResponse =
        HandlerResult.returned
          (syncResponse.Txs.map (fun v => Effect.AddRemoteTx (Txi.tx v)) ++
            syncResponse.Sequencers.map (fun v => Effect.AddRemoteTx (Txi.sequencer v))) ∧
      (HandleFetchByHashResponse syncResponse).effects.length =
        syncResponse.Txs.length + syncResponse.Sequencers.length ∧
      (syncResponse.Txs = [] → syncResponse.Sequencers = [] →
        HandleFetchByHashResponse syncResponse = HandlerResult.returned []) := by
  have key : HandleFetchByHashResponse syncResponse =
      HandlerResult.returned
        (syncResponse.Txs.map (fun v => Effect.AddRemoteTx (Txi.tx v)) ++
          syncResponse.Sequencers.map (fun v => Effect.AddRemoteTx (Txi.sequencer v))) := by
    unfold HandleFetchByHashResponse
    split
    · rename_i h
      simp only [Bool.and_eq_true, beq_iff_eq, List.length_eq_zero] at h
      rw [h.1, h.2]; rfl
    · rfl
  refine ⟨key, ?_, ?_⟩
  · rw [key]; simp [HandlerResult.effects]
  · intro h1 h2
    rw [key, h1, h2]; rfl

/-- Witness of C19: a response with one transaction and two sequencers causes
three `AddRemoteTx` calls, the transaction first; the empty response causes
none. -/
theorem HandleFetchByHashResponse_calls_witness :
    HandleFetchByHashResponse { Txs := [{ Hash := 21 }], Sequencers := [chainSeq 1, chainSeq 2] }
        = HandlerResult.returned
          [Effect.AddRemoteTx (Txi.tx { Hash := 21 }),
            Effect.AddRemoteTx (Txi.sequencer (chainSeq 1)),
            Effect.AddRemoteTx (Txi.sequencer (chainSeq 2))] ∧
      HandleFetchByHashResponse { Txs := [], Sequencers := [] } = HandlerResult.returned [] :=
  ⟨(HandleFetchByHashResponse_calls
      { Txs := [{ Hash := 21 }], Sequencers := [chainSeq 1, chainSeq 2] }).1,
    (HandleFetchByHashResponse_calls { Txs := [], Sequencers := [] }).2.2 rfl rfl⟩

theorem response_eta (r : MessageSyncResponse) :
    MessageSyncResponse.mk r.Txs r.Sequencers = r := rfl

theorem fetchOne_spec (pool dagGetTx : Hash → Option Txi) (st : FetchState) (hash : Hash) :
    fetchOne pool dagGetTx st hash =
      { txs := st.txs ++ ((resolveItem pool dagGetTx hash).bind Txi.asTx).toList
        seqs := st.seqs ++ ((resolveItem pool dagGetTx hash).bind Txi.asSequencer).toList
        effects := st.effects ++ lookupsOf pool hash } := by
  unfold fetchOne resolveItem lookupsOf
  cases hp : pool hash with
  | some txi => cases txi <;> simp [Txi.asTx, Txi.asSequencer]
  | none =>
    cases hd : dagGetTx hash with
    | none => simp
    | some txi => cases txi <;> simp [Txi.asTx, Txi.asSequencer]

theorem fetch_foldl (pool dagGetTx : Hash → Option Txi) (hashes : List Hash) (st : FetchState) :
    hashes.foldl (fetchOne pool dagGetTx) st =
      { txs := st.txs ++ (fetchResponse pool dagGetTx hashes).Txs
        seqs := st.seqs ++ (fetchResponse pool dagGetTx hashes).Sequencers
        effects := st.effects ++ fetchLookups pool hashes } := by
  induction hashes generalizing st with
  | nil => simp [fetchResponse, fetchLookups]
  | cons hash rest ih =>
    rw [List.foldl_cons, ih, fetchOne_spec]
    simp only [fetchResponse, fetchLookups, List.filterMap_cons, List.append_assoc]
    cases (resolveItem pool dagGetTx hash).bind Txi.asTx <;>
      cases (resolveItem pool dagGetTx hash).bind Txi.asSequencer <;> simp

/-- C20 (as stated, refuted): for the non-empty request `[21]`, whose hash is
in the sample pool, no response is sent when serializing the response reports
an error: the handler logs the failure and returns. -/
theorem HandleFetchByHashRequest_marshal_error_sends_nothing :
    (HandleFetchByHashRequest failingMarshal samplePool sampleStorage { Hashes := [21] }
        "peer").effects.filter Effect.isSend = [] := by
  decide

/-- C20 (amended): `HandleFetchByHashRequest` does nothing for an empty hash
list.  For a non-empty list it asks, for each hash in request order, the
pending pool first and the committed storage only if the pool has no item, and
builds the response whose transactions are the resolved items that are
transactions and whose sequencers those that are sequencers, each in request
order (hashes known to neither contribute nothing); if serializing this response
succeeds it sends the bytes to the requesting peer as the one and only message,
of type `MessageTypeFetchByHashResponse`, and if serializing reports an error
it sends nothing. -/
theorem HandleFetchByHashRequest_response
    (marshal : MessageSyncResponse → Except syncer.GoError Bytes)
    (pool dagGetTx : Hash → Option Txi) (syncRequest : MessageSyncRequest) (peerId : String) :
    (syncRequest.Hashes = [] →
        HandleFetchByHashRequest marshal pool dagGetTx syncRequest peerId
          = HandlerResult.returned []) ∧
      (syncRequest.Hashes ≠ [] →
        (∀ data, marshal (fetchResponse pool dagGetTx syncRequest.Hashes) = Except.ok data →
          HandleFetchByHashRequest marshal pool dagGetTx syncRequest peerId =
            HandlerResult.returned
              (fetchLookups pool syncRequest.Hashes ++
                [Effect.SendToPeer peerId MessageKind.MessageTypeFetchByHashResponse data])) ∧
        (∀ e, marshal (fetchResponse pool dagGetTx syncRequest.Hashes) = Except.error e →
          HandleFetchByHashRequest marshal pool dagGetTx syncRequest peerId =
            HandlerResult.returned (fetchLookups pool syncRequest.Hashes))) ∧
      (fetchLookups pool syncRequest.Hashes).filter Effect.isSend = [] := by
  refine ⟨?_, ?_, ?_⟩
  · intro h
    simp [HandleFetchByHashRequest, h]
  · intro h
    have hlen : ¬ syncRequest.Hashes.length = 0 := by
      rw [List.length_eq_zero]; exact h
    constructor
    · intro data hm
      simp only [HandleFetchByHashRequest, hlen, if_false, fetch_foldl, List.nil_append,
        response_eta, hm]
    · intro e hm
      simp only [HandleFetchByHashRequest, hlen, if_false, fetch_foldl, List.nil_append,
        response_eta, hm]
  · generalize syncRequest.Hashes = hashes
    induction hashes with
    | nil => rfl
    | cons hash rest ih =>
      simp only [fetchLookups, List.filter_append, ih, List.append_nil]
      unfold lookupsOf
      cases pool hash <;> rfl

/-- Witness of C20 (amended): for the request `[22, 99, 3, 21]` the pool is
asked for every hash and the storage for the three hashes the pool does not
hold; the response holds the transactions 22 and 21 and the sequencer with hash
3 (height 2), hash 99 contributes nothing, and the one message goes to
`peer`. -/
theorem HandleFetchByHashRequest_response_witness :
    ({ Hashes := [22, 99, 3, 21] } : MessageSyncRequest).Hashes ≠ [] ∧
      fetchResponse samplePool sampleStorage [22, 99, 3, 21]
        = { Txs := [{ Hash := 22 }, { Hash := 21 }], Sequencers := [chainSeq 2] } ∧
      HandleFetchByHashRequest sampleMarshal samplePool sampleStorage
          { Hashes := [22, 99, 3, 21] } "peer" =
        HandlerResult.returned
          [Effect.TxPoolGet 22, Effect.DagGetTx 22, Effect.TxPoolGet 99, Effect.DagGetTx 99,
            Effect.TxPoolGet 3, Effect.DagGetTx 3, Effect.TxPoolGet 21,
            Effect.SendToPeer "peer" MessageKind.MessageTypeFetchByHashResponse [22, 21, 0, 3]] ∧
      HandleFetchByHashRequest sampleMarshal samplePool sampleStorage { Hashes := [] } "peer"
        = HandlerResult.returned [] := by
  have h := HandleFetchByHashRequest_response sampleMarshal samplePool sampleStorage
  refine ⟨by decide, by decide, ?_, (h { Hashes := [] } "peer").1 rfl⟩
  rw [((h { Hashes := [22, 99, 3, 21] } "peer").2.1 (by decide)).1 [22, 21, 0, 3] rfl]
  decide

end OG

namespace OG

/-! ## Body range requests -/

theorem totalBytes_append (a b : List Bytes) :
    totalBytes (a ++ b) = totalBytes a + totalBytes b := by
  induction a with
  | nil => simp [totalBytes]
  | cons x xs ih => simp [totalBytes, ih, Nat.add_assoc]

/-- The loop of `HandleBodiesRequest` serves a prefix of the remaining hashes:
every hash of the prefix resolves, the bundles are appended in order, the
budget and the count admitted every bundle of the prefix, and the prefix ends
with the hashes or at a hash on which one of the three `break`s fires. -/
theorem bodiesLoop_spec (L : BodyLimits) (d : Dag) (g : Nat → List Tx)
    (mb : MessageTxsResponse → Bytes) (hashes : List Hash) (st : BodiesState) :
    ∃ seqs : List Sequencer,
      seqs.length ≤ hashes.length ∧
      (hashes.take seqs.length).map d.GetSequencerByHash = seqs.map some ∧
      (bodiesLoop L d g mb hashes st).bodies
        = st.bodies ++ seqs.map (fun s => mb (bundleOf g s)) ∧
      (bodiesLoop L d g mb hashes st).bytes
        = st.bytes + totalBytes (seqs.map (fun s => mb (bundleOf g s))) ∧
      (∀ j, j < seqs.length →
        st.bytes + totalBytes ((seqs.map (fun s => mb (bundleOf g s))).take j)
          < L.softResponseLimit ∧ st.bodies.length + j < L.MaxBlockFetch) ∧
      (seqs.length = hashes.length ∨
        ∃ h, hashes[seqs.length]? = some h ∧
          (d.GetSequencerByHash h = none ∨
            L.softResponseLimit ≤ (bodiesLoop L d g mb hashes st).bytes ∨
            L.MaxBlockFetch ≤ (bodiesLoop L d g mb hashes st).bodies.length)) := by
  induction hashes generalizing st with
  | nil => exact ⟨[], by simp [bodiesLoop, totalBytes]⟩
  | cons h rest ih =>
    cases hd : d.GetSequencerByHash h with
    | none =>
      refine ⟨[], ?_⟩
      simp [bodiesLoop, hd, totalBytes]
    | some seq =>
      by_cases hb : L.softResponseLimit ≤ st.bytes
      · refine ⟨[], ?_⟩
        simp [bodiesLoop, hd, hb, totalBytes]
      · by_cases hc : L.MaxBlockFetch ≤ st.bodies.length
        · refine ⟨[], ?_⟩
          simp [bodiesLoop, hd, hb, hc, totalBytes]
        · obtain ⟨seqs, hlen, hres, hbodies, hbytes, hadm, hstop⟩ :=
            ih { bytes := st.bytes + (mb (bundleOf g seq)).length
                 bodies := st.bodies ++ [mb (bundleOf g seq)]
                 effects := st.effects ++ [Effect.DagGetSequencerByHash h]
                   ++ [Effect.DagGetTxsByNumber seq.Id] }
          have hloop : bodiesLoop L d g mb (h :: rest) st
              = bodiesLoop L d g mb rest
                { bytes := st.bytes + (mb (bundleOf g seq)).length
                  bodies := st.bodies ++ [mb (bundleOf g seq)]
                  effects := st.effects ++ [Effect.DagGetSequencerByHash h]
                    ++ [Effect.DagGetTxsByNumber seq.Id] } := by
            simp [bodiesLoop, hd, hb, hc]
          refine ⟨seq :: seqs, ?_, ?_, ?_, ?_, ?_, ?_⟩
          · simpa using hlen
          · simp [hd, hres]
          · rw [hloop, hbodies]; simp
          · rw [hloop, hbytes]; simp [totalBytes, Nat.add_assoc]
          · intro j hj
            cases j with
            | zero =>
              simp [totalBytes]
              omega
            | succ j =>
              have hj2 : j < seqs.length := by simpa using hj
              have := hadm j hj2
              simp [totalBytes] at this ⊢
              omega
          · rcases hstop with hall | ⟨h2, hget, hwhy⟩
            · left; simp [hall]
            · right
              refine ⟨h2, by simpa using hget, ?_⟩
              rw [hloop]
              exact hwhy

/-- C21: the response built by `HandleBodiesRequest` is sent once, after the
lookups, and holds at most `min (len SeqHashes) MaxBlockFetch` bodies, for
every request, every storage and every serialization. -/
theorem HandleBodiesRequest_bodies_le_min (L : BodyLimits) (d : Dag) (g : Nat → List Tx)
    (mb : MessageTxsResponse → Bytes) (mr : MessageBodiesResponse → Bytes)
    (msgReq : MessageBodiesRequest) (peerId : String) :
    HandleBodiesRequest L d g mb mr msgReq peerId
      = HandlerResult.returned ((gatherBodies L d g mb msgReq).effects ++
          [Effect.SendToPeer peerId MessageKind.MessageTypeBodiesResponse
            (mr (MessageBodiesResponse.mk (gatherBodies L d g mb msgReq).bodies))]) ∧
    (gatherBodies L d g mb msgReq).bodies.length
      ≤ min msgReq.SeqHashes.length L.MaxBlockFetch := by
  refine ⟨rfl, ?_⟩
  obtain ⟨seqs, hlen, -, hbodies, -, hadm, -⟩ :=
    bodiesLoop_spec L d g mb msgReq.SeqHashes { bytes := 0, bodies := [], effects := [] }
  have hb : (gatherBodies L d g mb msgReq).bodies.length = seqs.length := by
    unfold gatherBodies
    rw [hbodies]; simp
  rw [hb]
  refine le_min hlen ?_
  cases hs : seqs.length with
  | zero => exact Nat.zero_le _
  | succ n =>
    have := (hadm n (by omega)).2
    simp at this
    omega

/-- A run of C21: three resolvable hashes are all served. -/
theorem HandleBodiesRequest_bodies_le_min_witness :
    (gatherBodies sampleBodyLimits (chainDag 10) sampleTxsByNumber sampleBodyMarshal
        (MessageBodiesRequest.mk [3, 4, 5])).bodies.length = 3 ∧
    (gatherBodies sampleBodyLimits (chainDag 10) sampleTxsByNumber sampleBodyMarshal
        (MessageBodiesRequest.mk [3, 4, 5])).bodies.length
      ≤ min (MessageBodiesRequest.mk [3, 4, 5]).SeqHashes.length
          sampleBodyLimits.MaxBlockFetch :=
  ⟨by decide,
   (HandleBodiesRequest_bodies_le_min sampleBodyLimits (chainDag 10) sampleTxsByNumber
      sampleBodyMarshal sampleResponseMarshal (MessageBodiesRequest.mk [3, 4, 5]) "peer").2⟩

end OG

namespace OG

theorem largeTxsByNumber_length (id : Nat) : (largeTxsByNumber id).length = 1536 :=
  List.length_replicate 1536 _

theorem wideBodyMarshal_length (b : MessageTxsResponse) :
    (wideBodyMarshal b).length = b.Txs.length * 1024 + 16 :=
  List.length_replicate _ 0

theorem bodiesLoop_cons_some (L : BodyLimits) (d : Dag) (g : Nat → List Tx)
    (mb : MessageTxsResponse → Bytes) (h : Hash) (rest : List Hash) (st : BodiesState)
    (seq : Sequencer) (hd : d.GetSequencerByHash h = some seq)
    (hb : st.bytes < L.softResponseLimit) (hc : st.bodies.length < L.MaxBlockFetch) :
    bodiesLoop L d g mb (h :: rest) st
      = bodiesLoop L d g mb rest
          { bytes := st.bytes + (mb (bundleOf g seq)).length
            bodies := st.bodies ++ [mb (bundleOf g seq)]
            effects := st.effects ++ [Effect.DagGetSequencerByHash h]
              ++ [Effect.DagGetTxsByNumber seq.Id] } := by
  simp [bodiesLoop, hd, Nat.not_le.mpr hb, Nat.not_le.mpr hc]

theorem bodiesLoop_cons_full (L : BodyLimits) (d : Dag) (g : Nat → List Tx)
    (mb : MessageTxsResponse → Bytes) (h : Hash) (rest : List Hash) (st : BodiesState)
    (hb : L.softResponseLimit ≤ st.bytes) :
    (bodiesLoop L d g mb (h :: rest) st).bodies = st.bodies := by
  cases hd : d.GetSequencerByHash h <;> simp [bodiesLoop, hd, hb]

theorem wideBundle_length (seq : Sequencer) :
    (wideBodyMarshal (bundleOf largeTxsByNumber seq)).length = 1572880 := by
  simp only [wideBodyMarshal_length, bundleOf, largeTxsByNumber_length]

theorem totalBytes_pair (a b : Bytes) : totalBytes [a, b] = a.length + b.length := by
  simp [totalBytes]

/-- Two bundles that together reach the budget, of which the first alone does
not, are both served, and nothing behind them. -/
theorem gatherBodies_two (L : BodyLimits) (d : Dag) (g : Nat → List Tx)
    (mb : MessageTxsResponse → Bytes) (h1 h2 : Hash) (rest : List Hash) (s1 s2 : Sequencer)
    (hd1 : d.GetSequencerByHash h1 = some s1) (hd2 : d.GetSequencerByHash h2 = some s2)
    (hmax : 2 ≤ L.MaxBlockFetch)
    (hlt : (mb (bundleOf g s1)).length < L.softResponseLimit)
    (hge : L.softResponseLimit ≤ (mb (bundleOf g s1)).length + (mb (bundleOf g s2)).length) :
    (gatherBodies L d g mb (MessageBodiesRequest.mk (h1 :: h2 :: rest))).bodies
      = [mb (bundleOf g s1), mb (bundleOf g s2)] := by
  unfold gatherBodies
  rw [bodiesLoop_cons_some _ _ _ _ _ _ _ s1 hd1 (by simp; omega) (by simp; omega)]
  rw [bodiesLoop_cons_some _ _ _ _ _ _ _ s2 hd2 (by simpa using hlt) (by simp; omega)]
  cases rest with
  | nil => simp [bodiesLoop]
  | cons h3 rest => rw [bodiesLoop_cons_full _ _ _ _ _ _ _ (by simpa using hge)]; simp

/-- C22, refuted as stated: with the 2 MiB budget, two bundles of 1.5 MiB each are
both placed in the response, 3 MiB in all; the budget is compared with the bytes
gathered before a bundle is added. -/
theorem HandleBodiesRequest_exceeds_budget :
    totalBytes (gatherBodies sampleBodyLimits (chainDag 10) largeTxsByNumber wideBodyMarshal
        (MessageBodiesRequest.mk [3, 4, 5])).bodies = 3145760 ∧
    sampleBodyLimits.softResponseLimit = 2097152 ∧
    (gatherBodies sampleBodyLimits (chainDag 10) largeTxsByNumber wideBodyMarshal
        (MessageBodiesRequest.mk [3, 4, 5])).bodies.length = 2 := by
  have hb := gatherBodies_two sampleBodyLimits (chainDag 10) largeTxsByNumber wideBodyMarshal
    3 4 [5] (chainSeq 2) (chainSeq 3) (by decide) (by decide) (by decide)
    (lt_of_eq_of_lt (wideBundle_length _) (by decide))
    (le_of_le_of_eq (by decide : sampleBodyLimits.softResponseLimit ≤ 1572880 + 1572880)
      (congrArg₂ (fun a b => a + b) (wideBundle_length _).symm (wideBundle_length _).symm))
  refine ⟨?_, by decide, ?_⟩
  · exact (congrArg totalBytes hb).trans ((totalBytes_pair _ _).trans
      (congrArg₂ (fun a b => a + b) (wideBundle_length _) (wideBundle_length _)))
  · exact (congrArg List.length hb).trans (List.length_cons _ _)
/-- C22, amended: the bundles placed in the response before the last one total
fewer than `softResponseLimit` bytes, so all bundles together stay below
`softResponseLimit` plus the size of the last bundle. -/
theorem HandleBodiesRequest_bytes_before_last (L : BodyLimits) (d : Dag) (g : Nat → List Tx)
    (mb : MessageTxsResponse → Bytes) (msgReq : MessageBodiesRequest)
    (init : List Bytes) (last : Bytes)
    (h : (gatherBodies L d g mb msgReq).bodies = init ++ [last]) :
    totalBytes init < L.softResponseLimit ∧
    totalBytes (gatherBodies L d g mb msgReq).bodies < L.softResponseLimit + last.length := by
  obtain ⟨seqs, -, -, hbodies, -, hadm, -⟩ :=
    bodiesLoop_spec L d g mb msgReq.SeqHashes { bytes := 0, bodies := [], effects := [] }
  have hb : (gatherBodies L d g mb msgReq).bodies
      = seqs.map (fun s => mb (bundleOf g s)) := by
    unfold gatherBodies
    rw [hbodies]; simp
  have hlen : seqs.length = init.length + 1 := by
    have := congrArg List.length (hb.symm.trans h)
    simpa using this
  have hinit : (seqs.map (fun s => mb (bundleOf g s))).take init.length = init := by
    rw [← hb, h]; simp
  have h1 : totalBytes init < L.softResponseLimit := by
    have := (hadm init.length (by omega)).1
    rw [hinit] at this
    simpa using this
  refine ⟨h1, ?_⟩
  rw [h, totalBytes_append]
  simp [totalBytes]
  omega

/-- A run of the amended C22: under a budget of 6 bytes two bundles of 5 bytes
are served. -/
theorem HandleBodiesRequest_bytes_before_last_witness :
    (gatherBodies tightBodyLimits (chainDag 10) sampleTxsByNumber sampleBodyMarshal
        (MessageBodiesRequest.mk [3, 4, 5])).bodies
      = [[3, 2, 201, 202, 203]] ++ [[4, 3, 301, 302, 303]] ∧
    totalBytes [[3, 2, 201, 202, 203]] < tightBodyLimits.softResponseLimit ∧
    totalBytes (gatherBodies tightBodyLimits (chainDag 10) sampleTxsByNumber sampleBodyMarshal
        (MessageBodiesRequest.mk [3, 4, 5])).bodies
      < tightBodyLimits.softResponseLimit + [4, 3, 301, 302, 303].length :=
  ⟨by decide,
   HandleBodiesRequest_bytes_before_last tightBodyLimits (chainDag 10) sampleTxsByNumber
     sampleBodyMarshal (MessageBodiesRequest.mk [3, 4, 5]) [[3, 2, 201, 202, 203]]
     [4, 3, 301, 302, 303] (by decide)⟩

/-- C23: the bodies of a `HandleBodiesRequest` response are the serialized
bundles, in request order, of the sequencers `seqs` that a prefix of the
requested hashes resolves to, each bundle holding the sequencer and the
transactions stored under its id.  Every bundle of the prefix was admitted by
the budget and by the count, and the prefix ends with the request or at a
hash that does not resolve, or at which the gathered bytes have reached
`softResponseLimit`, or at which `MaxBlockFetch` bodies have been gathered. -/
theorem HandleBodiesRequest_prefix_served (L : BodyLimits) (d : Dag) (g : Nat → List Tx)
    (mb : MessageTxsResponse → Bytes) (mr : MessageBodiesResponse → Bytes)
    (msgReq : MessageBodiesRequest) (peerId : String) :
    ∃ seqs : List Sequencer,
      HandleBodiesRequest L d g mb mr msgReq peerId
        = HandlerResult.returned ((gatherBodies L d g mb msgReq).effects ++
            [Effect.SendToPeer peerId MessageKind.MessageTypeBodiesResponse
              (mr (MessageBodiesResponse.mk
                (seqs.map (fun s => mb (MessageTxsResponse.mk (g s.Id) (some s))))))]) ∧
      seqs.length ≤ msgReq.SeqHashes.length ∧
      (msgReq.SeqHashes.take seqs.length).map d.GetSequencerByHash = seqs.map some ∧
      (∀ j, j < seqs.length →
        totalBytes ((seqs.map (fun s => mb (MessageTxsResponse.mk (g s.Id) (some s)))).take j)
          < L.softResponseLimit ∧ j < L.MaxBlockFetch) ∧
      (seqs.length = msgReq.SeqHashes.length ∨
        ∃ h, msgReq.SeqHashes[seqs.length]? = some h ∧
          (d.GetSequencerByHash h = none ∨
            L.softResponseLimit
              ≤ totalBytes (seqs.map (fun s => mb (MessageTxsResponse.mk (g s.Id) (some s)))) ∨
            L.MaxBlockFetch ≤ seqs.length)) := by
  obtain ⟨seqs, hlen, hres, hbodies, hbytes, hadm, hstop⟩ :=
    bodiesLoop_spec L d g mb msgReq.SeqHashes { bytes := 0, bodies := [], effects := [] }
  have hb : (gatherBodies L d g mb msgReq).bodies
      = seqs.map (fun s => mb (MessageTxsResponse.mk (g s.Id) (some s))) := by
    unfold gatherBodies
    rw [hbodies]; simp [bundleOf]
  refine ⟨seqs, ?_, hlen, hres, ?_, ?_⟩
  · rw [← hb]; rfl
  · intro j hj
    have := hadm j hj
    simpa [bundleOf] using this
  · rcases hstop with hall | ⟨h2, hget, hwhy⟩
    · exact Or.inl hall
    · refine Or.inr ⟨h2, hget, ?_⟩
      rcases hwhy with h1 | h1 | h1
      · exact Or.inl h1
      · right; left
        rw [hbytes] at h1
        simpa [bundleOf] using h1
      · right; right
        rw [hbodies] at h1
        simpa using h1

/-- A run of C23: of the hashes 3, 99, 4 only the first is served, because 99
does not resolve; the resolvable hash 4 behind it is not served. -/
theorem HandleBodiesRequest_prefix_served_witness :
    HandleBodiesRequest sampleBodyLimits (chainDag 10) sampleTxsByNumber sampleBodyMarshal
        sampleResponseMarshal (MessageBodiesRequest.mk [3, 99, 4]) "peer"
      = HandlerResult.returned
          [Effect.DagGetSequencerByHash 3, Effect.DagGetTxsByNumber 2,
           Effect.DagGetSequencerByHash 99,
           Effect.SendToPeer "peer" MessageKind.MessageTypeBodiesResponse
             (sampleResponseMarshal (MessageBodiesResponse.mk [[3, 2, 201, 202, 203]]))] ∧
    ∃ seqs : List Sequencer,
      HandleBodiesRequest sampleBodyLimits (chainDag 10) sampleTxsByNumber sampleBodyMarshal
          sampleResponseMarshal (MessageBodiesRequest.mk [3, 99, 4]) "peer"
        = HandlerResult.returned
            ((gatherBodies sampleBodyLimits (chainDag 10) sampleTxsByNumber sampleBodyMarshal
                (MessageBodiesRequest.mk [3, 99, 4])).effects ++
              [Effect.SendToPeer "peer" MessageKind.MessageTypeBodiesResponse
                (sampleResponseMarshal (MessageBodiesResponse.mk
                  (seqs.map (fun s => sampleBodyMarshal
                    (MessageTxsResponse.mk (sampleTxsByNumber s.Id) (some s))))))]) ∧
      seqs.length ≤ (MessageBodiesRequest.mk [3, 99, 4]).SeqHashes.length :=
  ⟨by decide,
   (HandleBodiesRequest_prefix_served sampleBodyLimits (chainDag 10) sampleTxsByNumber
      sampleBodyMarshal sampleResponseMarshal (MessageBodiesRequest.mk [3, 99, 4]) "peer").imp
     (fun _ h => ⟨h.1, h.2.1⟩)⟩

end OG

namespace OG

/-! ## Body range responses -/

/-- The loop of `HandleBodiesResponse` from index `i`: the arrays keep their
lengths, the first `k` remaining bundles decode with a sequencer and fill the
slots `i .. i+k-1`, the loop ends with the bundles or at a bundle that fails to
decode or has no sequencer, and no other slot is touched. -/
theorem fillSlots_spec (um : Bytes → Except syncer.GoError MessageTxsResponse)
    (rest : List Bytes) (i : Nat) (slots : BodySlots)
    (ht : i + rest.length ≤ slots.transactions.length)
    (hs : i + rest.length ≤ slots.sequencers.length) :
    ∃ k, k ≤ rest.length ∧
      (fillSlots um i rest slots).transactions.length = slots.transactions.length ∧
      (fillSlots um i rest slots).sequencers.length = slots.sequencers.length ∧
      (∀ j, j < k → ∃ bodyData body seq,
        rest[j]? = some bodyData ∧ um bodyData = Except.ok body ∧ body.Sequencer = some seq ∧
        (fillSlots um i rest slots).transactions[i + j]? = some body.Txs ∧
        (fillSlots um i rest slots).sequencers[i + j]? = some (some seq)) ∧
      (k = rest.length ∨ ∃ bodyData, rest[k]? = some bodyData ∧
        ((∃ e, um bodyData = Except.error e) ∨
          ∃ body, um bodyData = Except.ok body ∧ body.Sequencer = none)) ∧
      (∀ j, j < i ∨ i + k ≤ j →
        (fillSlots um i rest slots).transactions[j]? = slots.transactions[j]? ∧
        (fillSlots um i rest slots).sequencers[j]? = slots.sequencers[j]?) := by
  induction rest generalizing i slots with
  | nil => exact ⟨0, by simp [fillSlots]⟩
  | cons bodyData rest ih =>
    cases hu : um bodyData with
    | error e =>
      refine ⟨0, ?_⟩
      simp [fillSlots, hu]
    | ok body =>
      cases hq : body.Sequencer with
      | none =>
        refine ⟨0, ?_⟩
        simp [fillSlots, hu, hq]
      | some seq =>
        have hloop : fillSlots um i (bodyData :: rest) slots
            = fillSlots um (i + 1) rest
                { transactions := slots.transactions.set i body.Txs
                  sequencers := slots.sequencers.set i (some seq) } := by
          simp [fillSlots, hu, hq]
        simp only [List.length_cons] at ht hs
        obtain ⟨k, hk, hlt, hls, hfill, hstop, hframe⟩ :=
          ih (i + 1)
            { transactions := slots.transactions.set i body.Txs
              sequencers := slots.sequencers.set i (some seq) }
            (by simp; omega) (by simp; omega)
        refine ⟨k + 1, by simpa using hk, ?_, ?_, ?_, ?_, ?_⟩
        · rw [hloop, hlt]; simp
        · rw [hloop, hls]; simp
        · intro j hj
          cases j with
          | zero =>
            refine ⟨bodyData, body, seq, by simp, hu, hq, ?_, ?_⟩
            · have h0 := (hframe i (Or.inl (by omega))).1
              simp only [hloop, Nat.add_zero, h0]
              exact List.getElem?_set_self (by omega)
            · have h0 := (hframe i (Or.inl (by omega))).2
              simp only [hloop, Nat.add_zero, h0]
              exact List.getElem?_set_self (by omega)
          | succ j =>
            obtain ⟨bd, b, s, h1, h2, h3, h4, h5⟩ := hfill j (by omega)
            refine ⟨bd, b, s, by simpa using h1, h2, h3, ?_, ?_⟩
            · rw [hloop, ← h4]; congr 1; omega
            · rw [hloop, ← h5]; congr 1; omega
        · rcases hstop with hall | ⟨bd, hget, hwhy⟩
          · left; simp [hall]
          · right; exact ⟨bd, by simpa using hget, hwhy⟩
        · intro j hj
          have hj2 : j < i + 1 ∨ i + 1 + k ≤ j := by omega
          have hne : i ≠ j := by omega
          rw [hloop, (hframe j hj2).1, (hframe j hj2).2]
          simp [List.getElem?_set_ne hne]

/-- C24: for a response with `n` bundles `HandleBodiesResponse` makes exactly one
call, `Downloader.DeliverBodies` with the peer's id and two arrays of length
`n`.  With `k` the index of the first bundle that fails to decode or has no
sequencer (`k = n` if there is none), slot `j < k` holds the transactions and the
sequencer decoded from bundle `j`, and every slot from `k` on is unset, whatever
the later bundles are.  The error `DeliverBodies` returns plays no part. -/
theorem HandleBodiesResponse_delivers_once
    (um : Bytes → Except syncer.GoError MessageTxsResponse)
    (deliverErr : Option syncer.GoError) (request : MessageBodiesResponse) (peerId : String) :
    ∃ transactions sequencers k,
      HandleBodiesResponse um deliverErr request peerId
        = HandlerResult.returned [Effect.DeliverBodies peerId transactions sequencers] ∧
      transactions.length = request.Bodies.length ∧
      sequencers.length = request.Bodies.length ∧
      k ≤ request.Bodies.length ∧
      (∀ j, j < k → ∃ bodyData body seq,
        request.Bodies[j]? = some bodyData ∧ um bodyData = Except.ok body ∧
        body.Sequencer = some seq ∧
        transactions[j]? = some body.Txs ∧ sequencers[j]? = some (some seq)) ∧
      (k = request.Bodies.length ∨ ∃ bodyData, request.Bodies[k]? = some bodyData ∧
        ((∃ e, um bodyData = Except.error e) ∨
          ∃ body, um bodyData = Except.ok body ∧ body.Sequencer = none)) ∧
      (∀ j, k ≤ j → j < request.Bodies.length →
        transactions[j]? = some [] ∧ sequencers[j]? = some none) := by
  obtain ⟨k, hk, hlt, hls, hfill, hstop, hframe⟩ :=
    fillSlots_spec um request.Bodies 0
      { transactions := List.replicate request.Bodies.length []
        sequencers := List.replicate request.Bodies.length none }
      (by simp) (by simp)
  refine ⟨_, _, k, ?_, hlt.trans (by simp), hls.trans (by simp), hk, ?_, hstop, ?_⟩
  · unfold HandleBodiesResponse
    cases deliverErr <;> simp only [Bool.or_not_self, if_true]
  · intro j hj
    obtain ⟨bd, b, s, h1, h2, h3, h4, h5⟩ := hfill j hj
    exact ⟨bd, b, s, h1, h2, h3, by simpa using h4, by simpa using h5⟩
  · intro j hkj hjn
    have := hframe j (Or.inr (by omega))
    rw [this.1, this.2]
    simp [List.getElem?_replicate, hjn]

/-- A run of C24: the second of three bundles does not decode, so only slot 0 is
filled although the third bundle is well formed. -/
theorem HandleBodiesResponse_delivers_once_witness :
    HandleBodiesResponse sampleBodyUnmarshal none
        (MessageBodiesResponse.mk [[3, 2, 201, 202], [], [4, 3, 301]]) "peer"
      = HandlerResult.returned
          [Effect.DeliverBodies "peer" [[Tx.mk 201, Tx.mk 202], [], []]
            [some (chainSeq 2), none, none]] ∧
    ∃ transactions sequencers k,
      HandleBodiesResponse sampleBodyUnmarshal none
          (MessageBodiesResponse.mk [[3, 2, 201, 202], [], [4, 3, 301]]) "peer"
        = HandlerResult.returned [Effect.DeliverBodies "peer" transactions sequencers] ∧
      transactions.length = 3 ∧ sequencers.length = 3 ∧ k ≤ 3 :=
  ⟨by decide,
   (HandleBodiesResponse_delivers_once sampleBodyUnmarshal none
      (MessageBodiesResponse.mk [[3, 2, 201, 202], [], [4, 3, 301]]) "peer").imp
     (fun _ h => h.imp (fun _ h => h.imp (fun _ h => ⟨h.1, h.2.1, h.2.2.1, h.2.2.2.1⟩)))⟩

/-! ## Transaction-set requests -/

/-- C25, refuted as stated: a request with the hash 5 and the id 0 is resolved by
id alone; the handler answers with the sequencer of id 0, whose hash is 1,
where the lookup by hash and id finds nothing. -/
theorem HandleTxsRequest_hash_with_id_zero :
    HandleTxsRequest (chainDag 10) sampleTxsByNumber sampleBodyMarshal
        (MessageTxsRequest.mk (some 5) 0) "peer"
      = HandlerResult.returned
          [Effect.DagGetSequencerById 0, Effect.DagGetTxsByNumber 0,
           Effect.SendToPeer "peer" MessageKind.MessageTypeTxsResponse
             (sampleBodyMarshal (MessageTxsResponse.mk (sampleTxsByNumber 0)
               (some (Sequencer.mk 1 0))))] ∧
    (chainDag 10).GetSequencer 5 0 = none := by
  decide

/-- C25, amended: a request that carries a hash and a nonzero id is resolved with
`GetSequencer`; a request without a hash, or with the id 0, is resolved by id
alone with `GetSequencerById`.  The response, sent once to the requesting peer,
carries the resolved sequencer with the transactions stored under its id, or an
absent sequencer and no transactions when nothing is found. -/
theorem HandleTxsRequest_resolution (d : Dag) (g : Nat → List Tx)
    (m : MessageTxsResponse → Bytes) (msgReq : MessageTxsRequest) (peerId : String) :
    ∃ lookup seq,
      ((∃ hash, msgReq.SeqHash = some hash ∧ msgReq.Id ≠ 0 ∧
          lookup = Effect.DagGetSequencer hash msgReq.Id ∧
          seq = d.GetSequencer hash msgReq.Id) ∨
        ((msgReq.SeqHash = none ∨ msgReq.Id = 0) ∧
          lookup = Effect.DagGetSequencerById msgReq.Id ∧
          seq = d.GetSequencerById msgReq.Id)) ∧
      ((∃ s, seq = some s ∧
          HandleTxsRequest d g m msgReq peerId
            = HandlerResult.returned
                [lookup, Effect.DagGetTxsByNumber s.Id,
                 Effect.SendToPeer peerId MessageKind.MessageTypeTxsResponse
                   (m (MessageTxsResponse.mk (g s.Id) (some s)))]) ∨
        (seq = none ∧
          HandleTxsRequest d g m msgReq peerId
            = HandlerResult.returned
                [lookup, Effect.SendToPeer peerId MessageKind.MessageTypeTxsResponse
                   (m (MessageTxsResponse.mk [] none))])) := by
  cases hh : msgReq.SeqHash with
  | none =>
    refine ⟨_, _, Or.inr ⟨Or.inl rfl, rfl, rfl⟩, ?_⟩
    cases hs : d.GetSequencerById msgReq.Id with
    | none => right; simp [HandleTxsRequest, hh, hs]
    | some s => left; exact ⟨s, rfl, by simp [HandleTxsRequest, hh, hs]⟩
  | some hash =>
    by_cases hid : msgReq.Id = 0
    · refine ⟨_, _, Or.inr ⟨Or.inr hid, rfl, rfl⟩, ?_⟩
      cases hs : d.GetSequencerById msgReq.Id with
      | none => right; simp [HandleTxsRequest, hh, hid, hs] at hs ⊢; simp [hs]
      | some s => left; refine ⟨s, rfl, ?_⟩; simp [HandleTxsRequest, hh, hid] at hs ⊢; simp [hs]
    · refine ⟨_, _, Or.inl ⟨hash, rfl, hid, rfl, rfl⟩, ?_⟩
      cases hs : d.GetSequencer hash msgReq.Id with
      | none => right; simp [HandleTxsRequest, hh, hid, hs]
      | some s => left; exact ⟨s, rfl, by simp [HandleTxsRequest, hh, hid, hs]⟩

/-- A run of the amended C25: with the hash 5 and the id 4 the pair lookup is
used and finds the sequencer. -/
theorem HandleTxsRequest_resolution_witness :
    HandleTxsRequest (chainDag 10) sampleTxsByNumber sampleBodyMarshal
        (MessageTxsRequest.mk (some 5) 4) "peer"
      = HandlerResult.returned
          [Effect.DagGetSequencer 5 4, Effect.DagGetTxsByNumber 4,
           Effect.SendToPeer "peer" MessageKind.MessageTypeTxsResponse
             [5, 4, 401, 402, 403]] ∧
    ∃ lookup seq,
      ((∃ hash, (MessageTxsRequest.mk (some 5) 4).SeqHash = some hash ∧
          (MessageTxsRequest.mk (some 5) 4).Id ≠ 0 ∧
          lookup = Effect.DagGetSequencer hash (MessageTxsRequest.mk (some 5) 4).Id ∧
          seq = (chainDag 10).GetSequencer hash (MessageTxsRequest.mk (some 5) 4).Id) ∨
        (((MessageTxsRequest.mk (some 5) 4).SeqHash = none ∨
            (MessageTxsRequest.mk (some 5) 4).Id = 0) ∧
          lookup = Effect.DagGetSequencerById (MessageTxsRequest.mk (some 5) 4).Id ∧
          seq = (chainDag 10).GetSequencerById (MessageTxsRequest.mk (some 5) 4).Id)) :=
  ⟨by decide,
   (HandleTxsRequest_resolution (chainDag 10) sampleTxsByNumber sampleBodyMarshal
      (MessageTxsRequest.mk (some 5) 4) "peer").imp
     (fun _ h => h.imp (fun _ h => h.1))⟩

/-! ## Header responses, head announcements and keepalives -/

/-- C26: for every header response, with no header, one header or more,
`HandleHeaderResponse` makes exactly one call, `Downloader.DeliverHeaders`
with the responding peer's id and the headers that `SeqsToHeaders` makes of the
received sequencers, passed on in the received order; this holds whatever
`DeliverHeaders` returns, so its error changes nothing. -/
theorem HandleHeaderResponse_delivers_once
    (SeqsToHeaders : List Sequencer → List SequencerHeader)
    (deliverErr : Option syncer.GoError) (headerMsg : MessageHeaderResponse) (peerId : String) :
    HandleHeaderResponse SeqsToHeaders deliverErr headerMsg peerId
      = HandlerResult.returned
          [Effect.DeliverHeaders peerId (SeqsToHeaders headerMsg.Sequencers)] := by
  have hc : (decide (0 < (SeqsToHeaders headerMsg.Sequencers).length)
      || !((SeqsToHeaders headerMsg.Sequencers).length == 1)) = true := by
    cases h : (SeqsToHeaders headerMsg.Sequencers).length with
    | zero => rfl
    | succ n => simp
  unfold HandleHeaderResponse
  cases deliverErr <;> simp only [hc, if_true]

/-- A run of C26: a response without sequencers is delivered as well, also when
the delivery reports an error. -/
theorem HandleHeaderResponse_delivers_once_witness :
    HandleHeaderResponse sampleSeqsToHeaders (some "delivery failed")
        (MessageHeaderResponse.mk []) "peer"
      = HandlerResult.returned [Effect.DeliverHeaders "peer" []] ∧
    HandleHeaderResponse sampleSeqsToHeaders none
        (MessageHeaderResponse.mk [chainSeq 4, chainSeq 2]) "peer"
      = HandlerResult.returned
          [Effect.DeliverHeaders "peer" [SequencerHeader.mk 5 4, SequencerHeader.mk 3 2]] :=
  ⟨HandleHeaderResponse_delivers_once sampleSeqsToHeaders (some "delivery failed")
     (MessageHeaderResponse.mk []) "peer",
   (HandleHeaderResponse_delivers_once sampleSeqsToHeaders none
     (MessageHeaderResponse.mk [chainSeq 4, chainSeq 2]) "peer").trans (by decide)⟩

theorem requestLoop_eq (count : Nat) (effects : List Effect) :
    requestLoop count effects = effects := by
  induction count with
  | zero => rfl
  | succ n ih => simpa [requestLoop] using ih

/-- C27: with a present hash the calls of `HandleSequencerHeader` are one
`Hub.SetPeerHead` with the peer's id and the announced hash and number, and one
read of the latest local sequencer; nothing is sent and nothing but the peer
head is written, whatever the gap between the announced and the local height,
and the handler returns whenever the storage has a latest sequencer.  With an
absent hash the handler returns without any call. -/
theorem HandleSequencerHeader_effects (latest : Option Sequencer)
    (msgHeader : MessageSequencerHeader) (peerId : String) :
    (∀ hash, msgHeader.Hash = some hash →
      (HandleSequencerHeader latest msgHeader peerId).effects
        = [Effect.SetPeerHead peerId hash msgHeader.Number, Effect.DagLatestSequencer] ∧
      (HandleSequencerHeader latest msgHeader peerId).effects.filter (fun e => !e.isLookup)
        = [Effect.SetPeerHead peerId hash msgHeader.Number] ∧
      (HandleSequencerHeader latest msgHeader peerId).effects.filter Effect.isSend = [] ∧
      (∀ lseq, latest = some lseq →
        HandleSequencerHeader latest msgHeader peerId
          = HandlerResult.returned
              [Effect.SetPeerHead peerId hash msgHeader.Number, Effect.DagLatestSequencer])) ∧
    (msgHeader.Hash = none →
      HandleSequencerHeader latest msgHeader peerId = HandlerResult.returned []) := by
  constructor
  · intro hash hh
    cases latest with
    | none =>
      simp [HandleSequencerHeader, hh, HandlerResult.effects, Effect.isLookup, Effect.isSend]
    | some lseq =>
      simp [HandleSequencerHeader, hh, HandlerResult.effects, Effect.isLookup, Effect.isSend,
        requestLoop_eq]
  · intro hh
    simp [HandleSequencerHeader, hh]

/-- A run of C27: an announcement 1000 sequencers ahead of the local height 3
only sets the peer head. -/
theorem HandleSequencerHeader_effects_witness :
    HandleSequencerHeader (some (chainSeq 3)) (MessageSequencerHeader.mk (some 77) 1003) "peer"
      = HandlerResult.returned [Effect.SetPeerHead "peer" 77 1003, Effect.DagLatestSequencer] ∧
    HandleSequencerHeader (some (chainSeq 3)) (MessageSequencerHeader.mk none 1003) "peer"
      = HandlerResult.returned [] :=
  ⟨((HandleSequencerHeader_effects (some (chainSeq 3))
      (MessageSequencerHeader.mk (some 77) 1003) "peer").1 77 rfl).2.2.2 (chainSeq 3) rfl,
   (HandleSequencerHeader_effects (some (chainSeq 3))
      (MessageSequencerHeader.mk none 1003) "peer").2 rfl⟩

/-- C28: `HandlePing` makes exactly one call, a send to the pinging peer of type
`MessageTypePong` with the one-byte payload `[1]`; `HandlePong` makes no call at
all, so it sends nothing and changes no state. -/
theorem HandlePing_HandlePong_effects (peerId : String) :
    HandlePing peerId
      = HandlerResult.returned [Effect.SendToPeer peerId MessageKind.MessageTypePong [1]] ∧
    HandlePong = HandlerResult.returned [] :=
  ⟨rfl, rfl⟩

end OG

namespace OG

/-! ## Concurrent invocations of `syncToLatest` -/

/-- C29, failing on the code: two invocations of `syncToLatest` start together
while `syncFlag` is false.  Under the schedule 0, 1, 0, 1 both call `isSyncing`
before either calls `setSyncFlag`; both calls return false, so both invocations
pass the in-flight check, both set the flag, and both are in the loop that
calls `Downloader.Synchronise`; neither returns as a no-op.  Under the schedule
0, 0, 1, where the second invocation starts after the first has set the flag,
the second returns at once. -/
theorem syncToLatest_concurrent_invocations_both_pass :
    (syncer.runSchedule sampleCollaborators 5 [0, 1]
        { node := sampleNode false 10 0, pcs := [syncer.Pc.entry, syncer.Pc.entry] }).map
      (fun st => (st.pcs, syncer.pastCheck st, syncer.isSyncing st.node))
      = some ([syncer.Pc.checked, syncer.Pc.checked], 2, false) ∧
    (syncer.runSchedule sampleCollaborators 5 [0, 1, 0, 1]
        { node := sampleNode false 10 0, pcs := [syncer.Pc.entry, syncer.Pc.entry] }).map
      (fun st => (st.pcs, syncer.inCycle st, syncer.isSyncing st.node))
      = some ([syncer.Pc.cycle, syncer.Pc.cycle], 2, true) ∧
    (syncer.runSchedule sampleCollaborators 5 [0, 0, 1]
        { node := sampleNode false 10 0, pcs := [syncer.Pc.entry, syncer.Pc.entry] }).map
      (fun st => (st.pcs, syncer.inCycle st, syncer.isSyncing st.node))
      = some ([syncer.Pc.cycle, syncer.Pc.returned], 1, true) := by
  refine ⟨?_, ?_, ?_⟩ <;> rfl

/-! ## The generated serialization -/

theorem MessageCounter_MarshalMsg_le (lib : Msgp) (hlib : lib.WithinSizes)
    (z : MessageCounter) (b : Bytes) :
    (MessageCounter.MarshalMsg lib z b).1.length ≤ b.length + z.Msgsize := by
  simp [MessageCounter.MarshalMsg, MessageCounter.Msgsize, hlib.require]

theorem MessageType_MarshalMsg_le (lib : Msgp) (hlib : lib.WithinSizes)
    (z : MessageType) (b : Bytes) :
    (MessageType.MarshalMsg lib z b).1.length ≤ b.length + MessageType.Msgsize lib z := by
  simpa [MessageType.MarshalMsg, MessageType.Msgsize, hlib.require] using hlib.uint64 b z

theorem SendingType_MarshalMsg_le (lib : Msgp) (hlib : lib.WithinSizes)
    (z : SendingType) (b : Bytes) :
    (SendingType.MarshalMsg lib z b).1.length ≤ b.length + SendingType.Msgsize lib z := by
  simpa [SendingType.MarshalMsg, SendingType.Msgsize, hlib.require] using hlib.uint8 b z

theorem P2PMessage_MarshalMsg_le {μ : Type} (lib : Msgp) (cm : Codec μ) (ch : Codec Hash)
    (hlib : lib.WithinSizes) (hm : cm.WithinSize) (hh : ch.WithinSize)
    (z : P2PMessage μ) (b : Bytes) :
    (P2PMessage.MarshalMsg lib cm ch z b).1.length
      ≤ b.length + P2PMessage.Msgsize lib cm ch z := by
  have h1 := hlib.uint64 (b ++ [0x95]) z.MessageType
  have h2 := hlib.string (lib.AppendUint64 (b ++ [0x95]) z.MessageType) z.SourceID
  have h3 := hlib.int
    (lib.AppendString (lib.AppendUint64 (b ++ [0x95]) z.MessageType) z.SourceID) z.Version
  have h4 := hm z.Message (lib.AppendInt
    (lib.AppendString (lib.AppendUint64 (b ++ [0x95]) z.MessageType) z.SourceID) z.Version)
  simp only [List.length_append, List.length_singleton] at h1
  unfold P2PMessage.MarshalMsg P2PMessage.Msgsize
  simp only [hlib.require]
  rcases hc : cm.MarshalMsg z.Message (lib.AppendInt
    (lib.AppendString (lib.AppendUint64 (b ++ [0x95]) z.MessageType) z.SourceID) z.Version)
    with ⟨o4, err⟩
  rw [hc] at h4
  simp only at h4
  cases hs : z.SourceHash with
  | none =>
    have h5 := hlib.nil o4
    cases err <;> simp only <;> omega
  | some hash =>
    cases err with
    | some e => simp only; omega
    | none =>
      simp only
      have h5 := hh hash o4
      rcases hd : ch.MarshalMsg hash o4 with ⟨o5, err2⟩
      rw [hd] at h5
      simp only at h5
      cases err2 <;> simp only <;> omega

theorem StatusData_MarshalMsg_le (lib : Msgp) (ch : Codec Hash)
    (hlib : lib.WithinSizes) (hh : ch.WithinSize) (z : StatusData) (b : Bytes) :
    (StatusData.MarshalMsg lib ch z b).1.length ≤ b.length + StatusData.Msgsize lib ch z := by
  unfold StatusData.MarshalMsg StatusData.Msgsize
  simp only [hlib.require]
  generalize hb1 : b ++ [0x85, 0xaf, 0x50, 0x72, 0x6f, 0x74, 0x6f, 0x63, 0x6f, 0x6c, 0x56, 0x65,
    0x72, 0x73, 0x69, 0x6f, 0x6e] = b1
  have e1 : b1.length = b.length + 17 := by rw [← hb1]; simp
  have h1 := hlib.uint32 b1 z.ProtocolVersion
  generalize lib.AppendUint32 b1 z.ProtocolVersion = o1 at h1 ⊢
  generalize hb2 : o1 ++ [0xa9, 0x4e, 0x65, 0x74, 0x77, 0x6f, 0x72, 0x6b, 0x49, 0x64] = b2
  have e2 : b2.length = o1.length + 10 := by rw [← hb2]; simp
  have h2 := hlib.uint64 b2 z.NetworkId
  generalize lib.AppendUint64 b2 z.NetworkId = o2 at h2 ⊢
  generalize hb3 : o2 ++ [0xac, 0x43, 0x75, 0x72, 0x72, 0x65, 0x6e, 0x74, 0x42, 0x6c, 0x6f, 0x63,
    0x6b] = b3
  have e3 : b3.length = o2.length + 13 := by rw [← hb3]; simp
  have h3 := hh z.CurrentBlock b3
  rcases hc : ch.MarshalMsg z.CurrentBlock b3 with ⟨o3, err⟩
  rw [hc] at h3
  simp only at h3
  cases err with
  | some e => simp only; omega
  | none =>
    simp only
    generalize hb4 : o3 ++ [0xac, 0x47, 0x65, 0x6e, 0x65, 0x73, 0x69, 0x73, 0x42, 0x6c, 0x6f,
      0x63, 0x6b] = b4
    have e4 : b4.length = o3.length + 13 := by rw [← hb4]; simp
    have h4 := hh z.GenesisBlock b4
    rcases hd : ch.MarshalMsg z.GenesisBlock b4 with ⟨o4, err2⟩
    rw [hd] at h4
    simp only at h4
    cases err2 with
    | some e => simp only; omega
    | none =>
      simp only
      generalize hb5 : o4 ++ [0xa9, 0x43, 0x75, 0x72, 0x72, 0x65, 0x6e, 0x74, 0x49, 0x64] = b5
      have e5 : b5.length = o4.length + 10 := by rw [← hb5]; simp
      have h5 := hlib.uint64 b5 z.CurrentId
      omega

end OG

namespace OG

theorem bigEndian_length (width n : Nat) : (msgp.bigEndian width n).length = width := by
  induction width generalizing n with
  | zero => rfl
  | succ w ih => simp [msgp.bigEndian, ih]

theorem AppendUint64_length_le (b : Bytes) (u : Nat) :
    (msgp.AppendUint64 b u).length ≤ b.length + 9 := by
  unfold msgp.AppendUint64
  split_ifs <;> simp [bigEndian_length]

theorem AppendUint64_length_le_of_lt (b : Bytes) (u : Nat) :
    (u < 2 ^ 8 → (msgp.AppendUint64 b u).length ≤ b.length + 2) ∧
    (u < 2 ^ 32 → (msgp.AppendUint64 b u).length ≤ b.length + 5) := by
  unfold msgp.AppendUint64
  constructor <;> intro h <;> split_ifs <;> simp [bigEndian_length] <;> omega

theorem AppendInt64_length_le (b : Bytes) (i : Int) :
    (msgp.AppendInt64 b i).length ≤ b.length + 9 := by
  unfold msgp.AppendInt64
  split_ifs <;> simp [bigEndian_length]

theorem AppendString_length_le (b s : Bytes) :
    (msgp.AppendString b s).length ≤ b.length + 5 + s.length := by
  unfold msgp.AppendString
  split_ifs <;> simp [bigEndian_length] <;> omega

/-- The wire format keeps within the size constants of the library. -/
theorem wire_withinSizes : msgp.wire.WithinSizes where
  require := fun _ _ => rfl
  uint64 := AppendUint64_length_le
  uint32 := fun b u => (AppendUint64_length_le_of_lt b (u % 2 ^ 32)).2 (Nat.mod_lt _ (by decide))
  uint8 := fun b u => (AppendUint64_length_le_of_lt b (u % 2 ^ 8)).1 (Nat.mod_lt _ (by decide))
  int := AppendInt64_length_le
  string := AppendString_length_le
  nil := fun b => by simp [msgp.wire]

theorem sampleHashCodec_withinSize : sampleHashCodec.WithinSize := by
  intro z b
  simp [sampleHashCodec, bigEndian_length]

theorem samplePingCodec_withinSize : samplePingCodec.WithinSize := by
  intro z b
  simp [samplePingCodec]

/-- C30: `Msgsize` bounds the encoded size.  For every `P2PMessage`,
`StatusData`, `MessageType`, `SendingType` and `MessageCounter` value `z` and
every slice `b`, the slice `MarshalMsg` returns for `z` is at most `z.Msgsize()`
bytes longer than `b`, whether or not it returns an error, provided the library
functions keep within the library's size constants and the codecs of the carried
message and of `types.Hash`, which are declared elsewhere, keep within their own
`Msgsize`. -/
theorem MarshalMsg_length_le_Msgsize {μ : Type} (lib : Msgp) (cm : Codec μ) (ch : Codec Hash)
    (hlib : lib.WithinSizes) (hm : cm.WithinSize) (hh : ch.WithinSize) (b : Bytes) :
    (∀ z : P2PMessage μ,
      (P2PMessage.MarshalMsg lib cm ch z b).1.length
        ≤ b.length + P2PMessage.Msgsize lib cm ch z) ∧
    (∀ z : StatusData,
      (StatusData.MarshalMsg lib ch z b).1.length ≤ b.length + StatusData.Msgsize lib ch z) ∧
    (∀ z : MessageType,
      (MessageType.MarshalMsg lib z b).1.length ≤ b.length + MessageType.Msgsize lib z) ∧
    (∀ z : SendingType,
      (SendingType.MarshalMsg lib z b).1.length ≤ b.length + SendingType.Msgsize lib z) ∧
    (∀ z : MessageCounter,
      (MessageCounter.MarshalMsg lib z b).1.length ≤ b.length + z.Msgsize) :=
  ⟨fun z => P2PMessage_MarshalMsg_le lib cm ch hlib hm hh z b,
   fun z => StatusData_MarshalMsg_le lib ch hlib hh z b,
   fun z => MessageType_MarshalMsg_le lib hlib z b,
   fun z => SendingType_MarshalMsg_le lib hlib z b,
   fun z => MessageCounter_MarshalMsg_le lib hlib z b⟩

/-- A run of C30 on the MessagePack wire format: the sample envelope takes 17
bytes where `Msgsize` allows 38, and the sample status takes 82 where `Msgsize`
allows 104. -/
theorem MarshalMsg_length_le_Msgsize_witness :
    msgp.wire.WithinSizes ∧ samplePingCodec.WithinSize ∧ sampleHashCodec.WithinSize ∧
    P2PMessage.MarshalMsg msgp.wire samplePingCodec sampleHashCodec sampleEnvelope []
      = ([0x95, 0xcd, 0x01, 0x2c, 0xa4, 0x70, 0x65, 0x65, 0x72, 0xfe, 0xc0,
          0xc4, 4, 0, 0, 0, 7], none) ∧
    P2PMessage.Msgsize msgp.wire samplePingCodec sampleHashCodec sampleEnvelope = 38 ∧
    (StatusData.MarshalMsg msgp.wire sampleHashCodec sampleStatus []).1.length = 82 ∧
    StatusData.Msgsize msgp.wire sampleHashCodec sampleStatus = 104 ∧
    (P2PMessage.MarshalMsg msgp.wire samplePingCodec sampleHashCodec sampleEnvelope []).1.length
      ≤ ([] : Bytes).length
        + P2PMessage.Msgsize msgp.wire samplePingCodec sampleHashCodec sampleEnvelope ∧
    (StatusData.MarshalMsg msgp.wire sampleHashCodec sampleStatus []).1.length
      ≤ ([] : Bytes).length + StatusData.Msgsize msgp.wire sampleHashCodec sampleStatus :=
  ⟨wire_withinSizes, samplePingCodec_withinSize, sampleHashCodec_withinSize,
   by decide, by decide, by decide, by decide,
   (MarshalMsg_length_le_Msgsize msgp.wire samplePingCodec sampleHashCodec wire_withinSizes
      samplePingCodec_withinSize sampleHashCodec_withinSize []).1 sampleEnvelope,
   (MarshalMsg_length_le_Msgsize msgp.wire samplePingCodec sampleHashCodec wire_withinSizes
      samplePingCodec_withinSize sampleHashCodec_withinSize []).2.1 sampleStatus⟩

end OG

namespace OG

/-! ## The start threshold of the syncer -/

/-- C31, failing on the code: a node whose last cycle has converged
(`WorkState` is `Stopped`) and whose best peer is one sequencer ahead, within
`startSyncHeightDiffThreashold`, is triggered.  `syncToLatest` starts its loop
from `diff = 0`, so it publishes `Started` to both listeners and calls
`Downloader.Synchronise`; the assignment `diff = startSyncHeightDiffThreashold`
before the return writes a local variable that is never read again. -/
theorem syncToLatest_ignores_start_threshold :
    (stoppedNode 101 100).c.WorkState = syncer.CatchupSyncerStatus.Stopped ∧
    101 ≤ 100 + syncer.startSyncHeightDiffThreashold ∧
    (syncer.syncToLatest sampleCollaborators 5 (stoppedNode 101 100)).map
        (fun r => (r.1, r.2.trace))
      = some (none,
          [syncer.Event.BestPeerInfo, syncer.Event.GetCurrentNodeStatus,
           syncer.Event.Send 1 syncer.CatchupSyncerStatus.Started,
           syncer.Event.Send 2 syncer.CatchupSyncerStatus.Started,
           syncer.Event.BestPeerInfo, syncer.Event.GetCurrentNodeStatus,
           syncer.Event.Synchronise "p" 102 101 0,
           syncer.Event.BestPeerInfo, syncer.Event.GetCurrentNodeStatus,
           syncer.Event.Send 1 syncer.CatchupSyncerStatus.Stopped,
           syncer.Event.Send 2 syncer.CatchupSyncerStatus.Stopped]) :=
  ⟨rfl, by decide, rfl⟩

/-! ## Lookups of the header range scan that find nothing -/

/-- C32, failing on the code: in hash mode the handler calls `GetTxHash` on the
result of a lookup that found nothing and aborts without a response.  Walking
toward genesis from height 2 with skip 5 the subtraction wraps and no sequencer
is found; walking toward genesis from height 7 with skip 2 the sequencer at
height 4 is missing; walking forward from height 4 with skip 0 the sequencer at
`next - (skip+1) = 4` is missing.  The walk forward from height 1 with skip 2,
whose lookup at `next = 4` is guarded, ends with a response. -/
theorem HandleHeaderRequest_nil_lookup_aborts :
    (HandleHeaderRequest sampleLimits (chainDag 10) (hashQuery 3 2 5 true)).response = none ∧
    (HandleHeaderRequest sampleLimits (chainDag 10) (hashQuery 3 2 5 true)).calls
      = [DagCall.ByHash 3, DagCall.ById 18446744073709551612] ∧
    (HandleHeaderRequest sampleLimits gapDag (hashQuery 8 3 2 true)).response = none ∧
    (HandleHeaderRequest sampleLimits gapDag (hashQuery 8 3 2 true)).calls
      = [DagCall.ByHash 8, DagCall.ById 4] ∧
    (HandleHeaderRequest sampleLimits gapDag (hashQuery 5 3 0 false)).response = none ∧
    (HandleHeaderRequest sampleLimits gapDag (hashQuery 5 3 0 false)).calls
      = [DagCall.ByHash 5, DagCall.ById 5, DagCall.ById 4] ∧
    (HandleHeaderRequest sampleLimits gapDag (hashQuery 2 3 2 false)).response
      = some [chainSeq 1] := by
  refine ⟨?_, ?_, ?_, ?_, ?_, ?_, ?_⟩ <;>
    simp [HandleHeaderRequest, scanLoop, loopCond, iteration, resolveOrigin, advance, initScan,
      hashQuery, chainDag, gapDag, sampleLimits, toInt, add64, sub64, ScanResult.response,
      ScanResult.calls, chainSeq, Hash.Empty, Sequencer.Number, Sequencer.GetTxHash]

end OG

namespace OG

/-! ## The trigger loop and the enable loop -/

theorem loopSyncStep_of_ne_quit (c : syncer.CatchupSyncer) (ev : syncer.SyncEvent)
    (h : ev ≠ syncer.SyncEvent.quit) :
    syncer.loopSyncStep c ev
      = (true, c, if c.Enabled then [syncer.LoopCall.goSyncToLatest] else []) := by
  cases ev with
  | quit => exact absurd rfl h
  | NewPeerConnected peer => cases hE : c.Enabled <;> simp [syncer.loopSyncStep, hE]
  | timer => cases hE : c.Enabled <;> simp [syncer.loopSyncStep, hE]

theorem loopSync_until_quit (c : syncer.CatchupSyncer) (pre post : List syncer.SyncEvent)
    (h : syncer.SyncEvent.quit ∉ pre) :
    ∃ calls, syncer.loopSync c (pre ++ syncer.SyncEvent.quit :: post)
        = (true, c, calls ++ [syncer.LoopCall.Terminate]) ∧
      syncer.LoopCall.Terminate ∉ calls ∧
      calls.length = if c.Enabled then pre.length else 0 := by
  induction pre with
  | nil => exact ⟨[], by simp [syncer.loopSync, syncer.loopSyncStep]⟩
  | cons ev pre ih =>
    have hne : ev ≠ syncer.SyncEvent.quit := fun he => h (by simp [he])
    obtain ⟨calls, hrun, hno, hlen⟩ := ih (fun hm => h (List.mem_cons_of_mem _ hm))
    refine ⟨(if c.Enabled then [syncer.LoopCall.goSyncToLatest] else []) ++ calls, ?_, ?_, ?_⟩
    · have hstep : syncer.loopSync c (ev :: (pre ++ syncer.SyncEvent.quit :: post))
          = ((syncer.loopSync c (pre ++ syncer.SyncEvent.quit :: post)).1,
             (syncer.loopSync c (pre ++ syncer.SyncEvent.quit :: post)).2.1,
             (if c.Enabled then [syncer.LoopCall.goSyncToLatest] else [])
               ++ (syncer.loopSync c (pre ++ syncer.SyncEvent.quit :: post)).2.2) := by
        simp only [syncer.loopSync, loopSyncStep_of_ne_quit c ev hne]
      rw [List.cons_append, hstep, hrun, List.append_assoc]
    · cases hE : c.Enabled <;> simp [hno]
    · cases hE : c.Enabled
      · simp [hE] at hlen ⊢; exact hlen
      · simp [hE] at hlen ⊢; omega

theorem loopSync_without_quit (c : syncer.CatchupSyncer) (events : List syncer.SyncEvent)
    (h : syncer.SyncEvent.quit ∉ events) :
    (syncer.loopSync c events).1 = false ∧ (syncer.loopSync c events).2.1 = c ∧
      syncer.LoopCall.Terminate ∉ (syncer.loopSync c events).2.2 := by
  induction events with
  | nil => simp [syncer.loopSync]
  | cons ev rest ih =>
    have hne : ev ≠ syncer.SyncEvent.quit := fun he => h (by simp [he])
    obtain ⟨h1, h2, h3⟩ := ih (fun hm => h (List.mem_cons_of_mem _ hm))
    simp only [syncer.loopSync, loopSyncStep_of_ne_quit c ev hne]
    refine ⟨h1, h2, ?_⟩
    cases hE : c.Enabled <;> simp [h3]

/-- C33: in the trigger loop a peer-connected or timer event launches
`syncToLatest` exactly when `Enabled` is true, leaves the syncer (and with it
`Enabled`) unchanged and keeps the loop going; a quit event launches nothing and
ends the loop.  Run over a sequence of events, the loop returns at the first quit
event and `Downloader.Terminate` is called exactly once, as its last call; while
no quit event has arrived it has not returned and has not called `Terminate`.
In the enable loop an event `v` only sets `Enabled := v`, and its quit event
changes nothing. -/
theorem loopSync_eventLoop_steps (c : syncer.CatchupSyncer) :
    (∀ ev, ev ≠ syncer.SyncEvent.quit →
      syncer.loopSyncStep c ev
        = (true, c, if c.Enabled then [syncer.LoopCall.goSyncToLatest] else [])) ∧
    syncer.loopSyncStep c syncer.SyncEvent.quit = (false, c, []) ∧
    (∀ pre post, syncer.SyncEvent.quit ∉ pre →
      ∃ calls, syncer.loopSync c (pre ++ syncer.SyncEvent.quit :: post)
          = (true, c, calls ++ [syncer.LoopCall.Terminate]) ∧
        syncer.LoopCall.Terminate ∉ calls ∧
        calls.length = if c.Enabled then pre.length else 0) ∧
    (∀ events, syncer.SyncEvent.quit ∉ events →
      (syncer.loopSync c events).1 = false ∧ (syncer.loopSync c events).2.1 = c ∧
        syncer.LoopCall.Terminate ∉ (syncer.loopSync c events).2.2) ∧
    (∀ v, syncer.eventLoopStep c (syncer.EnableLoopEvent.EnableEvent v)
      = (true, { c with Enabled := v })) ∧
    syncer.eventLoopStep c syncer.EnableLoopEvent.quitLoopEvent = (false, c) :=
  ⟨loopSyncStep_of_ne_quit c, rfl, loopSync_until_quit c, loopSync_without_quit c,
   fun _ => rfl, rfl⟩

/-- A run of C33: an enabled syncer launches two cycles before the quit event and
none for the timer behind it; a disabled syncer launches none. -/
theorem loopSync_eventLoop_steps_witness :
    syncer.loopSync (sampleSyncer false false)
        [syncer.SyncEvent.timer, syncer.SyncEvent.NewPeerConnected "p", syncer.SyncEvent.quit,
         syncer.SyncEvent.timer]
      = (true, sampleSyncer false false,
          [syncer.LoopCall.goSyncToLatest, syncer.LoopCall.goSyncToLatest,
           syncer.LoopCall.Terminate]) ∧
    syncer.loopSync (syncer.eventLoopStep (sampleSyncer false false)
          (syncer.EnableLoopEvent.EnableEvent false)).2
        [syncer.SyncEvent.timer, syncer.SyncEvent.quit]
      = (true, { sampleSyncer false false with Enabled := false },
          [syncer.LoopCall.Terminate]) ∧
    syncer.loopSyncStep (sampleSyncer false false) syncer.SyncEvent.timer
      = (true, sampleSyncer false false,
          if (sampleSyncer false false).Enabled then [syncer.LoopCall.goSyncToLatest]
          else []) :=
  ⟨by decide, by decide,
   (loopSync_eventLoop_steps (sampleSyncer false false)).1 syncer.SyncEvent.timer
     (by decide)⟩

/-! ## Termination of the header range scan -/

theorem resolveOrigin_calls (d : Dag) (hm : Bool) (s : ScanState) :
    (resolveOrigin d hm s).2.calls.length = s.calls.length + 1 := by
  unfold resolveOrigin
  split
  · split
    · split <;> simp
    · simp
  · simp

theorem advance_calls (d : Dag) (hm : Bool) (o : Sequencer) (s : ScanState) :
    (advance d hm o s).state.calls.length ≤ s.calls.length + 2 := by
  generalize hr : advance d hm o s = r
  simp only [advance] at hr
  split at hr
  · split at hr
    · subst hr; simp [Iter.state]
    · split at hr <;> subst hr <;> simp [Iter.state]
  · split at hr
    · split at hr
      · subst hr; simp [Iter.state]
      · split at hr
        · split at hr
          · subst hr; simp [Iter.state]
          · split at hr <;> subst hr <;> simp [Iter.state]
        · subst hr; simp [Iter.state]
    · split at hr
      · split at hr <;> subst hr <;> simp [Iter.state]
      · subst hr; simp [Iter.state]

/-- One pass through the loop body makes at most three storage lookups. -/
theorem iteration_calls (L : Limits) (d : Dag) (hm : Bool) (s : ScanState) :
    (iteration L d hm s).state.calls.length ≤ s.calls.length + 3 := by
  have hres := resolveOrigin_calls d hm s
  unfold iteration
  rcases hr : resolveOrigin d hm s with ⟨o, s1⟩
  rw [hr] at hres
  simp only at hres
  cases o with
  | none => simp only [Iter.state]; omega
  | some origin =>
    have hadv := advance_calls d hm origin
      { s1 with headers := s1.headers ++ [origin], bytes := s1.bytes + L.estHeaderRlpSize }
    simp only at hadv ⊢
    omega

/-- A pass that goes back to the loop condition has appended one header. -/
theorem iteration_next_length (L : Limits) (d : Dag) (hm : Bool) (s s1 : ScanState)
    (h : iteration L d hm s = Iter.next s1) : s1.headers.length = s.headers.length + 1 := by
  have hf := iteration_frame L d hm s
  rw [h] at hf
  simp only [Iter.isStop, Iter.state, Bool.false_eq_true, if_false] at hf
  obtain ⟨⟨o, ho⟩, -⟩ := hf
  rw [ho]; simp

theorem scanPasses_le (L : Limits) (d : Dag) (hm : Bool) (fuel : Nat) (s : ScanState) :
    scanPasses L d hm fuel s ≤ L.MaxHeaderFetch - s.headers.length := by
  induction fuel generalizing s with
  | zero => unfold scanPasses; split <;> simp
  | succ fuel ih =>
    unfold scanPasses
    cases hc : loopCond L s with
    | false => simp
    | true =>
      have hlt := loopCond_length_lt L s hc
      simp only [if_true]
      cases hi : iteration L d hm s with
      | next s1 =>
        have := iteration_next_length L d hm s s1 hi
        have := ih s1
        simp only
        omega
      | stop s1 => simp only; omega
      | nilDeref s1 => simp only; omega

theorem scanLoop_calls_le (L : Limits) (d : Dag) (hm : Bool) (fuel : Nat) (s : ScanState) :
    (scanLoop L d hm fuel s).calls.length ≤ s.calls.length + 3 * scanPasses L d hm fuel s := by
  induction fuel generalizing s with
  | zero => unfold scanLoop scanPasses; split <;> simp [ScanResult.calls]
  | succ fuel ih =>
    unfold scanLoop scanPasses
    cases hc : loopCond L s with
    | false => simp [ScanResult.calls]
    | true =>
      have hcall := iteration_calls L d hm s
      simp only [if_true]
      cases hi : iteration L d hm s with
      | next s1 =>
        rw [hi] at hcall
        have := ih s1
        simp only [Iter.state] at hcall ⊢
        omega
      | stop s1 =>
        rw [hi] at hcall
        simp only [Iter.state, ScanResult.calls] at hcall ⊢
        omega
      | nilDeref s1 =>
        rw [hi] at hcall
        simp only [Iter.state, ScanResult.calls] at hcall ⊢
        omega

/-- More fuel than `MaxHeaderFetch` passes changes nothing. -/
theorem scanLoop_more_fuel (L : Limits) (d : Dag) (hm : Bool) (fuel : Nat) :
    ∀ (s : ScanState), L.MaxHeaderFetch ≤ fuel + s.headers.length →
      ∀ k, scanLoop L d hm (fuel + k) s = scanLoop L d hm fuel s := by
  induction fuel with
  | zero =>
    intro s hfuel k
    have hc : loopCond L s = false := by
      cases hcond : loopCond L s with
      | false => rfl
      | true => have := loopCond_length_lt L s hcond; omega
    rw [scanLoop_of_not_cond _ _ _ _ _ hc, scanLoop_of_not_cond _ _ _ _ _ hc]
  | succ fuel ih =>
    intro s hfuel k
    cases hc : loopCond L s with
    | false => rw [scanLoop_of_not_cond _ _ _ _ _ hc, scanLoop_of_not_cond _ _ _ _ _ hc]
    | true =>
      have e : fuel + 1 + k = (fuel + k) + 1 := by omega
      rw [e, scanLoop_succ _ _ _ _ _ hc, scanLoop_succ _ _ _ _ _ hc]
      cases hi : iteration L d hm s with
      | next s1 =>
        have := iteration_next_length L d hm s s1 hi
        simp only
        exact ih s1 (by omega) k
      | stop s1 => rfl
      | nilDeref s1 => rfl

/-- C39: the scan of `HandleHeaderRequest` ends for every query and every
storage state, with a response or with the abort on a nil pointer; fuel beyond
`MaxHeaderFetch` passes is never used.  Every pass through the loop body ends
the loop or has appended one header, so the loop makes at most
`MaxHeaderFetch` passes, one fewer than the claimed `MaxHeaderFetch + 1`; every
pass makes at most three storage lookups, and the whole scan at most
`3 * (MaxHeaderFetch + 1)`. -/
theorem HandleHeaderRequest_scan_terminates (L : Limits) (d : Dag)
    (query : MessageHeaderRequest) :
    (∃ s, (HandleHeaderRequest L d query).final = some s) ∧
    (∀ fuel, L.MaxHeaderFetch ≤ fuel →
      scanLoop L d (!query.Origin.Hash.Empty) fuel (initScan query)
        = HandleHeaderRequest L d query) ∧
    (∀ fuel, scanPasses L d (!query.Origin.Hash.Empty) fuel (initScan query)
      ≤ L.MaxHeaderFetch) ∧
    (∀ fuel, scanPasses L d (!query.Origin.Hash.Empty) fuel (initScan query)
      ≤ L.MaxHeaderFetch + 1) ∧
    (∀ s, (∃ s1, iteration L d (!query.Origin.Hash.Empty) s = Iter.stop s1) ∨
      (∃ s1, iteration L d (!query.Origin.Hash.Empty) s = Iter.nilDeref s1) ∨
      (∃ s1, iteration L d (!query.Origin.Hash.Empty) s = Iter.next s1 ∧
        s1.headers.length = s.headers.length + 1)) ∧
    (∀ s, (iteration L d (!query.Origin.Hash.Empty) s).state.calls.length
      ≤ s.calls.length + 3) ∧
    (HandleHeaderRequest L d query).calls.length ≤ 3 * (L.MaxHeaderFetch + 1) := by
  refine ⟨?_, ?_, ?_, ?_, ?_, ?_, ?_⟩
  · obtain ⟨s1, h, -⟩ := scanLoop_invariant L d (!query.Origin.Hash.Empty) (fun _ => True)
      (fun _ _ _ => trivial) L.MaxHeaderFetch (initScan query) trivial (by simp)
    exact ⟨s1, h⟩
  · intro fuel hfuel
    obtain ⟨k, rfl⟩ := Nat.exists_eq_add_of_le hfuel
    exact scanLoop_more_fuel L d _ L.MaxHeaderFetch (initScan query) (by simp) k
  · intro fuel
    have := scanPasses_le L d (!query.Origin.Hash.Empty) fuel (initScan query)
    omega
  · intro fuel
    have := scanPasses_le L d (!query.Origin.Hash.Empty) fuel (initScan query)
    omega
  · intro s
    cases hi : iteration L d (!query.Origin.Hash.Empty) s with
    | next s1 =>
      exact Or.inr (Or.inr ⟨s1, rfl, iteration_next_length L d _ s s1 hi⟩)
    | stop s1 => exact Or.inl ⟨s1, rfl⟩
    | nilDeref s1 => exact Or.inr (Or.inl ⟨s1, rfl⟩)
  · exact iteration_calls L d _
  · have h1 := scanLoop_calls_le L d (!query.Origin.Hash.Empty) L.MaxHeaderFetch
      (initScan query)
    have h2 := scanPasses_le L d (!query.Origin.Hash.Empty) L.MaxHeaderFetch (initScan query)
    unfold HandleHeaderRequest
    simp only [initScan, List.length_nil] at h1 h2 ⊢
    omega

/-- A run of C39: in number mode with `skip = 2^64 - 1` the origin does not
advance, the header at height 1 is gathered three times, and the loop still ends
after three passes with three lookups. -/
theorem HandleHeaderRequest_scan_terminates_witness :
    scanPasses sampleLimits (chainDag 10) false 192
        (initScan (numberQuery 1 3 18446744073709551615 false)) = 3 ∧
    (HandleHeaderRequest sampleLimits (chainDag 10)
        (numberQuery 1 3 18446744073709551615 false)).calls
      = [DagCall.ById 1, DagCall.ById 1, DagCall.ById 1] ∧
    scanLoop sampleLimits (chainDag 10)
        (!(numberQuery 1 3 18446744073709551615 false).Origin.Hash.Empty) 1000
        (initScan (numberQuery 1 3 18446744073709551615 false))
      = HandleHeaderRequest sampleLimits (chainDag 10)
          (numberQuery 1 3 18446744073709551615 false) := by
  refine ⟨?_, ?_, ?_⟩
  · simp [scanPasses, loopCond, iteration, resolveOrigin, advance, initScan, numberQuery,
      chainDag, sampleLimits, toInt, add64, sub64, chainSeq, Hash.Empty]
  · simp [HandleHeaderRequest, scanLoop, loopCond, iteration, resolveOrigin, advance, initScan,
      numberQuery, chainDag, sampleLimits, toInt, add64, sub64, ScanResult.calls, chainSeq,
      Hash.Empty]
  · exact (HandleHeaderRequest_scan_terminates sampleLimits (chainDag 10)
      (numberQuery 1 3 18446744073709551615 false)).2.1 1000 (by decide)

end OG

namespace OG

/-! ## The gas of memory expansion -/

/-- C34, failing on the code: for `newMemSize = 0xffffffffe0`, which the guard
admits, the word count is `0x7ffffffff` and its square does not fit in 64 bits.
The function returns the fee 36028899963961341 computed from the wrapped square,
where the fee over unbounded integers is 2305843112158691325.  The square fits
up to the word count `0xffffffff`, that is up to `newMemSize = 0x1fffffffe0`,
and no further. -/
theorem memoryGasCost_square_overflows :
    vm.wordCount 0xffffffffe0 = 0x7ffffffff ∧
    mul64 (vm.wordCount 0xffffffffe0) (vm.wordCount 0xffffffffe0) = 18446744004990074881 ∧
    vm.wordCount 0xffffffffe0 * vm.wordCount 0xffffffffe0 = 1180591620648691826689 ∧
    vm.memoryGasCost vm.mainnetParams vm.wordCount (vm.Memory.mk 0 0) 0xffffffffe0
      = ((36028899963961341, none), vm.Memory.mk 0 36028899963961341) ∧
    vm.totalFee vm.mainnetParams (vm.wordCount 0xffffffffe0) = 2305843112158691325 ∧
    vm.memoryGasCost vm.mainnetParams vm.wordCount (vm.Memory.mk 0 0) 0x1fffffffe0
      = ((vm.totalFee vm.mainnetParams (vm.wordCount 0x1fffffffe0), none),
          vm.Memory.mk 0 (vm.totalFee vm.mainnetParams (vm.wordCount 0x1fffffffe0))) ∧
    (vm.memoryGasCost vm.mainnetParams vm.wordCount (vm.Memory.mk 0 0) 0x1fffffffe1).1.1
      < vm.totalFee vm.mainnetParams (vm.wordCount 0x1fffffffe1) := by
  refine ⟨by decide, by decide, by decide, rfl, by decide, rfl, by decide⟩

/-- C35, refuted as stated: a size above `0xffffffffe0` is answered with
`errGasUintOverflow`, not with a fee, also when the memory is already larger
than the size. -/
theorem memoryGasCost_oversize_is_error :
    vm.memoryGasCost vm.mainnetParams vm.wordCount (vm.Memory.mk 0 0) 0xffffffffe1
      = ((0, some vm.errGasUintOverflow), vm.Memory.mk 0 0) ∧
    vm.memoryGasCost vm.mainnetParams vm.wordCount (vm.Memory.mk 0x20000000000 7)
        0xffffffffe1
      = ((0, some vm.errGasUintOverflow), vm.Memory.mk 0x20000000000 7) ∧
    mul64 (vm.wordCount 0xffffffffe1) 32 ≤ 0x20000000000 :=
  ⟨rfl, rfl, by decide⟩

theorem sub64_self_of_lt (a : Nat) (h : a < 2 ^ 64) : sub64 a a = 0 := by
  unfold sub64
  rw [Nat.mod_eq_of_lt h]
  have e : a + 2 ^ 64 - a = 2 ^ 64 := by omega
  rw [e]
  simp

theorem add64_lt (a b : Nat) : add64 a b < 2 ^ 64 := Nat.mod_lt _ (by decide)

/-- C35, amended: `memoryGasCost` returns `(0, nil)` and leaves the memory
unchanged when `newMemSize` is 0; it returns `(0, errGasUintOverflow)` and leaves
the memory unchanged when `newMemSize` exceeds `0xffffffffe0`; for a size in
between it returns `(0, nil)` and leaves the memory unchanged when the word count
times 32 does not exceed `mem.Len()`, and otherwise it returns
`newTotalFee - mem.lastGasCost` (in `uint64`) and sets `mem.lastGasCost` to
`newTotalFee`, so that the same call on the memory it leaves returns the fee 0
and changes nothing. -/
theorem memoryGasCost_charges_expansion (P : vm.GasParams) (ToWordSize : Nat → Nat)
    (mem : vm.Memory) (newMemSize : Nat) :
    (newMemSize = 0 → vm.memoryGasCost P ToWordSize mem newMemSize = ((0, none), mem)) ∧
    (0xffffffffe0 < newMemSize →
      vm.memoryGasCost P ToWordSize mem newMemSize
        = ((0, some vm.errGasUintOverflow), mem)) ∧
    (0 < newMemSize → newMemSize ≤ 0xffffffffe0 →
      mul64 (ToWordSize newMemSize) 32 ≤ mem.Len →
      vm.memoryGasCost P ToWordSize mem newMemSize = ((0, none), mem)) ∧
    (0 < newMemSize → newMemSize ≤ 0xffffffffe0 →
      mem.Len < mul64 (ToWordSize newMemSize) 32 →
      vm.memoryGasCost P ToWordSize mem newMemSize
        = ((sub64 (add64 (mul64 (ToWordSize newMemSize) P.MemoryGas)
              (mul64 (ToWordSize newMemSize) (ToWordSize newMemSize) / P.QuadCoeffDiv))
              mem.lastGasCost, none),
           { mem with
             lastGasCost := add64 (mul64 (ToWordSize newMemSize) P.MemoryGas)
               (mul64 (ToWordSize newMemSize) (ToWordSize newMemSize) / P.QuadCoeffDiv) }) ∧
      vm.memoryGasCost P ToWordSize (vm.memoryGasCost P ToWordSize mem newMemSize).2 newMemSize
        = ((0, none), (vm.memoryGasCost P ToWordSize mem newMemSize).2)) := by
  refine ⟨?_, ?_, ?_, ?_⟩
  · intro h
    simp [vm.memoryGasCost, h]
  · intro h
    have h0 : newMemSize ≠ 0 := by omega
    simp [vm.memoryGasCost, h0, h]
  · intro h0 h1 h2
    have h0' : newMemSize ≠ 0 := by omega
    have h1' : ¬ newMemSize > 0xffffffffe0 := by omega
    have h2' : ¬ mul64 (ToWordSize newMemSize) 32 > mem.Len := by omega
    simp only [vm.memoryGasCost, h0', h1', h2', if_false]
  · intro h0 h1 h2
    have h0' : newMemSize ≠ 0 := by omega
    have h1' : ¬ newMemSize > 0xffffffffe0 := by omega
    have h2' : mul64 (ToWordSize newMemSize) 32 > mem.Len := h2
    have hfirst : vm.memoryGasCost P ToWordSize mem newMemSize
        = ((sub64 (add64 (mul64 (ToWordSize newMemSize) P.MemoryGas)
              (mul64 (ToWordSize newMemSize) (ToWordSize newMemSize) / P.QuadCoeffDiv))
              mem.lastGasCost, none),
           { mem with
             lastGasCost := add64 (mul64 (ToWordSize newMemSize) P.MemoryGas)
               (mul64 (ToWordSize newMemSize) (ToWordSize newMemSize) / P.QuadCoeffDiv) }) := by
      simp only [vm.memoryGasCost, h0', h1', h2', if_false, if_true]
    refine ⟨hfirst, ?_⟩
    rw [hfirst]
    simp only [vm.memoryGasCost, h0', h1', h2', if_false, if_true]
    rw [sub64_self_of_lt _ (add64_lt _ _)]

/-- A run of the amended C35: growing an empty memory to 100 bytes, that is 4
words, costs 12 once and nothing when asked again. -/
theorem memoryGasCost_charges_expansion_witness :
    vm.memoryGasCost vm.mainnetParams vm.wordCount (vm.Memory.mk 0 0) 100
      = ((12, none), vm.Memory.mk 0 12) ∧
    vm.memoryGasCost vm.mainnetParams vm.wordCount (vm.Memory.mk 0 12) 100
      = ((0, none), vm.Memory.mk 0 12) ∧
    vm.memoryGasCost vm.mainnetParams vm.wordCount
        (vm.memoryGasCost vm.mainnetParams vm.wordCount (vm.Memory.mk 0 0) 100).2 100
      = ((0, none), (vm.memoryGasCost vm.mainnetParams vm.wordCount (vm.Memory.mk 0 0) 100).2) :=
  ⟨rfl, rfl,
   ((memoryGasCost_charges_expansion vm.mainnetParams vm.wordCount (vm.Memory.mk 0 0) 100).2.2.2
      (by decide) (by decide) (by decide)).2⟩

/-! ## The gas of `SSTORE` -/

theorem gasSStoreSwitch_isSome (P : vm.GasParams) (db : vm.StateDB) (BigToHash : Int → Hash)
    (addr : Nat) (y x : Int) : (vm.gasSStoreSwitch P db BigToHash addr y x).isSome = true := by
  unfold vm.gasSStoreSwitch
  simp only
  split
  · rfl
  · split <;> rfl

/-- C36, failing on the code: every branch of the `switch` at the head of
`gasSStore` returns, so the net metering of EIP-1283 behind it is never
reached.  Writing 5 to a slot that holds 5 is charged `SstoreResetGas` (5000)
where the net metering charges `NetSstoreNoopGas` (200); writing 0 to a slot
that holds 5 since the start of the transaction is charged `SstoreClearGas`
with the refund `SstoreRefundGas` where the net metering charges
`NetSstoreCleanGas` with the refund `NetSstoreClearRefund`, after reading the
committed state. -/
theorem gasSStore_never_reaches_net_metering :
    (∀ (P : vm.GasParams) (db : vm.StateDB) (BigToHash : Int → Hash) (addr : Nat) (y x : Int),
      (vm.gasSStoreSwitch P db BigToHash addr y x).isSome = true ∧
      vm.gasSStore P db BigToHash addr y x
        = (vm.gasSStoreSwitch P db BigToHash addr y x).getD
            (vm.gasSStoreNet P db BigToHash addr y x) ∧
      vm.StateCall.GetCommittedState addr (BigToHash x)
        ∉ (vm.gasSStore P db BigToHash addr y x).calls) ∧
    vm.gasSStore vm.mainnetParams vm.sampleStateDB vm.sampleBigToHash 9 5 1
      = vm.GasResult.mk 5000 none [vm.StateCall.GetState 9 1] ∧
    vm.gasSStoreNet vm.mainnetParams vm.sampleStateDB vm.sampleBigToHash 9 5 1
      = vm.GasResult.mk 200 none [vm.StateCall.GetState 9 1] ∧
    vm.gasSStore vm.mainnetParams vm.sampleStateDB vm.sampleBigToHash 9 0 1
      = vm.GasResult.mk 5000 none [vm.StateCall.GetState 9 1, vm.StateCall.AddRefund 15000] ∧
    vm.gasSStoreNet vm.mainnetParams vm.sampleStateDB vm.sampleBigToHash 9 0 1
      = vm.GasResult.mk 5000 none
          [vm.StateCall.GetState 9 1, vm.StateCall.GetCommittedState 9 1,
           vm.StateCall.AddRefund 15000] := by
  refine ⟨?_, rfl, rfl, rfl, rfl⟩
  intro P db BigToHash addr y x
  have hs := gasSStoreSwitch_isSome P db BigToHash addr y x
  refine ⟨hs, ?_, ?_⟩
  · unfold vm.gasSStore
    cases h : vm.gasSStoreSwitch P db BigToHash addr y x with
    | none => rw [h] at hs; cases hs
    | some r => rfl
  · unfold vm.gasSStore vm.gasSStoreSwitch
    simp only
    split_ifs <;> simp

/-- C37: `gasSStore` tells three cases by the slot's current value and the new
value `y`.  From zero to non-zero it returns `SstoreSetGas` and its only call on
the state is the read of the slot; from non-zero to zero it returns
`SstoreClearGas` and calls `AddRefund(SstoreRefundGas)` exactly once; in every
other case, non-zero to non-zero or zero to zero, it returns `SstoreResetGas`
without a refund.  It never returns an error. -/
theorem gasSStore_three_scenarios (P : vm.GasParams) (db : vm.StateDB)
    (BigToHash : Int → Hash) (addr : Nat) (y x : Int) :
    (db.GetState addr (BigToHash x) = 0 → y ≠ 0 →
      vm.gasSStore P db BigToHash addr y x
        = vm.GasResult.mk P.SstoreSetGas none [vm.StateCall.GetState addr (BigToHash x)]) ∧
    (db.GetState addr (BigToHash x) ≠ 0 → y = 0 →
      vm.gasSStore P db BigToHash addr y x
        = vm.GasResult.mk P.SstoreClearGas none
            [vm.StateCall.GetState addr (BigToHash x),
             vm.StateCall.AddRefund P.SstoreRefundGas]) ∧
    ((db.GetState addr (BigToHash x) ≠ 0 ∧ y ≠ 0) ∨
        (db.GetState addr (BigToHash x) = 0 ∧ y = 0) →
      vm.gasSStore P db BigToHash addr y x
        = vm.GasResult.mk P.SstoreResetGas none [vm.StateCall.GetState addr (BigToHash x)]) ∧
    (vm.gasSStore P db BigToHash addr y x).err = none := by
  refine ⟨?_, ?_, ?_, ?_⟩
  · intro hc hy
    simp [vm.gasSStore, vm.gasSStoreSwitch, hc, hy, Int.sign_eq_zero_iff_zero]
  · intro hc hy
    simp [vm.gasSStore, vm.gasSStoreSwitch, hc, hy]
  · rintro (⟨hc, hy⟩ | ⟨hc, hy⟩)
    · simp [vm.gasSStore, vm.gasSStoreSwitch, hc, hy, Int.sign_eq_zero_iff_zero]
    · simp [vm.gasSStore, vm.gasSStoreSwitch, hc, hy]
  · unfold vm.gasSStore vm.gasSStoreSwitch
    simp only
    split_ifs <;> rfl

/-- A run of C37: slot 3 is empty and receives 8, slot 1 holds 5 and receives 0,
slot 1 receives 6, and the empty slot 3 receives 0. -/
theorem gasSStore_three_scenarios_witness :
    vm.gasSStore vm.mainnetParams vm.sampleStateDB vm.sampleBigToHash 9 8 3
      = vm.GasResult.mk 20000 none [vm.StateCall.GetState 9 3] ∧
    vm.gasSStore vm.mainnetParams vm.sampleStateDB vm.sampleBigToHash 9 0 1
      = vm.GasResult.mk 5000 none [vm.StateCall.GetState 9 1, vm.StateCall.AddRefund 15000] ∧
    vm.gasSStore vm.mainnetParams vm.sampleStateDB vm.sampleBigToHash 9 6 1
      = vm.GasResult.mk 5000 none [vm.StateCall.GetState 9 1] ∧
    vm.gasSStore vm.mainnetParams vm.sampleStateDB vm.sampleBigToHash 9 0 3
      = vm.GasResult.mk 5000 none [vm.StateCall.GetState 9 3] :=
  ⟨(gasSStore_three_scenarios vm.mainnetParams vm.sampleStateDB vm.sampleBigToHash 9 8 3).1
     (by decide) (by decide),
   (gasSStore_three_scenarios vm.mainnetParams vm.sampleStateDB vm.sampleBigToHash 9 0 1).2.1
     (by decide) rfl,
   (gasSStore_three_scenarios vm.mainnetParams vm.sampleStateDB vm.sampleBigToHash 9 6 1).2.2.1
     (Or.inl ⟨by decide, by decide⟩),
   (gasSStore_three_scenarios vm.mainnetParams vm.sampleStateDB vm.sampleBigToHash 9 0 3).2.2.1
     (Or.inr ⟨by decide, rfl⟩)⟩

end OG

namespace OG

/-! ## The envelope round trip -/

/-- What `MarshalMsg` writes for an envelope, given the encodings of its parts. -/
theorem P2PMessage_MarshalMsg_eq {μ : Type} (lib : Msgp) (cm : Codec μ) (ch : Codec Hash)
    (m : P2PMessage μ) (eT eS eV eM eN : Bytes)
    (hreq : ∀ b n, lib.Require b n = b)
    (hT : ∀ b, lib.AppendUint64 b m.MessageType = b ++ eT)
    (hS : ∀ b, lib.AppendString b m.SourceID = b ++ eS)
    (hV : ∀ b, lib.AppendInt b m.Version = b ++ eV)
    (hM : ∀ b, cm.MarshalMsg m.Message b = (b ++ eM, none))
    (hN : ∀ b, lib.AppendNil b = b ++ eN) (b : Bytes) :
    (m.SourceHash = none →
      P2PMessage.MarshalMsg lib cm ch m b
        = (b ++ 0x95 :: (eT ++ (eS ++ (eV ++ (eM ++ eN)))), none)) ∧
    (∀ hash eH, m.SourceHash = some hash → (∀ b, ch.MarshalMsg hash b = (b ++ eH, none)) →
      P2PMessage.MarshalMsg lib cm ch m b
        = (b ++ 0x95 :: (eT ++ (eS ++ (eV ++ (eM ++ eH)))), none)) := by
  constructor
  · intro hs
    simp [P2PMessage.MarshalMsg, hreq, hT, hS, hV, hM, hN, hs]
  · intro hash eH hs hH
    simp [P2PMessage.MarshalMsg, hreq, hT, hS, hV, hM, hH, hs]

/-- What `UnmarshalMsg` reads from an array of 5 whose parts are read back. -/
theorem P2PMessage_UnmarshalMsg_eq {μ : Type} (rd : MsgpRead) (dm : Decoder μ)
    (dh : Decoder Hash) (m z0 : P2PMessage μ) (eT eS eV eM : Bytes)
    (ht : m.MessageType < 2 ^ 16)
    (hA : ∀ rest, rd.ReadArrayHeaderBytes (0x95 :: rest) = (5, rest, none))
    (hT : ∀ rest, rd.ReadUint64Bytes (eT ++ rest) = (m.MessageType, rest, none))
    (hS : ∀ rest, rd.ReadStringBytes (eS ++ rest) = (m.SourceID, rest, none))
    (hV : ∀ rest, rd.ReadIntBytes (eV ++ rest) = (m.Version, rest, none))
    (hM : ∀ z rest, dm.UnmarshalMsg z (eM ++ rest) = (m.Message, rest, none)) :
    (∀ eN rest, m.SourceHash = none → rd.IsNil (eN ++ rest) = true →
      rd.ReadNilBytes (eN ++ rest) = (rest, none) →
      P2PMessage.UnmarshalMsg rd dm dh z0 (0x95 :: (eT ++ (eS ++ (eV ++ (eM ++ (eN ++ rest))))))
        = (m, rest, none)) ∧
    (∀ hash eH rest, m.SourceHash = some hash → rd.IsNil (eH ++ rest) = false →
      (∀ z, dh.UnmarshalMsg z (eH ++ rest) = (hash, rest, none)) →
      P2PMessage.UnmarshalMsg rd dm dh z0 (0x95 :: (eT ++ (eS ++ (eV ++ (eM ++ (eH ++ rest))))))
        = (m, rest, none)) := by
  have hmod : m.MessageType % 2 ^ 16 = m.MessageType := Nat.mod_eq_of_lt ht
  constructor
  · intro eN rest hs hnil hread
    cases m with
    | mk t s v msg sh =>
      simp only at hs hmod hT hS hV hM
      subst hs
      simp only [P2PMessage.UnmarshalMsg, hA, hT, hS, hV, hM, hnil, hread, hmod, if_true,
        ne_eq, not_true_eq_false, if_false]
  · intro hash eH rest hs hnil hread
    cases m with
    | mk t s v msg sh =>
      simp only at hs hmod hT hS hV hM
      subst hs
      simp only [P2PMessage.UnmarshalMsg, hA, hT, hS, hV, hM, hnil, hread, hmod,
        ne_eq, not_true_eq_false, if_false, Bool.false_eq_true]

end OG

namespace OG

theorem fromBigEndian_snoc (l : Bytes) (x : Nat) :
    msgp.fromBigEndian (l ++ [x]) = msgp.fromBigEndian l * 256 + x := by
  simp [msgp.fromBigEndian, List.foldl_append]

theorem fromBigEndian_bigEndian (width n : Nat) :
    msgp.fromBigEndian (msgp.bigEndian width n) = n % 256 ^ width := by
  induction width generalizing n with
  | zero => simp [msgp.bigEndian, msgp.fromBigEndian, Nat.mod_one]
  | succ w ih =>
    rw [msgp.bigEndian, fromBigEndian_snoc, ih, pow_succ, Nat.mul_comm (256 ^ w) 256,
      Nat.mod_mul]
    omega

theorem readUnsigned_bigEndian (width n : Nat) (rest : Bytes) (h : n < 256 ^ width) :
    msgp.readUnsigned width (msgp.bigEndian width n ++ rest) = (n, rest, none) := by
  have hl := bigEndian_length width n
  unfold msgp.readUnsigned
  have h1 : ¬ (msgp.bigEndian width n ++ rest).length < width := by
    simp [hl]
  rw [if_neg h1, List.take_left' hl, List.drop_left' hl, fromBigEndian_bigEndian,
    Nat.mod_eq_of_lt h]

theorem readSigned_bigEndian (width n : Nat) (rest : Bytes) (h : n < 256 ^ width) :
    msgp.readSigned width (msgp.bigEndian width n ++ rest)
      = (msgp.toSigned width n, rest, none) := by
  have hl := bigEndian_length width n
  unfold msgp.readSigned
  have h1 : ¬ (msgp.bigEndian width n ++ rest).length < width := by
    simp [hl]
  rw [if_neg h1, List.take_left' hl, List.drop_left' hl, fromBigEndian_bigEndian,
    Nat.mod_eq_of_lt h]

theorem readBody_append (s rest : Bytes) :
    msgp.readBody s.length (s ++ rest) = (s, rest, none) := by
  unfold msgp.readBody
  have h1 : ¬ (s ++ rest).length < s.length := by simp
  rw [if_neg h1, List.take_left, List.drop_left]

theorem AppendUint64_append (b : Bytes) (u : Nat) :
    msgp.AppendUint64 b u = b ++ msgp.AppendUint64 [] u := by
  unfold msgp.AppendUint64
  split_ifs <;> simp

theorem AppendInt64_append (b : Bytes) (i : Int) :
    msgp.AppendInt64 b i = b ++ msgp.AppendInt64 [] i := by
  unfold msgp.AppendInt64
  split_ifs <;> simp

theorem AppendString_append (b s : Bytes) :
    msgp.AppendString b s = b ++ msgp.AppendString [] s := by
  unfold msgp.AppendString
  split_ifs <;> simp

/-- An unsigned 64-bit number is read back from what `AppendUint64` wrote. -/
theorem ReadUint64Bytes_AppendUint64 (u : Nat) (h : u < 2 ^ 64) (rest : Bytes) :
    msgp.ReadUint64Bytes (msgp.AppendUint64 [] u ++ rest) = (u, rest, none) := by
  unfold msgp.AppendUint64
  split_ifs with h1 h2 h3 h4
  · simp [msgp.ReadUint64Bytes, h1]
  · simp [msgp.ReadUint64Bytes, readUnsigned_bigEndian 1 u rest (by omega)]
  · simp [msgp.ReadUint64Bytes, readUnsigned_bigEndian 2 u rest (by omega)]
  · simp [msgp.ReadUint64Bytes, readUnsigned_bigEndian 4 u rest (by omega)]
  · simp [msgp.ReadUint64Bytes, readUnsigned_bigEndian 8 u rest (by omega)]

/-- A signed 64-bit number is read back from what `AppendInt64` wrote. -/
theorem ReadInt64Bytes_AppendInt64 (i : Int) (hlo : -2 ^ 63 ≤ i) (hhi : i < 2 ^ 63)
    (rest : Bytes) :
    msgp.ReadInt64Bytes (msgp.AppendInt64 [] i ++ rest) = (i, rest, none) := by
  unfold msgp.AppendInt64
  split_ifs with h0 h1 h2 h3 h4 h5 h6 h7
  · have : i.toNat ≤ 127 := by omega
    simp [msgp.ReadInt64Bytes, this]
    omega
  · simp [msgp.ReadInt64Bytes, readSigned_bigEndian 2 i.toNat rest (by omega), msgp.toSigned]
    omega
  · simp [msgp.ReadInt64Bytes, readSigned_bigEndian 4 i.toNat rest (by omega), msgp.toSigned]
    omega
  · simp [msgp.ReadInt64Bytes, readSigned_bigEndian 8 i.toNat rest (by omega), msgp.toSigned]
    omega
  · have h8 : ¬ (i + 256).toNat ≤ 127 := by omega
    have h9 : 224 ≤ (i + 256).toNat ∧ (i + 256).toNat ≤ 255 := by omega
    simp [msgp.ReadInt64Bytes, h8, h9]
    omega
  · simp [msgp.ReadInt64Bytes, readSigned_bigEndian 1 (i + 256).toNat rest (by omega),
      msgp.toSigned]
    omega
  · simp [msgp.ReadInt64Bytes, readSigned_bigEndian 2 (i + 65536).toNat rest (by omega),
      msgp.toSigned]
    omega
  · simp [msgp.ReadInt64Bytes, readSigned_bigEndian 4 (i + 4294967296).toNat rest (by omega),
      msgp.toSigned]
    omega
  · simp [msgp.ReadInt64Bytes,
      readSigned_bigEndian 8 (i + 18446744073709551616).toNat rest (by omega), msgp.toSigned]
    omega

/-- A string shorter than `2 ^ 32` bytes is read back from what `AppendString`
wrote. -/
theorem ReadStringBytes_AppendString (s : Bytes) (h : s.length < 2 ^ 32) (rest : Bytes) :
    msgp.ReadStringBytes (msgp.AppendString [] s ++ rest) = (s, rest, none) := by
  unfold msgp.AppendString
  split_ifs with h1 h2 h3
  · have h4 : 160 ≤ 160 + s.length ∧ 160 + s.length ≤ 191 := by omega
    simp [msgp.ReadStringBytes, h4, readBody_append]
  · simp [msgp.ReadStringBytes, readUnsigned_bigEndian 1 s.length (s ++ rest) (by omega),
      readBody_append]
  · simp [msgp.ReadStringBytes, readUnsigned_bigEndian 2 s.length (s ++ rest) (by omega),
      readBody_append]
  · simp [msgp.ReadStringBytes, readUnsigned_bigEndian 4 s.length (s ++ rest) (by omega),
      readBody_append]

/-- The MessagePack wire format reads back every unsigned 64-bit number, every
string shorter than `2 ^ 32` bytes and every signed 64-bit number. -/
theorem wire_roundTripsAt (messageType : Nat) (sourceID : Bytes) (version : Int)
    (ht : messageType < 2 ^ 64) (hs : sourceID.length < 2 ^ 32)
    (hlo : -2 ^ 63 ≤ version) (hhi : version < 2 ^ 63) :
    msgp.wire.RoundTripsAt msgp.wireRead messageType sourceID version where
  require := fun _ _ => rfl
  arrayHeader := fun rest => by simp [msgp.wireRead, msgp.ReadArrayHeaderBytes]
  uint64 := ⟨msgp.AppendUint64 [] messageType, fun b => AppendUint64_append b messageType,
    fun rest => ReadUint64Bytes_AppendUint64 messageType ht rest⟩
  string := ⟨msgp.AppendString [] sourceID, fun b => AppendString_append b sourceID,
    fun rest => ReadStringBytes_AppendString sourceID hs rest⟩
  int := ⟨msgp.AppendInt64 [] version, fun b => AppendInt64_append b version,
    fun rest => ReadInt64Bytes_AppendInt64 version hlo hhi rest⟩
  nil := ⟨[0xc0], fun _ => rfl, fun rest => by
    simp [msgp.wireRead, msgp.IsNil, msgp.ReadNilBytes]⟩

theorem samplePing_roundTripsAt (z : Unit) :
    samplePingCodec.RoundTripsAt samplePingDecoder (fun _ => True) z :=
  ⟨[0xc0], fun _ => rfl, fun _ _ => rfl, fun _ => trivial⟩

theorem sampleHash_roundTripsAt (hash : Nat) (h : hash < 2 ^ 32) :
    sampleHashCodec.RoundTripsAt sampleHashDecoder
      (fun bts => msgp.wireRead.IsNil bts = false) hash := by
  have h4 : hash < 256 ^ 4 := by omega
  refine ⟨0xc4 :: 4 :: msgp.bigEndian 4 hash, fun _ => rfl, fun z0 rest => ?_, fun rest => rfl⟩
  simp [sampleHashDecoder, readUnsigned_bigEndian 4 hash rest h4]

/-- C38: the envelope round-trips.  For every `P2PMessage` `m`, with
`SourceHash` present or nil, `MarshalMsg` returns no error and `UnmarshalMsg`
applied to the bytes it produced, on any receiver that carries a message of the
same dynamic type, returns no error, leaves no bytes and turns the receiver into
`m` (equal in `MessageType`, `SourceID`, `Version`, `Message` and `SourceHash`),
provided the library reads back what it writes for the three plain fields and
the codecs of the carried message and of `types.Hash`, which are declared
elsewhere, read back the two nested values, the encoding of a hash never
starting like nil.  Input that starts with an array header of a length other
than 5 fails with `ArrayError{Wanted: 5, Got: length}` and leaves the receiver
as it was. -/
theorem P2PMessage_round_trip {μ : Type} (lib : Msgp) (rd : MsgpRead) (cm : Codec μ)
    (dm : Decoder μ) (ch : Codec Hash) (dh : Decoder Hash) (m z0 : P2PMessage μ)
    (ht : m.MessageType < 2 ^ 16)
    (hlib : lib.RoundTripsAt rd m.MessageType m.SourceID m.Version)
    (hm : cm.RoundTripsAt dm (fun _ => True) m.Message)
    (hh : ∀ hash, m.SourceHash = some hash →
      ch.RoundTripsAt dh (fun bts => rd.IsNil bts = false) hash) :
    (P2PMessage.MarshalMsg lib cm ch m []).2 = none ∧
    P2PMessage.UnmarshalMsg rd dm dh z0 (P2PMessage.MarshalMsg lib cm ch m []).1
      = (m, [], none) ∧
    (∀ bts count rest, rd.ReadArrayHeaderBytes bts = (count, rest, none) → count ≠ 5 →
      P2PMessage.UnmarshalMsg rd dm dh z0 bts
        = (z0, [], some (MsgError.ArrayError 5 count))) := by
  obtain ⟨eT, hT1, hT2⟩ := hlib.uint64
  obtain ⟨eS, hS1, hS2⟩ := hlib.string
  obtain ⟨eV, hV1, hV2⟩ := hlib.int
  obtain ⟨eN, hN1, hN2⟩ := hlib.nil
  obtain ⟨eM, hM1, hM2, -⟩ := hm
  have hmar := P2PMessage_MarshalMsg_eq lib cm ch m eT eS eV eM eN hlib.require hT1 hS1 hV1
    hM1 hN1 []
  have hun := P2PMessage_UnmarshalMsg_eq rd dm dh m z0 eT eS eV eM ht hlib.arrayHeader hT2
    hS2 hV2 (fun z rest => hM2 z rest)
  have hfirst : (P2PMessage.MarshalMsg lib cm ch m []).2 = none ∧
      P2PMessage.UnmarshalMsg rd dm dh z0 (P2PMessage.MarshalMsg lib cm ch m []).1
        = (m, [], none) := by
    cases hs : m.SourceHash with
    | none =>
      rw [hmar.1 hs]
      refine ⟨rfl, ?_⟩
      have := hun.1 eN [] hs (hN2 []).1 (hN2 []).2
      simpa using this
    | some hash =>
      obtain ⟨eH, hH1, hH2, hH3⟩ := hh hash hs
      rw [hmar.2 hash eH hs hH1]
      refine ⟨rfl, ?_⟩
      have := hun.2 hash eH [] hs (hH3 []) (fun z => hH2 z [])
      simpa using this
  refine ⟨hfirst.1, hfirst.2, ?_⟩
  intro bts count rest hread hne
  simp only [P2PMessage.UnmarshalMsg, hread, ne_eq, hne, not_false_eq_true, if_true]

/-- A run of C38 on the MessagePack wire format: the sample envelope with a
source hash and the one without are read back into receivers that held other
values, and an array of 4 is refused. -/
theorem P2PMessage_round_trip_witness :
    sampleEnvelope.MessageType < 2 ^ 16 ∧
    msgp.wire.RoundTripsAt msgp.wireRead sampleEnvelope.MessageType sampleEnvelope.SourceID
      sampleEnvelope.Version ∧
    P2PMessage.MarshalMsg msgp.wire samplePingCodec sampleHashCodec sampleEnvelope []
      = ([0x95, 0xcd, 0x01, 0x2c, 0xa4, 0x70, 0x65, 0x65, 0x72, 0xfe, 0xc0,
          0xc4, 4, 0, 0, 0, 7], none) ∧
    P2PMessage.UnmarshalMsg msgp.wireRead samplePingDecoder sampleHashDecoder emptyEnvelope
        (P2PMessage.MarshalMsg msgp.wire samplePingCodec sampleHashCodec sampleEnvelope []).1
      = (sampleEnvelope, [], none) ∧
    P2PMessage.UnmarshalMsg msgp.wireRead samplePingDecoder sampleHashDecoder sampleEnvelope
        (P2PMessage.MarshalMsg msgp.wire samplePingCodec sampleHashCodec
          sampleEnvelopeNoHash []).1
      = (sampleEnvelopeNoHash, [], none) ∧
    P2PMessage.UnmarshalMsg msgp.wireRead samplePingDecoder sampleHashDecoder emptyEnvelope
        [0x94, 1, 2]
      = (emptyEnvelope, [], some (MsgError.ArrayError 5 4)) :=
  ⟨by decide,
   wire_roundTripsAt _ _ _ (by decide) (by decide) (by decide) (by decide),
   rfl,
   (P2PMessage_round_trip msgp.wire msgp.wireRead samplePingCodec samplePingDecoder
      sampleHashCodec sampleHashDecoder sampleEnvelope emptyEnvelope (by decide)
      (wire_roundTripsAt _ _ _ (by decide) (by decide) (by decide) (by decide))
      (samplePing_roundTripsAt _)
      (fun hash h => sampleHash_roundTripsAt hash (by
        have : hash = 7 := by simpa [sampleEnvelope] using h.symm
        subst this; decide))).2.1,
   rfl, rfl⟩

end OG
